import Mathlib

/-!
# Dynamic memory allocator (implicit free list, boundary tags)

A shallow embedding of `src/mem_allocator.c`.  Pointers are addresses (natural
numbers); `NULL` is the address `0` and `(void *) -1` is `2^64 - 1`.  The memory
is a map from addresses to bytes; a word is four bytes, least significant byte
first.  `size_t` values are taken modulo `2^64`, tag words modulo `2^32`.
-/

namespace MemAllocator

/-! ## Constants of `config.h` and `mem_allocator.c` -/

/-- The word size `WSIZE`. -/
abbrev WSIZE : Nat := 4

/-- The double-word size `DSIZE`. -/
abbrev DSIZE : Nat := 8

/-- The extension granularity `CHUNCKSIZE`, `(1<<12)`. -/
abbrev CHUNCKSIZE : Nat := 4096

/-- The capacity `MAX_HEAP` of `config.h`, `(20*(1<<20))`. -/
abbrev MAX_HEAP : Nat := 20971520

/-- The number of values of a `size_t`. -/
abbrev SIZE_T : Nat := 18446744073709551616

/-- The number of values of an `unsigned int`. -/
abbrev UINT : Nat := 4294967296

/-- The null pointer. -/
abbrev NULL : Nat := 0

/-- The pointer `(void *) -1`. -/
abbrev MINUS_ONE : Nat := 18446744073709551615

/-! ## State -/

/-- The simulated memory system together with the two globals of the allocator.
`mem` gives the byte at every address, `mem_heap` is the first byte of the
region and `mem_brk` the break. -/
structure MemState where
  mem : Nat → Nat
  mem_heap : Nat
  mem_brk : Nat
  heap_listp : Nat
  alloc_ptr : Nat

/-! ## Macros -/

/-- The macro `MAX(x,y)`. -/
def MAX (x y : Nat) : Nat := if x > y then x else y

/-- The macro `PACK(size, alloc)`. -/
def PACK (size alloc : Nat) : Nat := size ||| alloc

/-- The macro `GET(p)`: the `unsigned int` stored in the four bytes at `p`. -/
def GET (m : Nat → Nat) (p : Nat) : Nat :=
  m p % 256 + 256 * (m (p + 1) % 256) + 65536 * (m (p + 2) % 256)
    + 16777216 * (m (p + 3) % 256)

/-- The macro `PUT(p,val)`: stores `val`, cut to an `unsigned int`, in the four
bytes at `p`. -/
def PUT (m : Nat → Nat) (p val : Nat) : Nat → Nat := fun a =>
  if a = p then val % 256
  else if a = p + 1 then val / 256 % 256
  else if a = p + 2 then val / 65536 % 256
  else if a = p + 3 then val / 16777216 % 256
  else m a

/-- The macro `GET_SIZE(p)`; `~0x7` as an `unsigned int` is `0xFFFFFFF8`. -/
def GET_SIZE (m : Nat → Nat) (p : Nat) : Nat := GET m p &&& 4294967288

/-- The macro `GET_ALLOC(p)`. -/
def GET_ALLOC (m : Nat → Nat) (p : Nat) : Nat := GET m p &&& 1

/-- The macro `HDRP(bp)`. -/
def HDRP (bp : Nat) : Nat := bp - WSIZE

/-- The macro `FTRP(bp)`. -/
def FTRP (m : Nat → Nat) (bp : Nat) : Nat := bp + GET_SIZE m (HDRP bp) - DSIZE

/-- The macro `NEXT_BLKP(bp)`. -/
def NEXT_BLKP (m : Nat → Nat) (bp : Nat) : Nat := bp + GET_SIZE m (bp - WSIZE)

/-- The macro `PREV_BLKP(bp)`.  The subtraction stops at address `0`; the C
code would leave the region there. -/
def PREV_BLKP (m : Nat → Nat) (bp : Nat) : Nat := bp - GET_SIZE m (bp - DSIZE)

/-- Conversion of a `size_t` to the `int` parameter of `mem_sbrk`. -/
def toInt (n : Nat) : Int :=
  if n % UINT < 2147483648 then ((n % UINT : Nat) : Int) else ((n % UINT : Nat) : Int) - 4294967296

/-! ## The memory system (`memlib.c`) -/

/-- Modelled from the spec: `mem_init` of `memlib.c` (absent from the sources).
The region of `MAX_HEAP` bytes starts at `base` and holds the bytes `bytes`;
the break is set to the base. The globals of the allocator are still null. -/
def mem_init (base : Nat) (bytes : Nat → Nat) : MemState :=
  { mem := bytes, mem_heap := base, mem_brk := base, heap_listp := NULL, alloc_ptr := NULL }

/-- Modelled from the spec: `mem_sbrk` of `memlib.c` (absent from the sources).
Fails with `(void *) -1` when `incr < 0` or when the new break would exceed the
capacity; otherwise advances the break by `incr` and returns the old break. -/
def mem_sbrk (s : MemState) (incr : Int) : MemState × Nat :=
  if incr < 0 ∨ s.mem_brk + incr.toNat > s.mem_heap + MAX_HEAP then (s, MINUS_ONE)
  else ({ s with mem_brk := s.mem_brk + incr.toNat }, s.mem_brk)

/-! ## The allocator (`mem_allocator.c`) -/

/-- The function `merge`: boundary-tag coalescing of the free block `bp`. -/
def merge (s : MemState) (bp : Nat) : MemState × Nat :=
  let m := s.mem
  let prev_alloc := GET_ALLOC m (FTRP m (PREV_BLKP m bp))
  let next_alloc := GET_ALLOC m (HDRP (NEXT_BLKP m bp))
  let size := GET_SIZE m (HDRP bp)
  if prev_alloc ≠ 0 ∧ next_alloc ≠ 0 then
    (s, bp)
  else if prev_alloc ≠ 0 ∧ next_alloc = 0 then
    let size := size + GET_SIZE m (HDRP (NEXT_BLKP m bp))
    let m1 := PUT m (HDRP bp) (PACK size 0)
    let m2 := PUT m1 (FTRP m1 bp) (PACK size 0)
    ({ s with mem := m2 }, bp)
  else if prev_alloc = 0 ∧ next_alloc ≠ 0 then
    let size := size + GET_SIZE m (HDRP (PREV_BLKP m bp))
    let m1 := PUT m (FTRP m bp) (PACK size 0)
    let m2 := PUT m1 (HDRP (PREV_BLKP m1 bp)) (PACK size 0)
    ({ s with mem := m2 }, PREV_BLKP m2 bp)
  else
    let size := size
      + (GET_SIZE m (HDRP (PREV_BLKP m bp)) + GET_SIZE m (FTRP m (NEXT_BLKP m bp))) % UINT
    let m1 := PUT m (HDRP (PREV_BLKP m bp)) (PACK size 0)
    let m2 := PUT m1 (FTRP m1 (NEXT_BLKP m1 bp)) (PACK size 0)
    ({ s with mem := m2 }, PREV_BLKP m2 bp)

/-- The function `mm_free`. -/
def mm_free (s : MemState) (bp : Nat) : MemState :=
  let size := GET_SIZE s.mem (HDRP bp)
  let m1 := PUT s.mem (HDRP bp) (PACK size 0)
  let m2 := PUT m1 (FTRP m1 bp) (PACK size 0)
  (merge { s with mem := m2 } bp).1

/-- The function `extend_heap`. -/
def extend_heap (s : MemState) (words : Nat) : MemState × Nat :=
  let size := if words % 2 ≠ 0 then (words + 1) * WSIZE % SIZE_T else words * WSIZE % SIZE_T
  let r := mem_sbrk s (toInt size)
  let bp := r.2
  if bp = MINUS_ONE then (r.1, NULL)
  else
    let m1 := PUT r.1.mem (HDRP bp) (PACK size 0)
    let m2 := PUT m1 (FTRP m1 bp) (PACK size 0)
    let m3 := PUT m2 (HDRP (NEXT_BLKP m2 bp)) (PACK 0 1)
    merge { r.1 with mem := m3 } bp

/-- The loop of `find_fit`, run for at most the given number of passes; `none`
when the passes are used up before the loop ends. -/
def find_fit_loop (m : Nat → Nat) (asize : Nat) : Nat → Nat → Option Nat
  | 0, _ => none
  | fuel + 1, iter =>
    if GET_SIZE m (HDRP iter) ≠ 0 then
      if GET_ALLOC m (HDRP iter) = 0 ∧ GET_SIZE m (HDRP iter) ≥ asize then some iter
      else find_fit_loop m asize fuel (NEXT_BLKP m iter)
    else some NULL

/-- The value of `iter` in `find_fit` after the given number of passes that go
on to `NEXT_BLKP(iter)`. -/
def iterAfter (m : Nat → Nat) : Nat → Nat → Nat
  | 0, iter => iter
  | k + 1, iter => iterAfter m k (NEXT_BLKP m iter)

/-- The number of passes granted to the loop of `find_fit`.  Every pass moves
`iter` forward by at least `DSIZE` bytes, so a walk that stays inside a region
of `MAX_HEAP` bytes ends within this many passes. -/
abbrev find_fit_passes : Nat := MAX_HEAP / DSIZE

/-- The function `find_fit`; `none` when the walk does not end inside the
region. -/
def find_fit (s : MemState) (asize : Nat) : Option Nat :=
  find_fit_loop s.mem asize find_fit_passes s.heap_listp

/-- The function `place`. -/
def place (s : MemState) (bp asize : Nat) : MemState :=
  let csize := GET_SIZE s.mem (HDRP bp)
  if (csize + SIZE_T - asize) % SIZE_T ≥ 2 * DSIZE then
    let m1 := PUT s.mem (HDRP bp) (PACK asize 1)
    let m2 := PUT m1 (FTRP m1 bp) (PACK asize 1)
    let temp := NEXT_BLKP m2 bp
    let m3 := PUT m2 (HDRP temp) (PACK ((csize + SIZE_T - asize) % SIZE_T) 0)
    let m4 := PUT m3 (FTRP m3 temp) (PACK ((csize + SIZE_T - asize) % SIZE_T) 0)
    { s with mem := m4 }
  else
    let m1 := PUT s.mem (HDRP bp) (PACK csize 1)
    let m2 := PUT m1 (FTRP m1 bp) (PACK csize 1)
    { s with mem := m2 }

/-- The adjusted block size computed at the start of `mm_malloc`. -/
def adjust (size : Nat) : Nat :=
  if size ≤ DSIZE then 2 * DSIZE
  else DSIZE * ((size + DSIZE + (DSIZE - 1)) % SIZE_T / DSIZE) % SIZE_T

/-- The function `mm_malloc`, for `size < 2^64`; `none` when the walk of
`find_fit` does not end inside the region. -/
def mm_malloc (s : MemState) (size : Nat) : Option (MemState × Nat) :=
  if size = 0 then some (s, NULL)
  else
    let asize := adjust size
    match find_fit s asize with
    | none => none
    | some p =>
      let s1 := { s with alloc_ptr := p }
      if p ≠ NULL then some (place s1 p size, p)
      else
        let extendsize := MAX asize CHUNCKSIZE
        let r := extend_heap s1 (extendsize / WSIZE)
        let s2 := { r.1 with alloc_ptr := r.2 }
        if r.2 = NULL then some (s2, NULL)
        else some (place s2 r.2 asize, r.2)

/-- The function `mm_init`; the second component is the returned `int`. -/
def mm_init (s : MemState) : MemState × Int :=
  let r := mem_sbrk s (toInt (4 * WSIZE))
  let s1 := { r.1 with heap_listp := r.2 }
  if r.2 = MINUS_ONE then (s1, -1)
  else
    let m1 := PUT s1.mem s1.heap_listp 0
    let m2 := PUT m1 (s1.heap_listp + 1 * WSIZE) (PACK DSIZE 1)
    let m3 := PUT m2 (s1.heap_listp + 2 * WSIZE) (PACK DSIZE 1)
    let m4 := PUT m3 (s1.heap_listp + 3 * WSIZE) (PACK 0 1)
    let s2 := { s1 with mem := m4, heap_listp := s1.heap_listp + 2 * WSIZE }
    let r2 := extend_heap s2 (CHUNCKSIZE / WSIZE)
    if r2.2 = NULL then (r2.1, -1) else (r2.1, 0)

/-! ## Heap structure -/

/-- The total size of the blocks of a list. -/
def sizes : List (Nat × Nat) → Nat
  | [] => 0
  | b :: l => b.1 + sizes l

/-- The blocks `l`, given as pairs of size and allocation bit, lie one after the
other in memory: the first has payload pointer `bp`, and walking forward by the
header sizes ends exactly at the payload pointer `e`.  Every block has a size
of at least 16 that is a multiple of 8, an allocation bit 0 or 1, and the same
word `PACK(size, alloc)` as header and as footer. -/
def Chain (m : Nat → Nat) : Nat → List (Nat × Nat) → Nat → Prop
  | bp, [], e => bp = e
  | bp, b :: l, e =>
    16 ≤ b.1 ∧ b.1 % 8 = 0 ∧ b.2 ≤ 1 ∧
    GET m (bp - 4) = PACK b.1 b.2 ∧ GET m (bp + b.1 - 8) = PACK b.1 b.2 ∧
    Chain m (bp + b.1) l e

/-- Whether a given block list lies in memory can be computed. -/
instance decidableChain (m : Nat → Nat) :
    (bp : Nat) → (l : List (Nat × Nat)) → (e : Nat) → Decidable (Chain m bp l e)
  | bp, [], e => inferInstanceAs (Decidable (bp = e))
  | bp, b :: l, e =>
    have : Decidable (Chain m (bp + b.1) l e) := decidableChain m (bp + b.1) l e
    inferInstanceAs (Decidable (16 ≤ b.1 ∧ b.1 % 8 = 0 ∧ b.2 ≤ 1 ∧
      GET m (bp - 4) = PACK b.1 b.2 ∧ GET m (bp + b.1 - 8) = PACK b.1 b.2 ∧
      Chain m (bp + b.1) l e))

/-- No two neighbours in the list are both free. -/
def NoAdjacentFree (l : List (Nat × Nat)) : Prop :=
  List.Chain' (fun x y => x.2 ≠ 0 ∨ y.2 ≠ 0) l

/-- The heap of `s` is well formed and `l` lists its ordinary blocks in address
order: `heap_listp` is the prologue footer at offset 8, the break lies within
the capacity, prologue header and footer hold `PACK(8,1)`, the last word before
the break is the epilogue `PACK(0,1)`, and the blocks `l` lead from the first
payload pointer at offset 16 exactly to the epilogue. -/
structure WellFormed (s : MemState) (l : List (Nat × Nat)) : Prop where
  listp : s.heap_listp = s.mem_heap + 8
  brk_le : s.mem_brk ≤ s.mem_heap + 20971520
  prologue_hdr : GET s.mem (s.mem_heap + 4) = PACK 8 1
  prologue_ftr : GET s.mem (s.mem_heap + 8) = PACK 8 1
  epilogue : GET s.mem (s.mem_brk - 4) = PACK 0 1
  chain : Chain s.mem (s.mem_heap + 16) l s.mem_brk

/-- The tags next to the free block `bp` of size `sz`: the block before it has
size `psz` and allocation bit `pa`, the header after it holds size `nsz` and
allocation bit `na`. -/
structure Around (m : Nat → Nat) (bp sz psz pa nsz na : Nat) : Prop where
  sz8 : sz % 8 = 0
  sz16 : 16 ≤ sz
  hdr : GET m (bp - 4) = PACK sz 0
  psz8 : psz % 8 = 0
  psz_pos : 8 ≤ psz
  pa1 : pa ≤ 1
  p_le : psz + 4 ≤ bp
  pftr : GET m (bp - 8) = PACK psz pa
  phdr : GET m (bp - psz - 4) = PACK psz pa
  nsz8 : nsz % 8 = 0
  na1 : na ≤ 1
  nhdr : GET m (bp + sz - 4) = PACK nsz na
  nftr : na = 0 → GET m (bp + sz + nsz - 8) = PACK nsz 0

/-- The tag of the block before the position that follows `l1`: the last block
of `l1`, or the prologue. -/
def prevTag (l1 : List (Nat × Nat)) : Nat × Nat := (l1.getLast?).getD (8, 1)

/-- The tag of the header that follows: the first block of `l2`, or the
epilogue. -/
def nextTag (l2 : List (Nat × Nat)) : Nat × Nat := (l2.head?).getD (0, 1)

/-- The blocks that stay in front of the joined block: `l1` without its last
block when that one is free. -/
def keptBefore (l1 : List (Nat × Nat)) : List (Nat × Nat) :=
  if (prevTag l1).2 = 0 then l1.dropLast else l1

/-- The size of the joined block: `sz` plus the sizes of the free neighbours. -/
def joinedSize (l1 : List (Nat × Nat)) (sz : Nat) (l2 : List (Nat × Nat)) : Nat :=
  (if (prevTag l1).2 = 0 then (prevTag l1).1 else 0) + sz
    + (if (nextTag l2).2 = 0 then (nextTag l2).1 else 0)

/-- The blocks that stay behind the joined block: `l2` without its first block
when that one is free. -/
def keptAfter (l2 : List (Nat × Nat)) : List (Nat × Nat) :=
  if (nextTag l2).2 = 0 then l2.tail else l2

/-- The block list after the block of size `sz` between `l1` and `l2` has been
freed and joined with its free neighbours. -/
def coalesce (l1 : List (Nat × Nat)) (sz : Nat) (l2 : List (Nat × Nat)) : List (Nat × Nat) :=
  keptBefore l1 ++ (joinedSize l1 sz l2, 0) :: keptAfter l2

/-! ## Reachable states -/

/-- The states reached from `mem_init(); mm_init()` on a region at `base` with
contents `bytes`, by calls of `mm_malloc` and by calls of `mm_free` on live
pointers; the list holds the live pointers (returned and not yet freed). -/
inductive Reach (base : Nat) (bytes : Nat → Nat) : MemState → List Nat → Prop
  | init : (mm_init (mem_init base bytes)).2 = 0 →
      Reach base bytes (mm_init (mem_init base bytes)).1 []
  | malloc (s : MemState) (live : List Nat) (size : Nat) (r : MemState × Nat) :
      Reach base bytes s live → size < SIZE_T → mm_malloc s size = some r →
      Reach base bytes r.1 (if r.2 = NULL then live else r.2 :: live)
  | free (s : MemState) (live : List Nat) (p : Nat) :
      Reach base bytes s live → p ∈ live → Reach base bytes (mm_free s p) (live.erase p)

/-- The heap right after `mem_init(); mm_init()` on a zero-filled region at
address 4096. -/
def heap0 : MemState := (mm_init (mem_init 4096 (fun _ => 0))).1

/-- The heap `heap0` after its free block has been split by `place` with an
adjusted size of 16: an allocated block of 16 bytes at address 4112 followed by
a free block of 4080 bytes. -/
def heap1 : MemState := place heap0 4112 16

/-- The heap `heap0` after `place` has split its free block so that an allocated
block is followed by a free block of `n` bytes, the last block of the heap. -/
def heapWithTail (n : Nat) : MemState := place heap0 4112 (4096 - n)

/-! ## What the later operations are compared with -/

/-- The pointer that a first-fit search over the block list `l` gives, when the
first block of `l` has payload pointer `bp`: the payload pointer of the first
block that is free and has at least `asize` bytes, or `NULL`. -/
def firstFit (asize : Nat) : Nat → List (Nat × Nat) → Nat
  | _, [] => NULL
  | bp, b :: l => if b.2 = 0 ∧ asize ≤ b.1 then bp else firstFit asize (bp + b.1) l

/-- The state in which `mm_free` calls `merge`: header and footer of `bp` are
marked free. -/
def mm_free_mark (s : MemState) (bp : Nat) : MemState :=
  let size := GET_SIZE s.mem (HDRP bp)
  let m1 := PUT s.mem (HDRP bp) (PACK size 0)
  let m2 := PUT m1 (FTRP m1 bp) (PACK size 0)
  { s with mem := m2 }

/-- The number of the case that `merge` takes, by the conditions of its
branches. -/
def merge_case (s : MemState) (bp : Nat) : Nat :=
  let prev_alloc := GET_ALLOC s.mem (FTRP s.mem (PREV_BLKP s.mem bp))
  let next_alloc := GET_ALLOC s.mem (HDRP (NEXT_BLKP s.mem bp))
  if prev_alloc ≠ 0 ∧ next_alloc ≠ 0 then 1
  else if prev_alloc ≠ 0 ∧ next_alloc = 0 then 2
  else if prev_alloc = 0 ∧ next_alloc ≠ 0 then 3
  else 4

/-- The memory system after `mem_init()` on a zero-filled region at address
4096 and `mem_sbrk(MAX_HEAP - 16)`: the break is 16 bytes below the capacity. -/
def storeNearFull : MemState := (mem_sbrk (mem_init 4096 (fun _ => 0)) 20971504).1

/-- The heap `heap1` after `place` has split its free block again: two
allocated blocks of 16 bytes followed by a free block of 4064 bytes. -/
def heap2 : MemState := place heap1 4128 16

/-- The heap `heap2` after two more splits by `place`: four allocated blocks of
16 bytes followed by a free block of 4032 bytes. -/
def heap4 : MemState := place (place heap2 4144 16) 4160 16

/-! ## Words and tags -/

theorem land_mask_mod (w : Nat) : (w &&& 4294967288) % 8 = 0 := by
  have h := Nat.and_pow_two_sub_one_eq_mod (w &&& 4294967288) 3
  rw [Nat.and_assoc] at h
  have h7 : (4294967288 : Nat) &&& (2 ^ 3 - 1) = 0 := by decide
  rw [h7, Nat.and_zero] at h
  omega

theorem land_mask_div (w : Nat) : (w &&& 4294967288) / 8 = w / 8 % 536870912 := by
  have h1 : (w &&& 4294967288) / 8 = (w &&& 4294967288) / 2 / 2 / 2 := by omega
  have h2 : w / 2 / 2 / 2 = w / 8 := by omega
  rw [h1, Nat.and_div_two, Nat.and_div_two, Nat.and_div_two, h2]
  exact Nat.and_pow_two_sub_one_eq_mod (w / 8) 29

theorem land_mask (w : Nat) (h : w < UINT) : w &&& 4294967288 = w - w % 8 := by
  have h1 := land_mask_mod w
  have h2 := land_mask_div w
  simp only [UINT] at h
  omega

theorem PACK_zero (size : Nat) : PACK size 0 = size := by
  simp [PACK]

theorem PACK_one (size : Nat) (h : size % 8 = 0) : PACK size 1 = size + 1 := by
  have h1 := Nat.mul_add_lt_is_or (i := 3) (b := 1) (by decide) (size / 8)
  have h2 : 2 ^ 3 * (size / 8) = size := by omega
  rw [h2] at h1
  exact h1.symm

theorem GET_lt (m : Nat → Nat) (p : Nat) : GET m p < UINT := by
  unfold GET UINT
  omega

theorem PUT_byte (m : Nat → Nat) (p v a : Nat) (h : a < p ∨ p + 4 ≤ a) : PUT m p v a = m a := by
  unfold PUT
  have h1 : a ≠ p := by omega
  have h2 : a ≠ p + 1 := by omega
  have h3 : a ≠ p + 2 := by omega
  have h4 : a ≠ p + 3 := by omega
  simp [h1, h2, h3, h4]

theorem GET_PUT_same (m : Nat → Nat) (p v : Nat) : GET (PUT m p v) p = v % UINT := by
  unfold GET PUT UINT
  simp
  omega

theorem GET_PUT_other (m : Nat → Nat) (p v q : Nat) (h : q + 4 ≤ p ∨ p + 4 ≤ q) :
    GET (PUT m p v) q = GET m q := by
  unfold GET
  rw [PUT_byte m p v q (by omega), PUT_byte m p v (q + 1) (by omega),
    PUT_byte m p v (q + 2) (by omega), PUT_byte m p v (q + 3) (by omega)]

theorem GET_congr (m m' : Nat → Nat) (p : Nat) (h : ∀ a, p ≤ a → a < p + 4 → m' a = m a) :
    GET m' p = GET m p := by
  unfold GET
  rw [h p (by omega) (by omega), h (p + 1) (by omega) (by omega),
    h (p + 2) (by omega) (by omega), h (p + 3) (by omega) (by omega)]

theorem tag_eq (sz a : Nat) (h8 : sz % 8 = 0) (ha : a ≤ 1) : PACK sz a = sz + a := by
  rcases Nat.le_one_iff_eq_zero_or_eq_one.mp ha with h | h
  · subst h; simp [PACK]
  · subst h; exact PACK_one sz h8

theorem GET_SIZE_tag (m : Nat → Nat) (p sz a : Nat) (h : GET m p = PACK sz a)
    (h8 : sz % 8 = 0) (ha : a ≤ 1) : GET_SIZE m p = sz := by
  have hlt := GET_lt m p
  unfold GET_SIZE
  rw [land_mask _ hlt, h, tag_eq sz a h8 ha]
  omega

theorem GET_ALLOC_tag (m : Nat → Nat) (p sz a : Nat) (h : GET m p = PACK sz a)
    (h8 : sz % 8 = 0) (ha : a ≤ 1) : GET_ALLOC m p = a := by
  unfold GET_ALLOC
  rw [Nat.and_one_is_mod, h, tag_eq sz a h8 ha]
  omega

theorem tag_lt (m : Nat → Nat) (p sz a : Nat) (h : GET m p = PACK sz a)
    (h8 : sz % 8 = 0) (ha : a ≤ 1) : sz + a < UINT := by
  have hlt := GET_lt m p
  rw [h, tag_eq sz a h8 ha] at hlt
  exact hlt

theorem sizes_append (l1 l2 : List (Nat × Nat)) : sizes (l1 ++ l2) = sizes l1 + sizes l2 := by
  induction l1 with
  | nil => simp [sizes]
  | cons b l ih => simp [sizes, ih]; omega

theorem Chain.end_eq {m : Nat → Nat} {l : List (Nat × Nat)} {bp e : Nat}
    (h : Chain m bp l e) : bp + sizes l = e := by
  induction l generalizing bp with
  | nil => simpa [Chain, sizes] using h
  | cons b l ih =>
    obtain ⟨_, _, _, _, _, h6⟩ := h
    have := ih h6
    simp only [sizes]
    omega

theorem Chain.length_le {m : Nat → Nat} {l : List (Nat × Nat)} {bp e : Nat}
    (h : Chain m bp l e) : 16 * l.length ≤ sizes l := by
  induction l generalizing bp with
  | nil => simp [sizes]
  | cons b l ih =>
    obtain ⟨h1, _, _, _, _, h6⟩ := h
    have := ih h6
    simp only [sizes, List.length_cons]
    omega

theorem Chain_append (m : Nat → Nat) (l1 l2 : List (Nat × Nat)) (bp e : Nat) :
    Chain m bp (l1 ++ l2) e ↔ Chain m bp l1 (bp + sizes l1) ∧ Chain m (bp + sizes l1) l2 e := by
  induction l1 generalizing bp with
  | nil => simp [Chain, sizes]
  | cons b l ih =>
    have e1 : bp + b.1 + sizes l = bp + sizes (b :: l) := by simp only [sizes]; omega
    show Chain m bp (b :: (l ++ l2)) e ↔ _
    simp only [Chain, ih (bp + b.1), e1]
    tauto

theorem Chain.frame {m m' : Nat → Nat} {l : List (Nat × Nat)} {bp e : Nat}
    (h : Chain m bp l e) (hm : ∀ a, bp - 4 ≤ a → a + 4 < e → m' a = m a) (hbp : 4 ≤ bp) :
    Chain m' bp l e := by
  induction l generalizing bp with
  | nil => exact h
  | cons b l ih =>
    have hend := Chain.end_eq h
    obtain ⟨h1, h2, h3, h4, h5, h6⟩ := h
    have hend6 := Chain.end_eq h6
    simp only [sizes] at hend
    refine ⟨h1, h2, h3, ?_, ?_, ih h6 ?_ ?_⟩
    · rw [← h4]
      apply GET_congr
      intro a ha1 ha2
      apply hm
      · omega
      · omega
    · rw [← h5]
      apply GET_congr
      intro a ha1 ha2
      apply hm <;> omega
    · intro a ha1 ha2
      apply hm <;> omega
    · omega

theorem GET_SIZE_PUT_same (m : Nat → Nat) (p S : Nat) (h8 : S % 8 = 0) (hlt : S < UINT) :
    GET_SIZE (PUT m p S) p = S := by
  apply GET_SIZE_tag _ _ S 0 _ h8 (by omega)
  rw [GET_PUT_same, PACK_zero]
  exact Nat.mod_eq_of_lt hlt

theorem GET_SIZE_PUT_other (m : Nat → Nat) (p v q : Nat) (h : q + 4 ≤ p ∨ p + 4 ≤ q) :
    GET_SIZE (PUT m p v) q = GET_SIZE m q := by
  unfold GET_SIZE
  rw [GET_PUT_other m p v q h]

theorem GET_ALLOC_PUT_other (m : Nat → Nat) (p v q : Nat) (h : q + 4 ≤ p ∨ p + 4 ≤ q) :
    GET_ALLOC (PUT m p v) q = GET_ALLOC m q := by
  unfold GET_ALLOC
  rw [GET_PUT_other m p v q h]

theorem Around.prev_alloc {m : Nat → Nat} {bp sz psz pa nsz na : Nat}
    (h : Around m bp sz psz pa nsz na) : GET_ALLOC m (FTRP m (PREV_BLKP m bp)) = pa := by
  have e1 : GET_SIZE m (bp - 8) = psz := GET_SIZE_tag m _ psz pa h.pftr h.psz8 h.pa1
  have e2 : GET_SIZE m (bp - psz - 4) = psz := GET_SIZE_tag m _ psz pa h.phdr h.psz8 h.pa1
  have hp := h.p_le
  have hq := h.psz_pos
  have h16 := h.sz16
  have e3 : bp - psz + psz - 8 = bp - 8 := by omega
  simp only [FTRP, PREV_BLKP, HDRP, WSIZE, DSIZE, e1, e2, e3]
  exact GET_ALLOC_tag m _ psz pa h.pftr h.psz8 h.pa1

theorem Around.next_alloc {m : Nat → Nat} {bp sz psz pa nsz na : Nat}
    (h : Around m bp sz psz pa nsz na) : GET_ALLOC m (HDRP (NEXT_BLKP m bp)) = na := by
  have e1 : GET_SIZE m (bp - 4) = sz := GET_SIZE_tag m _ sz 0 h.hdr h.sz8 (by omega)
  simp only [NEXT_BLKP, HDRP, WSIZE, e1]
  exact GET_ALLOC_tag m _ nsz na h.nhdr h.nsz8 h.na1

theorem merge_case1 (s : MemState) (bp sz psz nsz : Nat)
    (h : Around s.mem bp sz psz 1 nsz 1) : merge s bp = (s, bp) := by
  unfold merge
  simp only [h.prev_alloc, h.next_alloc]
  simp

theorem merge_case2 (s : MemState) (bp sz psz nsz : Nat)
    (h : Around s.mem bp sz psz 1 nsz 0) (hlt : sz + nsz < UINT) :
    merge s bp =
      ({ s with mem := PUT (PUT s.mem (bp - 4) (sz + nsz)) (bp + sz + nsz - 8) (sz + nsz) }, bp) := by
  have e1 : GET_SIZE s.mem (bp - 4) = sz := GET_SIZE_tag _ _ sz 0 h.hdr h.sz8 (by omega)
  have e2 : GET_SIZE s.mem (bp + sz - 4) = nsz := GET_SIZE_tag _ _ nsz 0 h.nhdr h.nsz8 h.na1
  have h8 := h.sz8
  have h8n := h.nsz8
  have e3 : GET_SIZE (PUT s.mem (bp - 4) (sz + nsz)) (bp - 4) = sz + nsz :=
    GET_SIZE_PUT_same _ _ _ (by omega) hlt
  have e4 : bp + (sz + nsz) - 8 = bp + sz + nsz - 8 := by omega
  unfold merge
  simp only [h.prev_alloc, h.next_alloc]
  simp [FTRP, NEXT_BLKP, HDRP, WSIZE, DSIZE, e1, e2, e3, e4, PACK_zero]

theorem merge_case3 (s : MemState) (bp sz psz nsz : Nat)
    (h : Around s.mem bp sz psz 0 nsz 1) :
    merge s bp =
      ({ s with mem := PUT (PUT s.mem (bp + sz - 8) (sz + psz)) (bp - psz - 4) (sz + psz) }, bp - psz) := by
  have e1 : GET_SIZE s.mem (bp - 4) = sz := GET_SIZE_tag _ _ sz 0 h.hdr h.sz8 (by omega)
  have e2 : GET_SIZE s.mem (bp - 8) = psz := GET_SIZE_tag _ _ psz 0 h.pftr h.psz8 h.pa1
  have e5 : GET_SIZE s.mem (bp - psz - 4) = psz := GET_SIZE_tag _ _ psz 0 h.phdr h.psz8 h.pa1
  have hp := h.p_le
  have hq := h.psz_pos
  have h16 := h.sz16
  have e3 : ∀ v, GET_SIZE (PUT s.mem (bp + sz - 8) v) (bp - 8) = psz := by
    intro v
    rw [GET_SIZE_PUT_other _ _ _ _ (by omega), e2]
  have e4 : ∀ v w, GET_SIZE (PUT (PUT s.mem (bp + sz - 8) v) (bp - psz - 4) w) (bp - 8) = psz := by
    intro v w
    rw [GET_SIZE_PUT_other _ _ _ _ (by omega), e3]
  unfold merge
  simp only [h.prev_alloc, h.next_alloc]
  simp [FTRP, PREV_BLKP, HDRP, WSIZE, DSIZE, e1, e2, e3, e4, e5, PACK_zero]

theorem merge_case4 (s : MemState) (bp sz psz nsz : Nat)
    (h : Around s.mem bp sz psz 0 nsz 0) (hlt : psz + nsz < UINT) :
    merge s bp =
      ({ s with mem := PUT (PUT s.mem (bp - psz - 4) (sz + (psz + nsz))) (bp + sz + nsz - 8) (sz + (psz + nsz)) }, bp - psz) := by
  have e1 : GET_SIZE s.mem (bp - 4) = sz := GET_SIZE_tag _ _ sz 0 h.hdr h.sz8 (by omega)
  have e2 : GET_SIZE s.mem (bp - 8) = psz := GET_SIZE_tag _ _ psz 0 h.pftr h.psz8 h.pa1
  have e5 : GET_SIZE s.mem (bp - psz - 4) = psz := GET_SIZE_tag _ _ psz 0 h.phdr h.psz8 h.pa1
  have e6 : GET_SIZE s.mem (bp + sz - 4) = nsz := GET_SIZE_tag _ _ nsz 0 h.nhdr h.nsz8 h.na1
  have e7 : GET_SIZE s.mem (bp + sz + nsz - 8) = nsz :=
    GET_SIZE_tag _ _ nsz 0 (h.nftr rfl) h.nsz8 h.na1
  have hp := h.p_le
  have hq := h.psz_pos
  have h16 := h.sz16
  have e3 : ∀ v, GET_SIZE (PUT s.mem (bp - psz - 4) v) (bp - 4) = sz := by
    intro v
    rw [GET_SIZE_PUT_other _ _ _ _ (by omega), e1]
  have e4 : ∀ v, GET_SIZE (PUT s.mem (bp - psz - 4) v) (bp + sz - 4) = nsz := by
    intro v
    rw [GET_SIZE_PUT_other _ _ _ _ (by omega), e6]
  have e8 : ∀ v w, GET_SIZE (PUT (PUT s.mem (bp - psz - 4) v) (bp + sz + nsz - 8) w) (bp - 8)
      = psz := by
    intro v w
    rw [GET_SIZE_PUT_other _ _ _ _ (by omega), GET_SIZE_PUT_other _ _ _ _ (by omega), e2]
  have e9 : (psz + nsz) % UINT = psz + nsz := Nat.mod_eq_of_lt hlt
  unfold merge
  simp only [h.prev_alloc, h.next_alloc]
  simp [FTRP, NEXT_BLKP, PREV_BLKP, HDRP, WSIZE, DSIZE, e1, e2, e3, e4, e5, e6, e7, e8, e9, PACK_zero]

theorem Chain.splice_mid {m m' : Nat → Nat} {k mid mid' k2 : List (Nat × Nat)} {a e : Nat}
    (h : Chain m a (k ++ (mid ++ k2)) e) (ha : 4 ≤ a)
    (hm : ∀ x, x + 4 < a + sizes k ∨ a + sizes k + sizes mid ≤ x + 4 → m' x = m x)
    (hmid : Chain m' (a + sizes k) mid' (a + sizes k + sizes mid)) :
    Chain m' a (k ++ (mid' ++ k2)) e := by
  rw [Chain_append] at h ⊢
  obtain ⟨h1, h2⟩ := h
  rw [Chain_append] at h2 ⊢
  obtain ⟨h2, h3⟩ := h2
  have e1 := Chain.end_eq hmid
  have e2 : a + sizes k + sizes mid' = a + sizes k + sizes mid := e1
  refine ⟨h1.frame ?_ ha, ?_, ?_⟩
  · intro x _ hx2
    apply hm
    omega
  · rw [e2]
    exact hmid
  · rw [e2]
    apply h3.frame
    · intro x hx1 _
      apply hm
      omega
    · omega

/-! ## Rewriting one stretch of the heap -/

theorem WellFormed.splice {s : MemState} (m' : Nat → Nat) {k mid : List (Nat × Nat)}
    (mid' : List (Nat × Nat)) {k2 : List (Nat × Nat)}
    (h : WellFormed s (k ++ (mid ++ k2)))
    (hm : ∀ x, x + 4 < s.mem_heap + 16 + sizes k ∨ s.mem_heap + 16 + sizes k + sizes mid ≤ x + 4 →
      m' x = s.mem x)
    (hmid : Chain m' (s.mem_heap + 16 + sizes k) mid' (s.mem_heap + 16 + sizes k + sizes mid)) :
    WellFormed { s with mem := m' } (k ++ (mid' ++ k2)) := by
  have hend := Chain.end_eq h.chain
  rw [sizes_append, sizes_append] at hend
  refine ⟨h.listp, h.brk_le, ?_, ?_, ?_, Chain.splice_mid h.chain (by omega) hm hmid⟩
  · show GET m' (s.mem_heap + 4) = PACK 8 1
    rw [← h.prologue_hdr]
    apply GET_congr
    intro a _ _
    apply hm
    omega
  · show GET m' (s.mem_heap + 8) = PACK 8 1
    rw [← h.prologue_ftr]
    apply GET_congr
    intro a _ _
    apply hm
    omega
  · show GET m' (s.mem_brk - 4) = PACK 0 1
    rw [← h.epilogue]
    apply GET_congr
    intro a _ _
    apply hm
    omega

theorem Chain_single {m : Nat → Nat} {x T a : Nat} (h16 : 16 ≤ T) (h8 : T % 8 = 0) (ha : a ≤ 1)
    (hh : GET m (x - 4) = PACK T a) (hf : GET m (x + T - 8) = PACK T a) :
    Chain m x [(T, a)] (x + T) :=
  ⟨h16, h8, ha, hh, hf, rfl⟩

theorem PUT_PUT_byte (m : Nat → Nat) (p q v w a : Nat) (hp : a < p ∨ p + 4 ≤ a)
    (hq : a < q ∨ q + 4 ≤ a) : PUT (PUT m p v) q w a = m a := by
  rw [PUT_byte _ _ _ _ hq, PUT_byte _ _ _ _ hp]

/-- Writing the tag `T` at the header and then at the footer leaves a block. -/
theorem Chain_hdr_ftr (m : Nat → Nat) (x T v : Nat) (h16 : 16 ≤ T) (h8 : T % 8 = 0) (a : Nat)
    (ha : a ≤ 1) (hv : v = PACK T a) (hlt : T + a < UINT) (hx : 4 ≤ x) :
    Chain (PUT (PUT m (x - 4) v) (x + T - 8) v) x [(T, a)] (x + T) := by
  have e : PACK T a % UINT = PACK T a := by
    rw [tag_eq T a h8 ha]; exact Nat.mod_eq_of_lt hlt
  subst hv
  apply Chain_single h16 h8 ha
  · rw [GET_PUT_other _ _ _ _ (by omega), GET_PUT_same, e]
  · rw [GET_PUT_same, e]

/-- Writing the tag `T` at the footer and then at the header leaves a block. -/
theorem Chain_ftr_hdr (m : Nat → Nat) (x T v : Nat) (h16 : 16 ≤ T) (h8 : T % 8 = 0) (a : Nat)
    (ha : a ≤ 1) (hv : v = PACK T a) (hlt : T + a < UINT) (hx : 4 ≤ x) :
    Chain (PUT (PUT m (x + T - 8) v) (x - 4) v) x [(T, a)] (x + T) := by
  have e : PACK T a % UINT = PACK T a := by
    rw [tag_eq T a h8 ha]; exact Nat.mod_eq_of_lt hlt
  subst hv
  apply Chain_single h16 h8 ha
  · rw [GET_PUT_same, e]
  · rw [GET_PUT_other _ _ _ _ (by omega), GET_PUT_same, e]

theorem WellFormed.sizes_eq {s : MemState} {l : List (Nat × Nat)} (h : WellFormed s l) :
    s.mem_heap + 16 + sizes l = s.mem_brk :=
  Chain.end_eq h.chain

theorem WellFormed.sizes_lt {s : MemState} {l : List (Nat × Nat)} (h : WellFormed s l) :
    sizes l + 16 ≤ 20971520 := by
  have h1 := h.sizes_eq
  have h2 := h.brk_le
  omega

/-! ## The neighbours of a block -/

theorem prevTag_nil : prevTag [] = (8, 1) := rfl

theorem prevTag_concat (k : List (Nat × Nat)) (b : Nat × Nat) : prevTag (k ++ [b]) = b := by
  simp [prevTag]

theorem prevTag_shape (l1 : List (Nat × Nat)) :
    l1 = [] ∨ l1 = l1.dropLast ++ [prevTag l1] := by
  rcases List.eq_nil_or_concat l1 with h | ⟨L, b, h⟩
  · exact Or.inl h
  · right
    subst h
    simp [prevTag]

theorem prevTag_free_shape (l1 : List (Nat × Nat)) (h : (prevTag l1).2 = 0) :
    l1 = l1.dropLast ++ [prevTag l1] := by
  rcases prevTag_shape l1 with h1 | h1
  · subst h1
    simp [prevTag] at h
  · exact h1

theorem nextTag_free_shape (l2 : List (Nat × Nat)) (h : (nextTag l2).2 = 0) :
    l2 = nextTag l2 :: l2.tail := by
  cases l2 with
  | nil => simp [nextTag] at h
  | cons b k => simp [nextTag]

/-- The tags around a free block of a well-formed heap. -/
theorem WellFormed.around {s : MemState} {l1 l2 : List (Nat × Nat)} {sz : Nat}
    (h : WellFormed s (l1 ++ (sz, 0) :: l2)) :
    Around s.mem (s.mem_heap + 16 + sizes l1) sz (prevTag l1).1 (prevTag l1).2
      (nextTag l2).1 (nextTag l2).2 := by
  have hc := h.chain
  rw [Chain_append] at hc
  obtain ⟨hc1, h16, h8, _, hh, hf, hc2⟩ := hc
  simp only at h16 h8 hh hf hc2
  have hprev : (prevTag l1).1 % 8 = 0 ∧ 8 ≤ (prevTag l1).1 ∧ (prevTag l1).2 ≤ 1 ∧
      (prevTag l1).1 + 4 ≤ s.mem_heap + 16 + sizes l1 ∧
      GET s.mem (s.mem_heap + 16 + sizes l1 - 8) = PACK (prevTag l1).1 (prevTag l1).2 ∧
      GET s.mem (s.mem_heap + 16 + sizes l1 - (prevTag l1).1 - 4)
        = PACK (prevTag l1).1 (prevTag l1).2 := by
    rcases prevTag_shape l1 with h1 | h1
    · subst h1
      simp only [prevTag_nil, sizes]
      refine ⟨by decide, by decide, by decide, by omega, ?_, ?_⟩
      · rw [← h.prologue_ftr]; congr 1
      · rw [← h.prologue_hdr]; congr 1
    · generalize prevTag l1 = b at h1 ⊢
      generalize l1.dropLast = k at h1
      subst h1
      rw [Chain_append] at hc1
      obtain ⟨_, g16, g8, ga, gh, gf, ge⟩ := hc1
      simp only [Chain] at ge
      simp only [sizes_append, sizes] at ge ⊢
      refine ⟨g8, by omega, ga, by omega, ?_, ?_⟩
      · rw [← gf]; congr 1; omega
      · rw [← gh]; congr 1; omega
  obtain ⟨p1, p2, p3, p4, p5, p6⟩ := hprev
  have hnext : (nextTag l2).1 % 8 = 0 ∧ (nextTag l2).2 ≤ 1 ∧
      GET s.mem (s.mem_heap + 16 + sizes l1 + sz - 4) = PACK (nextTag l2).1 (nextTag l2).2 ∧
      ((nextTag l2).2 = 0 →
        GET s.mem (s.mem_heap + 16 + sizes l1 + sz + (nextTag l2).1 - 8) = PACK (nextTag l2).1 0) := by
    cases l2 with
    | nil =>
      simp only [Chain] at hc2
      simp only [nextTag, List.head?_nil, Option.getD_none]
      refine ⟨by decide, by decide, ?_, fun hb => absurd hb (by decide)⟩
      rw [hc2]
      exact h.epilogue
    | cons b k =>
      obtain ⟨_, g8, ga, gh, gf, _⟩ := hc2
      simp only [nextTag, List.head?_cons, Option.getD_some]
      refine ⟨g8, ga, gh, ?_⟩
      intro hb
      rw [← hb]
      exact gf
  obtain ⟨n1, n2, n3, n4⟩ := hnext
  exact ⟨h8, h16, hh, p1, p2, p3, p4, p5, p6, n1, n2, n3, n4⟩

/-! ## `merge` on a well-formed heap -/

theorem nextTag_cons (b : Nat × Nat) (l : List (Nat × Nat)) : nextTag (b :: l) = b := rfl

theorem sizes_concat (k : List (Nat × Nat)) (b : Nat × Nat) : sizes (k ++ [b]) = sizes k + b.1 := by
  simp [sizes_append, sizes]

/-- Case 1 of `merge`: both neighbours allocated. -/
theorem merge_wf_case1 {s : MemState} {l1 l2 : List (Nat × Nat)} {sz : Nat}
    (h : WellFormed s (l1 ++ (sz, 0) :: l2)) (hp : (prevTag l1).2 ≠ 0) (hn : (nextTag l2).2 ≠ 0) :
    merge s (s.mem_heap + 16 + sizes l1) = (s, s.mem_heap + 16 + sizes l1) := by
  have ha := h.around
  have hp1 : (prevTag l1).2 = 1 := by have := ha.pa1; omega
  have hn1 : (nextTag l2).2 = 1 := by have := ha.na1; omega
  rw [hp1, hn1] at ha
  exact merge_case1 s _ _ _ _ ha

/-- Case 2 of `merge`: the next block is free, the previous one is not. -/
theorem merge_wf_case2 {s : MemState} {l1 k2 : List (Nat × Nat)} {sz nsz : Nat}
    (h : WellFormed s (l1 ++ (sz, 0) :: (nsz, 0) :: k2)) (hp : (prevTag l1).2 ≠ 0) :
    ∃ m', merge s (s.mem_heap + 16 + sizes l1) = ({ s with mem := m' }, s.mem_heap + 16 + sizes l1) ∧
      WellFormed { s with mem := m' } (l1 ++ (sz + nsz, 0) :: k2) ∧
      ∀ x, x + 4 < s.mem_heap + 16 + sizes l1 ∨ s.mem_heap + 16 + sizes l1 + (sz + nsz) ≤ x + 4 →
        m' x = s.mem x := by
  have ha := h.around
  have hlt := h.sizes_lt
  have hp1 : (prevTag l1).2 = 1 := by have := ha.pa1; omega
  rw [hp1] at ha
  simp only [nextTag_cons] at ha
  simp only [sizes_append, sizes] at hlt
  have h16 := ha.sz16
  have h8 := ha.sz8
  have hn8 := ha.nsz8
  have hfr : ∀ x, x + 4 < s.mem_heap + 16 + sizes l1 ∨
      s.mem_heap + 16 + sizes l1 + (sz + nsz) ≤ x + 4 →
      PUT (PUT s.mem (s.mem_heap + 16 + sizes l1 - 4) (sz + nsz))
        (s.mem_heap + 16 + sizes l1 + sz + nsz - 8) (sz + nsz) x = s.mem x := by
    intro x hx
    apply PUT_PUT_byte <;> omega
  refine ⟨_, merge_case2 s _ sz _ nsz ha (by simp only [UINT]; omega), ?_, hfr⟩
  have h' : WellFormed s (l1 ++ ([(sz, 0), (nsz, 0)] ++ k2)) := by simpa using h
  have key := WellFormed.splice (PUT (PUT s.mem (s.mem_heap + 16 + sizes l1 - 4) (sz + nsz))
    (s.mem_heap + 16 + sizes l1 + sz + nsz - 8) (sz + nsz))
    [(sz + nsz, 0)] h' ?_ ?_
  · simpa using key
  · intro x hx
    simp only [sizes] at hx
    apply hfr
    omega
  · have e2 : s.mem_heap + 16 + sizes l1 + sz + nsz - 8
        = s.mem_heap + 16 + sizes l1 + (sz + nsz) - 8 := by omega
    have e3 : s.mem_heap + 16 + sizes l1 + sizes [(sz, 0), (nsz, 0)]
        = s.mem_heap + 16 + sizes l1 + (sz + nsz) := by simp only [sizes]; omega
    rw [e2, e3]
    exact Chain_hdr_ftr s.mem (s.mem_heap + 16 + sizes l1) (sz + nsz) (sz + nsz)
      (by omega) (by omega) 0 (by omega) (PACK_zero _).symm (by simp only [UINT]; omega) (by omega)

/-- Case 3 of `merge`: the previous block is free, the next one is not. -/
theorem merge_wf_case3 {s : MemState} {k l2 : List (Nat × Nat)} {psz sz : Nat}
    (h : WellFormed s (k ++ (psz, 0) :: (sz, 0) :: l2)) (hn : (nextTag l2).2 ≠ 0) :
    ∃ m', merge s (s.mem_heap + 16 + sizes k + psz) = ({ s with mem := m' }, s.mem_heap + 16 + sizes k) ∧
      WellFormed { s with mem := m' } (k ++ (psz + sz, 0) :: l2) ∧
      ∀ x, x + 4 < s.mem_heap + 16 + sizes k ∨ s.mem_heap + 16 + sizes k + (psz + sz) ≤ x + 4 →
        m' x = s.mem x := by
  have h0 : WellFormed s ((k ++ [(psz, 0)]) ++ (sz, 0) :: l2) := by simpa using h
  have ha := h0.around
  have hlt := h.sizes_lt
  have hn1 : (nextTag l2).2 = 1 := by have := ha.na1; omega
  rw [hn1] at ha
  simp only [prevTag_concat, sizes_concat, ← Nat.add_assoc] at ha
  simp only [sizes_append, sizes] at hlt
  have h16 := ha.sz16
  have h8 := ha.sz8
  have hp8 := ha.psz8
  have hps := ha.psz_pos
  have e0 : s.mem_heap + 16 + sizes k + psz - psz = s.mem_heap + 16 + sizes k := by omega
  have hfr : ∀ x, x + 4 < s.mem_heap + 16 + sizes k ∨
      s.mem_heap + 16 + sizes k + (psz + sz) ≤ x + 4 →
      PUT (PUT s.mem (s.mem_heap + 16 + sizes k + psz + sz - 8) (sz + psz))
        (s.mem_heap + 16 + sizes k + psz - psz - 4) (sz + psz) x = s.mem x := by
    intro x hx
    apply PUT_PUT_byte <;> omega
  refine ⟨_, by rw [merge_case3 s _ sz psz _ ha, e0], ?_, hfr⟩
  have h' : WellFormed s (k ++ ([(psz, 0), (sz, 0)] ++ l2)) := by simpa using h
  have key := WellFormed.splice (PUT (PUT s.mem (s.mem_heap + 16 + sizes k + psz + sz - 8)
    (sz + psz)) (s.mem_heap + 16 + sizes k + psz - psz - 4) (sz + psz))
    [(psz + sz, 0)] h' ?_ ?_
  · simpa using key
  · intro x hx
    simp only [sizes] at hx
    apply hfr
    omega
  · have e2 : s.mem_heap + 16 + sizes k + psz + sz - 8
        = s.mem_heap + 16 + sizes k + (psz + sz) - 8 := by omega
    have e3 : s.mem_heap + 16 + sizes k + sizes [(psz, 0), (sz, 0)]
        = s.mem_heap + 16 + sizes k + (psz + sz) := by simp only [sizes]; omega
    have e4 : sz + psz = psz + sz := by omega
    rw [e0, e2, e3, e4]
    exact Chain_ftr_hdr s.mem (s.mem_heap + 16 + sizes k) (psz + sz) (psz + sz)
      (by omega) (by omega) 0 (by omega) (PACK_zero _).symm (by simp only [UINT]; omega) (by omega)

/-- Case 4 of `merge`: both neighbours free. -/
theorem merge_wf_case4 {s : MemState} {k k2 : List (Nat × Nat)} {psz sz nsz : Nat}
    (h : WellFormed s (k ++ (psz, 0) :: (sz, 0) :: (nsz, 0) :: k2)) :
    ∃ m', merge s (s.mem_heap + 16 + sizes k + psz) = ({ s with mem := m' }, s.mem_heap + 16 + sizes k) ∧
      WellFormed { s with mem := m' } (k ++ (psz + sz + nsz, 0) :: k2) ∧
      ∀ x, x + 4 < s.mem_heap + 16 + sizes k ∨ s.mem_heap + 16 + sizes k + (psz + sz + nsz) ≤ x + 4 →
        m' x = s.mem x := by
  have h0 : WellFormed s ((k ++ [(psz, 0)]) ++ (sz, 0) :: (nsz, 0) :: k2) := by simpa using h
  have ha := h0.around
  have hlt := h.sizes_lt
  simp only [prevTag_concat, sizes_concat, nextTag_cons, ← Nat.add_assoc] at ha
  simp only [sizes_append, sizes] at hlt
  have h16 := ha.sz16
  have h8 := ha.sz8
  have hp8 := ha.psz8
  have hn8 := ha.nsz8
  have hps := ha.psz_pos
  have e0 : s.mem_heap + 16 + sizes k + psz - psz = s.mem_heap + 16 + sizes k := by omega
  have hfr : ∀ x, x + 4 < s.mem_heap + 16 + sizes k ∨
      s.mem_heap + 16 + sizes k + (psz + sz + nsz) ≤ x + 4 →
      PUT (PUT s.mem (s.mem_heap + 16 + sizes k + psz - psz - 4) (sz + (psz + nsz)))
        (s.mem_heap + 16 + sizes k + psz + sz + nsz - 8) (sz + (psz + nsz)) x = s.mem x := by
    intro x hx
    apply PUT_PUT_byte <;> omega
  refine ⟨_, by rw [merge_case4 s _ sz psz nsz ha (by simp only [UINT]; omega), e0], ?_, hfr⟩
  have h' : WellFormed s (k ++ ([(psz, 0), (sz, 0), (nsz, 0)] ++ k2)) := by simpa using h
  have key := WellFormed.splice (PUT (PUT s.mem (s.mem_heap + 16 + sizes k + psz - psz - 4)
    (sz + (psz + nsz))) (s.mem_heap + 16 + sizes k + psz + sz + nsz - 8) (sz + (psz + nsz)))
    [(psz + sz + nsz, 0)] h' ?_ ?_
  · simpa using key
  · intro x hx
    simp only [sizes] at hx
    apply hfr
    omega
  · have e2 : s.mem_heap + 16 + sizes k + psz + sz + nsz - 8
        = s.mem_heap + 16 + sizes k + (psz + sz + nsz) - 8 := by omega
    have e3 : s.mem_heap + 16 + sizes k + sizes [(psz, 0), (sz, 0), (nsz, 0)]
        = s.mem_heap + 16 + sizes k + (psz + sz + nsz) := by simp only [sizes]; omega
    have e4 : sz + (psz + nsz) = psz + sz + nsz := by omega
    rw [e0, e2, e3, e4]
    exact Chain_hdr_ftr s.mem (s.mem_heap + 16 + sizes k) (psz + sz + nsz) (psz + sz + nsz)
      (by omega) (by omega) 0 (by omega) (PACK_zero _).symm (by simp only [UINT]; omega) (by omega)

/-! ## `mm_free` on a well-formed heap -/

/-- The effect of `merge` on a well-formed heap whose block after `l1` is free:
only the memory changes, and there only the stretch of the joined block; the
block list becomes `coalesce l1 sz l2` and the returned pointer is the payload
pointer of the joined block. -/
theorem merge_coalesce {s : MemState} {l1 l2 : List (Nat × Nat)} {sz : Nat}
    (h : WellFormed s (l1 ++ (sz, 0) :: l2)) :
    ∃ m', merge s (s.mem_heap + 16 + sizes l1)
        = ({ s with mem := m' }, s.mem_heap + 16 + sizes (keptBefore l1)) ∧
      WellFormed { s with mem := m' } (coalesce l1 sz l2) ∧
      ∀ x, x + 4 < s.mem_heap + 16 + sizes (keptBefore l1) ∨
        s.mem_heap + 16 + sizes (keptBefore l1) + joinedSize l1 sz l2 ≤ x + 4 → m' x = s.mem x := by
  unfold coalesce keptBefore joinedSize keptAfter
  by_cases hp : (prevTag l1).2 = 0 <;> by_cases hn : (nextTag l2).2 = 0
  · have hl1 := prevTag_free_shape l1 hp
    have hl2 := nextTag_free_shape l2 hn
    simp only [if_pos hp, if_pos hn]
    generalize l1.dropLast = k at hl1 ⊢
    generalize l2.tail = k2 at hl2 ⊢
    rcases hpt : prevTag l1 with ⟨psz, pa⟩
    rcases hnt : nextTag l2 with ⟨nsz, na⟩
    rw [hpt] at hp hl1
    rw [hnt] at hn hl2
    simp only at hp hn
    subst hp hn hl1 hl2
    have h' : WellFormed s (k ++ (psz, 0) :: (sz, 0) :: (nsz, 0) :: k2) := by simpa using h
    obtain ⟨m', e, hw, hfr⟩ := merge_wf_case4 h'
    refine ⟨m', ?_, hw, hfr⟩
    rw [sizes_concat, ← Nat.add_assoc, e]
  · have hl1 := prevTag_free_shape l1 hp
    simp only [if_pos hp, if_neg hn]
    generalize l1.dropLast = k at hl1 ⊢
    rcases hpt : prevTag l1 with ⟨psz, pa⟩
    rw [hpt] at hp hl1
    simp only at hp
    subst hp hl1
    have h' : WellFormed s (k ++ (psz, 0) :: (sz, 0) :: l2) := by simpa using h
    obtain ⟨m', e, hw, hfr⟩ := merge_wf_case3 h' hn
    refine ⟨m', ?_, hw, hfr⟩
    rw [sizes_concat, ← Nat.add_assoc, e]
  · have hl2 := nextTag_free_shape l2 hn
    simp only [if_neg hp, if_pos hn]
    generalize l2.tail = k2 at hl2 ⊢
    rcases hnt : nextTag l2 with ⟨nsz, na⟩
    rw [hnt] at hn hl2
    simp only at hn
    subst hn hl2
    obtain ⟨m', e, hw, hfr⟩ := merge_wf_case2 h hp
    exact ⟨m', by rw [e], by simpa using hw, by simpa using hfr⟩
  · simp only [if_neg hp, if_neg hn, merge_wf_case1 h hp hn]
    exact ⟨s.mem, rfl, by simpa using h, fun _ _ => rfl⟩

theorem sizes_keptBefore_le (l1 : List (Nat × Nat)) : sizes (keptBefore l1) ≤ sizes l1 := by
  unfold keptBefore
  by_cases hp : (prevTag l1).2 = 0
  · rw [if_pos hp]
    have hl1 := prevTag_free_shape l1 hp
    conv => rhs; rw [hl1]
    rw [sizes_concat]
    omega
  · rw [if_neg hp]

theorem joinedSize_covers (l1 : List (Nat × Nat)) (sz : Nat) (l2 : List (Nat × Nat)) :
    sizes l1 + sz ≤ sizes (keptBefore l1) + joinedSize l1 sz l2 := by
  unfold keptBefore joinedSize
  by_cases hp : (prevTag l1).2 = 0
  · rw [if_pos hp, if_pos hp]
    have hl1 := prevTag_free_shape l1 hp
    conv => lhs; rw [hl1]
    rw [sizes_concat]
    omega
  · rw [if_neg hp, if_neg hp]
    omega

/-- The effect of `mm_free` on an allocated block of a well-formed heap. -/
theorem mm_free_coalesce {s : MemState} {l1 l2 : List (Nat × Nat)} {sz : Nat}
    (h : WellFormed s (l1 ++ (sz, 1) :: l2)) :
    ∃ m', mm_free s (s.mem_heap + 16 + sizes l1) = { s with mem := m' } ∧
      WellFormed { s with mem := m' } (coalesce l1 sz l2) ∧
      ∀ x, x + 4 < s.mem_heap + 16 + sizes (keptBefore l1) ∨
        s.mem_heap + 16 + sizes (keptBefore l1) + joinedSize l1 sz l2 ≤ x + 4 → m' x = s.mem x := by
  have hc := h.chain
  rw [Chain_append] at hc
  obtain ⟨_, h16, h8, _, hh, _, _⟩ := hc
  simp only at h16 h8 hh
  have hlt := h.sizes_lt
  simp only [sizes_append, sizes] at hlt
  have e1 : GET_SIZE s.mem (s.mem_heap + 16 + sizes l1 - 4) = sz :=
    GET_SIZE_tag _ _ sz 1 hh h8 (by omega)
  have e2 : GET_SIZE (PUT s.mem (s.mem_heap + 16 + sizes l1 - 4) sz)
      (s.mem_heap + 16 + sizes l1 - 4) = sz :=
    GET_SIZE_PUT_same _ _ _ h8 (by simp only [UINT]; omega)
  have hfr : ∀ x, x + 4 < s.mem_heap + 16 + sizes l1 ∨ s.mem_heap + 16 + sizes l1 + sz ≤ x + 4 →
      PUT (PUT s.mem (s.mem_heap + 16 + sizes l1 - 4) sz)
        (s.mem_heap + 16 + sizes l1 + sz - 8) sz x = s.mem x := by
    intro x hx
    apply PUT_PUT_byte <;> omega
  have h' : WellFormed s (l1 ++ ([(sz, 1)] ++ l2)) := by simpa using h
  have key := WellFormed.splice (PUT (PUT s.mem (s.mem_heap + 16 + sizes l1 - 4) sz)
    (s.mem_heap + 16 + sizes l1 + sz - 8) sz)
    [(sz, 0)] h' ?_ ?_
  · have key' := key
    simp only [List.singleton_append] at key'
    obtain ⟨m', e, hw, hfr'⟩ := merge_coalesce key'
    have hle := sizes_keptBefore_le l1
    have hcov := joinedSize_covers l1 sz l2
    refine ⟨m', ?_, hw, ?_⟩
    · unfold mm_free
      simp only [HDRP, FTRP, WSIZE, DSIZE, e1, e2, PACK_zero]
      exact congrArg Prod.fst e
    · intro x hx
      rw [hfr' x hx]
      apply hfr
      omega
  · intro x hx
    simp only [sizes] at hx
    apply hfr
    omega
  · have e3 : s.mem_heap + 16 + sizes l1 + sizes [(sz, 1)] = s.mem_heap + 16 + sizes l1 + sz := by
      simp only [sizes]; omega
    rw [e3]
    exact Chain_hdr_ftr s.mem (s.mem_heap + 16 + sizes l1) sz sz h16 h8 0 (by omega)
      (PACK_zero _).symm (by simp only [UINT]; omega) (by omega)

theorem sizes_coalesce (l1 : List (Nat × Nat)) (sz : Nat) (l2 : List (Nat × Nat)) :
    sizes (coalesce l1 sz l2) = sizes l1 + sz + sizes l2 := by
  unfold coalesce keptBefore joinedSize keptAfter
  by_cases hp : (prevTag l1).2 = 0 <;> by_cases hn : (nextTag l2).2 = 0
  · have hl1 := prevTag_free_shape l1 hp
    have hl2 := nextTag_free_shape l2 hn
    rw [if_pos hp, if_pos hp, if_pos hn, if_pos hn]
    conv => rhs; rw [hl1, hl2]
    simp only [sizes_append, sizes]
    omega
  · have hl1 := prevTag_free_shape l1 hp
    rw [if_pos hp, if_pos hp, if_neg hn, if_neg hn]
    conv => rhs; rw [hl1]
    simp only [sizes_append, sizes]
    omega
  · have hl2 := nextTag_free_shape l2 hn
    rw [if_neg hp, if_neg hp, if_pos hn, if_pos hn]
    conv => rhs; rw [hl2]
    simp only [sizes_append, sizes]
    omega
  · rw [if_neg hp, if_neg hp, if_neg hn, if_neg hn]
    simp only [sizes_append, sizes]
    omega

theorem noAdjacentFree_mid (l1 l2 : List (Nat × Nat)) (b : Nat × Nat) :
    NoAdjacentFree (l1 ++ b :: l2) ↔
      NoAdjacentFree l1 ∧ NoAdjacentFree l2 ∧ (∀ x ∈ l1.getLast?, x.2 ≠ 0 ∨ b.2 ≠ 0) ∧
        (∀ y ∈ l2.head?, b.2 ≠ 0 ∨ y.2 ≠ 0) := by
  unfold NoAdjacentFree
  rw [List.chain'_append, List.chain'_cons']
  simp only [List.head?_cons, Option.mem_def, Option.some.injEq, forall_eq']
  tauto

theorem noAdjacentFree_coalesce (l1 : List (Nat × Nat)) (sz : Nat) (l2 : List (Nat × Nat))
    (h : NoAdjacentFree (l1 ++ (sz, 1) :: l2)) : NoAdjacentFree (coalesce l1 sz l2) := by
  rw [noAdjacentFree_mid] at h
  obtain ⟨h1, h2, _, _⟩ := h
  unfold coalesce keptBefore joinedSize keptAfter
  rw [noAdjacentFree_mid]
  have hL : l1 = [] ∨ l1 = l1.dropLast ++ [prevTag l1] := prevTag_shape l1
  have hk1 : NoAdjacentFree l1.dropLast ∧
      ((prevTag l1).2 = 0 → ∀ x ∈ l1.dropLast.getLast?, x.2 ≠ 0) := by
    rcases hL with e | e
    · rw [e]
      exact ⟨List.chain'_nil, fun _ x hx => by simp at hx⟩
    · rw [e] at h1
      have h1' := (noAdjacentFree_mid _ [] _).mp h1
      refine ⟨h1'.1, fun hp x hx => ?_⟩
      have := h1'.2.2.1 x hx
      omega
  have hk2 : NoAdjacentFree l2.tail ∧ ((nextTag l2).2 = 0 → ∀ y ∈ l2.tail.head?, y.2 ≠ 0) := by
    cases l2 with
    | nil => exact ⟨List.chain'_nil, fun _ y hy => by simp at hy⟩
    | cons n k2 =>
      have h2' := (noAdjacentFree_mid [] k2 n).mp h2
      refine ⟨h2'.2.1, fun hn y hy => ?_⟩
      have := h2'.2.2.2 y hy
      simp only [nextTag_cons] at hn
      simp only [List.tail_cons] at hy
      have := h2'.2.2.2 y hy
      omega
  have hp' : (prevTag l1).2 ≠ 0 → ∀ x ∈ l1.getLast?, x.2 ≠ 0 := by
    intro hp x hx
    have : prevTag l1 = x := by
      simp only [Option.mem_def] at hx
      simp [prevTag, hx]
    rw [← this]
    exact hp
  have hn' : (nextTag l2).2 ≠ 0 → ∀ y ∈ l2.head?, y.2 ≠ 0 := by
    intro hn y hy
    have : nextTag l2 = y := by
      simp only [Option.mem_def] at hy
      simp [nextTag, hy]
    rw [← this]
    exact hn
  by_cases hp : (prevTag l1).2 = 0 <;> by_cases hn : (nextTag l2).2 = 0
  · simp only [if_pos hp, if_pos hn]
    exact ⟨hk1.1, hk2.1, fun x hx => Or.inl (hk1.2 hp x hx), fun y hy => Or.inr (hk2.2 hn y hy)⟩
  · simp only [if_pos hp, if_neg hn]
    exact ⟨hk1.1, h2, fun x hx => Or.inl (hk1.2 hp x hx), fun y hy => Or.inr (hn' hn y hy)⟩
  · simp only [if_neg hp, if_pos hn]
    exact ⟨h1, hk2.1, fun x hx => Or.inl (hp' hp x hx), fun y hy => Or.inr (hk2.2 hn y hy)⟩
  · simp only [if_neg hp, if_neg hn]
    exact ⟨h1, h2, fun x hx => Or.inl (hp' hp x hx), fun y hy => Or.inr (hn' hn y hy)⟩


/-! ## `find_fit` on a well-formed heap -/

theorem find_fit_loop_succ (m : Nat → Nat) (asize fuel iter : Nat) :
    find_fit_loop m asize (fuel + 1) iter =
      if GET_SIZE m (HDRP iter) ≠ 0 then
        if GET_ALLOC m (HDRP iter) = 0 ∧ GET_SIZE m (HDRP iter) ≥ asize then some iter
        else find_fit_loop m asize fuel (NEXT_BLKP m iter)
      else some NULL := rfl

/-- Walking a chain none of whose blocks fits ends at the epilogue with `NULL`. -/
theorem find_fit_loop_none {m : Nat → Nat} {l : List (Nat × Nat)} {a e asize : Nat}
    (hc : Chain m a l e) (hepi : GET m (e - 4) = PACK 0 1)
    (hfit : ∀ b ∈ l, b.2 = 0 → b.1 < asize) (fuel : Nat) (hfuel : l.length < fuel) :
    find_fit_loop m asize fuel a = some NULL := by
  induction l generalizing a fuel with
  | nil =>
    simp only [Chain] at hc
    subst hc
    obtain ⟨f, rfl⟩ : ∃ f, fuel = f + 1 := ⟨fuel - 1, by simp at hfuel; omega⟩
    have e1 : GET_SIZE m (a - 4) = 0 := GET_SIZE_tag _ _ 0 1 hepi (by decide) (by decide)
    simp [find_fit_loop, HDRP, e1]
  | cons b l ih =>
    obtain ⟨h16, h8, ha, hh, _, hc'⟩ := hc
    obtain ⟨f, rfl⟩ : ∃ f, fuel = f + 1 := ⟨fuel - 1, by simp at hfuel; omega⟩
    have e1 : GET_SIZE m (a - 4) = b.1 := GET_SIZE_tag _ _ b.1 b.2 hh h8 ha
    have e2 : GET_ALLOC m (a - 4) = b.2 := GET_ALLOC_tag _ _ b.1 b.2 hh h8 ha
    have hb := hfit b (List.mem_cons_self _ _)
    have hne : b.1 ≠ 0 := by omega
    have hno : ¬ (b.2 = 0 ∧ b.1 ≥ asize) := by
      intro ⟨h0, h1⟩
      have := hb h0
      omega
    simp only [find_fit_loop, HDRP, NEXT_BLKP, WSIZE, e1, e2, hne, hno, ne_eq, not_false_eq_true,
      if_true, if_false]
    apply ih hc' (fun c hc => hfit c (List.mem_cons_of_mem _ hc))
    simp only [List.length_cons] at hfuel
    omega

/-- On a well-formed heap without a fitting free block, `find_fit` returns
`NULL`. -/
theorem find_fit_none {s : MemState} {l : List (Nat × Nat)} {asize : Nat} (h : WellFormed s l)
    (hfit : ∀ b ∈ l, b.2 = 0 → b.1 < asize) : find_fit s asize = some NULL := by
  have hlen := Chain.length_le h.chain
  have hlt := h.sizes_lt
  have e0 : s.mem_heap + 8 - 4 = s.mem_heap + 4 := by omega
  have e1 : GET_SIZE s.mem (s.mem_heap + 8 - 4) = 8 := by
    rw [e0]
    exact GET_SIZE_tag _ _ 8 1 h.prologue_hdr (by decide) (by decide)
  have e2 : GET_ALLOC s.mem (s.mem_heap + 8 - 4) = 1 := by
    rw [e0]
    exact GET_ALLOC_tag _ _ 8 1 h.prologue_hdr (by decide) (by decide)
  unfold find_fit
  rw [h.listp]
  show find_fit_loop s.mem asize (2621439 + 1) (s.mem_heap + 8) = some NULL
  rw [find_fit_loop_succ]
  simp only [HDRP, NEXT_BLKP, WSIZE, e1, e2]
  simp only [ne_eq, OfNat.ofNat_ne_zero, not_false_eq_true, if_true, one_ne_zero, false_and, if_false]
  exact find_fit_loop_none h.chain h.epilogue hfit _ (by omega)

/-! ## Sizes passed to the memory system -/

theorem adjust_mod (size : Nat) : adjust size % 8 = 0 := by
  unfold adjust
  split
  · rfl
  · simp only [DSIZE, SIZE_T]
    omega

theorem adjust_lt (size : Nat) : adjust size < SIZE_T := by
  unfold adjust
  split
  · simp only [DSIZE, SIZE_T]; omega
  · exact Nat.mod_lt _ (by decide)

theorem MAX_mod (a : Nat) (h : a % 8 = 0) : MAX a CHUNCKSIZE % 8 = 0 := by
  unfold MAX
  split
  · exact h
  · rfl

/-- The byte count that `extend_heap` computes from the word count that
`mm_malloc` passes. -/
theorem extend_size_eq (E : Nat) (h8 : E % 8 = 0) (hlt : E < SIZE_T) :
    (if (E / WSIZE) % 2 ≠ 0 then (E / WSIZE + 1) * WSIZE % SIZE_T else E / WSIZE * WSIZE % SIZE_T)
      = E := by
  simp only [WSIZE, SIZE_T] at hlt ⊢
  have h1 : E / 4 % 2 = 0 := by omega
  simp only [h1, ne_eq, not_true_eq_false, if_false]
  omega

/-! ## `mm_malloc` when the memory system is exhausted -/

theorem mem_sbrk_alloc_ptr (s : MemState) (p : Nat) (incr : Int) :
    mem_sbrk { s with alloc_ptr := p } incr =
      ({ (mem_sbrk s incr).1 with alloc_ptr := p }, (mem_sbrk s incr).2) := by
  unfold mem_sbrk
  split <;> rfl

/-- When the memory system refuses the extension, `extend_heap` returns `NULL`
and changes nothing. -/
theorem extend_heap_refused (s : MemState) (E : Nat) (h8 : E % 8 = 0) (hlt : E < SIZE_T)
    (h : mem_sbrk s (toInt E) = (s, MINUS_ONE)) : extend_heap s (E / WSIZE) = (s, NULL) := by
  unfold extend_heap
  simp only [extend_size_eq E h8 hlt, h, if_true]

/-- On a well-formed heap in which no free block has `asize` bytes, when the
call of `mem_sbrk` with the `int` made from `max(asize, 4096)` returns
`(void *) -1` and leaves the break, `mm_malloc(size)` with `size > 0` returns
`NULL`, and every heap byte and the break are as before. -/
theorem mm_malloc_out_of_memory (s : MemState) (l : List (Nat × Nat)) (size : Nat)
    (hwf : WellFormed s l) (hpos : 0 < size)
    (hfit : ∀ b ∈ l, b.2 = 0 → b.1 < adjust size)
    (hfull : mem_sbrk s (toInt (MAX (adjust size) CHUNCKSIZE)) = (s, MINUS_ONE)) :
    ∃ s', mm_malloc s size = some (s', NULL) ∧ s'.mem = s.mem ∧ s'.mem_brk = s.mem_brk ∧
      s'.mem_heap = s.mem_heap ∧ s'.heap_listp = s.heap_listp := by
  have h8 := MAX_mod _ (adjust_mod size)
  have hlt : MAX (adjust size) CHUNCKSIZE < SIZE_T := by
    have := adjust_lt size
    unfold MAX
    split
    · exact this
    · decide
  have hs : mem_sbrk { s with alloc_ptr := NULL } (toInt (MAX (adjust size) CHUNCKSIZE))
      = ({ s with alloc_ptr := NULL }, MINUS_ONE) := by
    rw [mem_sbrk_alloc_ptr, hfull]
  have he := extend_heap_refused { s with alloc_ptr := NULL } _ h8 hlt hs
  refine ⟨{ s with alloc_ptr := NULL }, ?_, rfl, rfl, rfl, rfl⟩
  have h0 : size ≠ 0 := by omega
  unfold mm_malloc
  simp only [h0, if_false, find_fit_none hwf hfit, ne_eq, not_true_eq_false, he, if_true]

/-! ## Alignment -/

theorem GET_SIZE_mod (m : Nat → Nat) (p : Nat) : GET_SIZE m p % 8 = 0 :=
  land_mask_mod _

theorem merge_frame (s : MemState) (bp : Nat) :
    (merge s bp).1.mem_heap = s.mem_heap ∧ (merge s bp).1.mem_brk = s.mem_brk ∧
      (merge s bp).1.heap_listp = s.heap_listp := by
  unfold merge
  simp only
  split_ifs <;> exact ⟨rfl, rfl, rfl⟩

theorem merge_ptr (s : MemState) (bp : Nat) (h : (merge s bp).2 ≠ NULL) :
    (merge s bp).2 % 8 = bp % 8 := by
  have key : ∀ m, PREV_BLKP m bp ≠ 0 → PREV_BLKP m bp % 8 = bp % 8 := by
    intro m hm
    have := GET_SIZE_mod m (bp - DSIZE)
    unfold PREV_BLKP at hm ⊢
    omega
  unfold merge at h ⊢
  simp only at h ⊢
  split_ifs at h ⊢
  · rfl
  · rfl
  · exact key _ h
  · exact key _ h

theorem place_frame (s : MemState) (bp asize : Nat) :
    (place s bp asize).mem_heap = s.mem_heap ∧ (place s bp asize).mem_brk = s.mem_brk ∧
      (place s bp asize).heap_listp = s.heap_listp := by
  unfold place
  simp only
  split_ifs <;> exact ⟨rfl, rfl, rfl⟩

theorem mm_free_frame (s : MemState) (bp : Nat) :
    (mm_free s bp).mem_heap = s.mem_heap ∧ (mm_free s bp).mem_brk = s.mem_brk ∧
      (mm_free s bp).heap_listp = s.heap_listp := by
  unfold mm_free
  exact merge_frame _ _

theorem toInt_toNat_mod (n : Nat) (h : n % 8 = 0) : (toInt n).toNat % 8 = 0 := by
  unfold toInt
  simp only [UINT]
  split
  · simp only [Int.toNat_ofNat]
    omega
  · omega

theorem mem_sbrk_spec (s : MemState) (incr : Int) :
    (mem_sbrk s incr).1.mem = s.mem ∧ (mem_sbrk s incr).1.mem_heap = s.mem_heap ∧
    (mem_sbrk s incr).1.heap_listp = s.heap_listp ∧
    (mem_sbrk s incr).1.alloc_ptr = s.alloc_ptr ∧
    (((mem_sbrk s incr).1.mem_brk = s.mem_brk ∧ (mem_sbrk s incr).2 = MINUS_ONE) ∨
      ((mem_sbrk s incr).1.mem_brk = s.mem_brk + incr.toNat ∧ (mem_sbrk s incr).2 = s.mem_brk)) := by
  unfold mem_sbrk
  split
  · exact ⟨rfl, rfl, rfl, rfl, Or.inl ⟨rfl, rfl⟩⟩
  · exact ⟨rfl, rfl, rfl, rfl, Or.inr ⟨rfl, rfl⟩⟩

theorem extend_size_mod (words : Nat) :
    (if words % 2 ≠ 0 then (words + 1) * WSIZE % SIZE_T else words * WSIZE % SIZE_T) % 8 = 0 := by
  simp only [WSIZE, SIZE_T]
  split <;> omega

theorem extend_heap_frame (s : MemState) (words : Nat) :
    (extend_heap s words).1.mem_heap = s.mem_heap ∧
    (extend_heap s words).1.heap_listp = s.heap_listp ∧
    (extend_heap s words).1.mem_brk % 8 = s.mem_brk % 8 ∧
    ((extend_heap s words).2 ≠ NULL → (extend_heap s words).2 % 8 = s.mem_brk % 8) := by
  have hsz := extend_size_mod words
  unfold extend_heap
  simp only
  generalize (if words % 2 ≠ 0 then (words + 1) * WSIZE % SIZE_T else words * WSIZE % SIZE_T)
    = size at hsz ⊢
  have hn := toInt_toNat_mod _ hsz
  obtain ⟨_, h2, h3, _, h5⟩ := mem_sbrk_spec s (toInt size)
  generalize mem_sbrk s (toInt size) = r at h2 h3 h5 ⊢
  by_cases hb : r.2 = MINUS_ONE
  · simp only [hb, if_true]
    refine ⟨h2, h3, ?_, fun hne => absurd rfl hne⟩
    rcases h5 with ⟨e, _⟩ | ⟨e, _⟩
    · rw [e]
    · rw [e]; omega
  · simp only [hb, if_false]
    rcases h5 with ⟨_, e⟩ | ⟨e, e'⟩
    · exact absurd e hb
    · generalize hm3 : PUT _ (HDRP (NEXT_BLKP _ r.2)) (PACK 0 1) = m3
      obtain ⟨g1, g2, g3⟩ := merge_frame { r.1 with mem := m3 } r.2
      simp only at g1 g2 g3
      refine ⟨g1.trans h2, g3.trans h3, ?_, ?_⟩
      · rw [g2, e]; omega
      · intro hne
        rw [merge_ptr _ _ hne, e']

theorem find_fit_loop_aligned (m : Nat → Nat) (asize fuel iter p : Nat)
    (h : find_fit_loop m asize fuel iter = some p) (hp : p ≠ NULL) : p % 8 = iter % 8 := by
  induction fuel generalizing iter with
  | zero => simp [find_fit_loop] at h
  | succ f ih =>
    rw [find_fit_loop_succ] at h
    split_ifs at h with h1 h2
    · simp only [Option.some.injEq] at h
      rw [h]
    · have := ih _ h
      have h8 := GET_SIZE_mod m (iter - WSIZE)
      unfold NEXT_BLKP at this
      omega
    · simp only [Option.some.injEq] at h
      exact absurd h.symm hp

theorem mm_init_aligned (base : Nat) (bytes : Nat → Nat)
    (h : (mm_init (mem_init base bytes)).2 = 0) :
    (mm_init (mem_init base bytes)).1.mem_heap = base ∧
    (mm_init (mem_init base bytes)).1.heap_listp = base + 8 ∧
    (mm_init (mem_init base bytes)).1.mem_brk % 8 = base % 8 := by
  have hn := toInt_toNat_mod (4 * WSIZE) (by decide)
  obtain ⟨_, h2, _, _, h5⟩ := mem_sbrk_spec (mem_init base bytes) (toInt (4 * WSIZE))
  unfold mm_init at h ⊢
  simp only at h ⊢
  generalize mem_sbrk (mem_init base bytes) (toInt (4 * WSIZE)) = r at h h2 h5 ⊢
  by_cases hb : r.2 = MINUS_ONE
  · simp only [hb, if_true] at h
    exact absurd h (by decide)
  · simp only [hb, if_false] at h ⊢
    rcases h5 with ⟨_, e⟩ | ⟨e, e'⟩
    · exact absurd e hb
    · generalize hm4 : PUT _ (r.2 + 3 * WSIZE) (PACK 0 1) = m4 at h ⊢
      obtain ⟨g1, g2, g3, _⟩ := extend_heap_frame
        { r.1 with mem := m4, heap_listp := r.2 + 2 * WSIZE } (CHUNCKSIZE / WSIZE)
      simp only at g1 g2 g3
      generalize extend_heap { r.1 with mem := m4, heap_listp := r.2 + 2 * WSIZE }
        (CHUNCKSIZE / WSIZE) = r2 at h g1 g2 g3 ⊢
      by_cases hc : r2.2 = NULL
      · simp only [hc, if_true] at h
        exact absurd h (by decide)
      · simp only [hc, if_false]
        have e1 : (mem_init base bytes).mem_brk = base := rfl
        have e2 : (mem_init base bytes).mem_heap = base := rfl
        refine ⟨by rw [g1, h2, e2], by rw [g2, e', e1]; rfl, ?_⟩
        rw [g3, e, e1]
        omega

theorem mm_malloc_step_aligned (s : MemState) (size : Nat) (r : MemState × Nat)
    (h : mm_malloc s size = some r) :
    r.1.mem_heap = s.mem_heap ∧ r.1.heap_listp = s.heap_listp ∧
    r.1.mem_brk % 8 = s.mem_brk % 8 ∧
    (r.2 ≠ NULL → s.mem_brk % 8 = s.heap_listp % 8 → r.2 % 8 = s.heap_listp % 8) := by
  unfold mm_malloc at h
  by_cases h0 : size = 0
  · simp only [h0, if_true, Option.some.injEq] at h
    subst h
    exact ⟨rfl, rfl, rfl, fun hne => absurd rfl hne⟩
  · simp only [h0, if_false] at h
    cases hf : find_fit s (adjust size) with
    | none => simp [hf] at h
    | some p =>
      simp only [hf] at h
      by_cases hp : p = NULL
      · simp only [hp, ne_eq, not_true_eq_false, if_false] at h
        obtain ⟨g1, g2, g3, g4⟩ := extend_heap_frame { s with alloc_ptr := NULL }
          (MAX (adjust size) CHUNCKSIZE / WSIZE)
        simp only at g1 g2 g3 g4
        generalize extend_heap { s with alloc_ptr := NULL } (MAX (adjust size) CHUNCKSIZE / WSIZE)
          = r2 at h g1 g2 g3 g4
        by_cases hc : r2.2 = NULL
        · simp only [hc, if_true, Option.some.injEq] at h
          subst h
          exact ⟨g1, g2, g3, fun hne => absurd rfl hne⟩
        · simp only [hc, if_false, Option.some.injEq] at h
          subst h
          obtain ⟨q1, q2, q3⟩ := place_frame { r2.1 with alloc_ptr := r2.2 } r2.2 (adjust size)
          simp only at q1 q2 q3
          refine ⟨q1.trans g1, q3.trans g2, by rw [q2, g3], fun hne hal => ?_⟩
          rw [g4 hne, hal]
      · simp only [hp, ne_eq, not_false_eq_true, if_true, Option.some.injEq] at h
        subst h
        obtain ⟨q1, q2, q3⟩ := place_frame { s with alloc_ptr := p } p size
        simp only at q1 q2 q3
        refine ⟨q1, q3, by rw [q2], fun _ _ => ?_⟩
        exact find_fit_loop_aligned _ _ _ _ _ hf hp

theorem Reach.aligned {base : Nat} {bytes : Nat → Nat} {s : MemState} {live : List Nat}
    (h : Reach base bytes s live) :
    s.mem_heap = base ∧ s.heap_listp = base + 8 ∧ s.mem_brk % 8 = base % 8 := by
  induction h with
  | init h0 => exact mm_init_aligned base bytes h0
  | malloc s live size r _ _ hm ih =>
    obtain ⟨g1, g2, g3, _⟩ := mm_malloc_step_aligned s size r hm
    obtain ⟨i1, i2, i3⟩ := ih
    exact ⟨g1.trans i1, g2.trans i2, g3.trans i3⟩
  | free s live p _ _ ih =>
    obtain ⟨g1, g2, g3⟩ := mm_free_frame s p
    obtain ⟨i1, i2, i3⟩ := ih
    exact ⟨g1.trans i1, g3.trans i2, by rw [g2, i3]⟩

/-- C3: in every state reached from `mem_init(); mm_init()` by calls of
`mm_malloc` and of `mm_free` on live pointers, a non-null pointer returned by
`mm_malloc` lies at an offset from the base of the region that is divisible by
8; with an 8-byte aligned base the pointer itself is divisible by 8. -/
theorem mm_malloc_aligned (base : Nat) (bytes : Nat → Nat) (s : MemState) (live : List Nat)
    (size : Nat) (r : MemState × Nat) (hreach : Reach base bytes s live)
    (hm : mm_malloc s size = some r) (hp : r.2 ≠ NULL) :
    ((r.2 : Int) - (base : Int)) % 8 = 0 ∧ (base % 8 = 0 → r.2 % 8 = 0) := by
  obtain ⟨i1, i2, i3⟩ := hreach.aligned
  obtain ⟨_, _, _, g4⟩ := mm_malloc_step_aligned s size r hm
  have := g4 hp (by rw [i2, i3]; omega)
  rw [i2] at this
  omega

/-! ## The pass bound of `find_fit` -/

/-- A loop of `find_fit` that uses up its passes has moved `iter` forward by
at least 8 bytes in each of them. -/
theorem find_fit_loop_exhausted (m : Nat → Nat) (asize fuel iter : Nat)
    (h : find_fit_loop m asize fuel iter = none) : iter + 8 * fuel ≤ iterAfter m fuel iter := by
  induction fuel generalizing iter with
  | zero => simp [iterAfter]
  | succ f ih =>
    rw [find_fit_loop_succ] at h
    split_ifs at h with h1 h2
    have h8 := GET_SIZE_mod m (HDRP iter)
    have := ih _ h
    have e : NEXT_BLKP m iter = iter + GET_SIZE m (HDRP iter) := rfl
    simp only [iterAfter]
    omega

/-- When `find_fit` gives no result, `iter` has moved at least `MAX_HEAP` bytes
beyond `heap_listp`, which is beyond the region. -/
theorem find_fit_exhausted (s : MemState) (asize : Nat) (h : find_fit s asize = none) :
    s.heap_listp + MAX_HEAP ≤ iterAfter s.mem find_fit_passes s.heap_listp := by
  have := find_fit_loop_exhausted _ _ _ _ h
  simp only [find_fit_passes, MAX_HEAP, DSIZE] at this ⊢
  omega

/-! ## `extend_heap` on a well-formed heap -/

theorem toInt_small (E : Nat) (h : E < 2147483648) : toInt E = (E : Int) := by
  unfold toInt
  simp only [UINT]
  have e : E % 4294967296 = E := Nat.mod_eq_of_lt (by omega)
  rw [e, if_pos h]

theorem mem_sbrk_grow (s : MemState) (E : Nat) (h : E < 2147483648)
    (hcap : s.mem_brk + E ≤ s.mem_heap + MAX_HEAP) :
    mem_sbrk s (toInt E) = ({ s with mem_brk := s.mem_brk + E }, s.mem_brk) := by
  unfold mem_sbrk
  rw [toInt_small E h]
  have hc : ¬ (((E : Nat) : Int) < 0 ∨ s.mem_brk + E > s.mem_heap + MAX_HEAP) := by
    omega
  simp only [Int.toNat_ofNat, hc, if_false]

/-- The effect of `extend_heap` on a well-formed heap when the memory system
grants `E` more bytes: the break moves by `E`, the new free block is joined
with the last block when that one is free, and the bytes in front of the
joined block stay. -/
theorem extend_heap_wellFormed {s : MemState} {l : List (Nat × Nat)} (h : WellFormed s l)
    (E : Nat) (h8 : E % 8 = 0) (h16 : 16 ≤ E) (hcap : s.mem_brk + E ≤ s.mem_heap + MAX_HEAP)
    (hb : s.mem_heap + MAX_HEAP < MINUS_ONE) :
    ∃ m', extend_heap s (E / WSIZE) = ({ s with mem := m', mem_brk := s.mem_brk + E },
        s.mem_heap + 16 + sizes (keptBefore l)) ∧
      WellFormed { s with mem := m', mem_brk := s.mem_brk + E } (coalesce l E []) ∧
      ∀ x, x + 4 < s.mem_heap + 16 + sizes (keptBefore l) → m' x = s.mem x := by
  have hend := h.sizes_eq
  have hE : E ≤ 20971520 := by simp only [MAX_HEAP] at hcap; omega
  have hne : s.mem_brk ≠ MINUS_ONE := by simp only [MAX_HEAP, MINUS_ONE] at hcap hb ⊢; omega
  have e1 : GET_SIZE (PUT s.mem (s.mem_brk - 4) E) (s.mem_brk - 4) = E :=
    GET_SIZE_PUT_same _ _ _ h8 (by simp only [UINT]; omega)
  have e2 : GET_SIZE (PUT (PUT s.mem (s.mem_brk - 4) E) (s.mem_brk + E - 8) E) (s.mem_brk - 4) = E := by
    rw [GET_SIZE_PUT_other _ _ _ _ (by omega), e1]
  have hw : WellFormed { s with mem := PUT (PUT (PUT s.mem (s.mem_brk - 4) E) (s.mem_brk + E - 8) E) (s.mem_brk + E - 4) (PACK 0 1), mem_brk := s.mem_brk + E } (l ++ (E, 0) :: []) := by
    have hfr : ∀ x, x + 4 < s.mem_brk → PUT (PUT (PUT s.mem (s.mem_brk - 4) E)
        (s.mem_brk + E - 8) E) (s.mem_brk + E - 4) (PACK 0 1) x = s.mem x := by
      intro x hx
      rw [PUT_byte _ _ _ _ (by omega), PUT_PUT_byte _ _ _ _ _ _ (by omega) (by omega)]
    refine ⟨h.listp, hcap, ?_, ?_, ?_, ?_⟩
    · show GET _ (s.mem_heap + 4) = PACK 8 1
      rw [← h.prologue_hdr]
      exact GET_congr _ _ _ (fun a _ _ => hfr a (by omega))
    · show GET _ (s.mem_heap + 8) = PACK 8 1
      rw [← h.prologue_ftr]
      exact GET_congr _ _ _ (fun a _ _ => hfr a (by omega))
    · show GET _ (s.mem_brk + E - 4) = PACK 0 1
      rw [GET_PUT_same]
      rfl
    · show Chain _ (s.mem_heap + 16) (l ++ [(E, 0)]) (s.mem_brk + E)
      rw [Chain_append]
      refine ⟨?_, ?_⟩
      · have hc := h.chain
        rw [← hend] at hc
        apply hc.frame _ (by omega)
        intro a _ ha
        exact hfr a (by omega)
      · rw [hend]
        apply Chain_single h16 h8 (by omega)
        · rw [GET_PUT_other _ _ _ _ (by omega), GET_PUT_other _ _ _ _ (by omega), GET_PUT_same,
            PACK_zero]
          exact Nat.mod_eq_of_lt (by simp only [UINT]; omega)
        · rw [GET_PUT_other _ _ _ _ (by omega), GET_PUT_same, PACK_zero]
          exact Nat.mod_eq_of_lt (by simp only [UINT]; omega)
  obtain ⟨m', e, hw', hfr'⟩ := merge_coalesce hw
  simp only at e hfr'
  rw [hend] at e
  refine ⟨m', ?_, hw', ?_⟩
  · unfold extend_heap
    simp only [extend_size_eq E h8 (by simp only [SIZE_T]; omega),
      mem_sbrk_grow s E (by omega) hcap, hne, if_false, HDRP, FTRP, NEXT_BLKP, WSIZE, DSIZE,
      PACK_zero, e1, e2]
    exact e
  · intro x hx
    have hle := sizes_keptBefore_le l
    rw [hfr' x (Or.inl hx)]
    rw [PUT_byte _ _ _ _ (by omega), PUT_PUT_byte _ _ _ _ _ _ (by omega) (by omega)]

/-! ## `mm_init` on a fresh region -/

theorem coalesce_nil_nil (E : Nat) : coalesce [] E [] = [(E, 0)] := by
  simp [coalesce, keptBefore, joinedSize, keptAfter, prevTag, nextTag]

theorem keptBefore_nil : keptBefore [] = [] := by
  simp [keptBefore, prevTag]

/-- The state that `mm_init` leaves on a fresh region: the call returns 0, the
heap is well formed with one free block of `CHUNCKSIZE` bytes, and the padding
word is 0. -/
theorem mm_init_fresh (base : Nat) (bytes : Nat → Nat) (hb : base + MAX_HEAP < MINUS_ONE) :
    ∃ m', mm_init (mem_init base bytes) = ({ mem := m', mem_heap := base, mem_brk := base + 16 + 4096, heap_listp := base + 8, alloc_ptr := NULL }, 0) ∧
      WellFormed { mem := m', mem_heap := base, mem_brk := base + 16 + 4096, heap_listp := base + 8, alloc_ptr := NULL } [(4096, 0)] ∧
      GET m' base = 0 := by
  have hne : base ≠ MINUS_ONE := by simp only [MAX_HEAP, MINUS_ONE] at hb ⊢; omega
  have hs : mem_sbrk { mem := bytes, mem_heap := base, mem_brk := base, heap_listp := NULL, alloc_ptr := NULL } (toInt 16) = ({ mem := bytes, mem_heap := base, mem_brk := base + 16, heap_listp := NULL, alloc_ptr := NULL }, base) :=
    mem_sbrk_grow _ 16 (by decide) (by simp only [MAX_HEAP]; omega)
  have hP : PACK 8 1 % UINT = PACK 8 1 := by decide
  have hE : PACK 0 1 % UINT = PACK 0 1 := by decide
  have hw : WellFormed { mem := PUT (PUT (PUT (PUT bytes base 0) (base + 4) (PACK 8 1)) (base + 8) (PACK 8 1)) (base + 12) (PACK 0 1), mem_heap := base, mem_brk := base + 16, heap_listp := base + 8, alloc_ptr := NULL } [] := by
    refine ⟨rfl, ?_, ?_, ?_, ?_, rfl⟩
    · show base + 16 ≤ base + 20971520
      omega
    · show GET _ (base + 4) = PACK 8 1
      rw [GET_PUT_other _ _ _ _ (by omega), GET_PUT_other _ _ _ _ (by omega), GET_PUT_same, hP]
    · show GET _ (base + 8) = PACK 8 1
      rw [GET_PUT_other _ _ _ _ (by omega), GET_PUT_same, hP]
    · show GET _ (base + 16 - 4) = PACK 0 1
      have e : base + 16 - 4 = base + 12 := by omega
      rw [e, GET_PUT_same, hE]
  obtain ⟨m', e, hw', hfr⟩ := extend_heap_wellFormed hw 4096 (by decide) (by decide)
    (by show base + 16 + 4096 ≤ base + MAX_HEAP; simp only [MAX_HEAP]; omega) hb
  simp only [keptBefore_nil, sizes, coalesce_nil_nil] at e hw' hfr
  refine ⟨m', ?_, hw', ?_⟩
  · simp only [WSIZE, Nat.reduceDiv, Nat.add_zero] at e
    unfold mm_init
    simp only [mem_init, WSIZE, DSIZE, CHUNCKSIZE, Nat.reduceMul, Nat.reduceDiv]
    simp only [hs, hne, if_false, e]
    simp
  · rw [GET_congr _ _ base (fun a _ _ => hfr a (by omega))]
    show GET (PUT (PUT (PUT (PUT bytes base 0) (base + 4) (PACK 8 1)) (base + 8) (PACK 8 1))
      (base + 12) (PACK 0 1)) base = 0
    rw [GET_PUT_other _ _ _ _ (by omega), GET_PUT_other _ _ _ _ (by omega),
      GET_PUT_other _ _ _ _ (by omega), GET_PUT_same]
    rfl

/-- C9: on a fresh region `mm_init` returns 0; the word at offset 0 is the
padding 0, the words at offsets 4 and 8 are the prologue header and footer
`PACK(8,1)`, the heap has exactly one ordinary block, free, of `CHUNCKSIZE` =
4096 bytes with header and footer `PACK(4096,0)`, the epilogue `PACK(0,1)` is
the last word before the break, and `heap_listp` is at offset 8. -/
theorem mm_init_layout (base : Nat) (bytes : Nat → Nat) (hb : base + MAX_HEAP < MINUS_ONE) :
    (mm_init (mem_init base bytes)).2 = 0 ∧
    GET (mm_init (mem_init base bytes)).1.mem base = 0 ∧
    GET (mm_init (mem_init base bytes)).1.mem (base + 4) = PACK 8 1 ∧
    GET (mm_init (mem_init base bytes)).1.mem (base + 8) = PACK 8 1 ∧
    WellFormed (mm_init (mem_init base bytes)).1 [(CHUNCKSIZE, 0)] ∧
    GET (mm_init (mem_init base bytes)).1.mem (base + 12) = PACK 4096 0 ∧
    GET (mm_init (mem_init base bytes)).1.mem (base + 12 + 4096 - 4) = PACK 4096 0 ∧
    (mm_init (mem_init base bytes)).1.mem_brk = base + 12 + 4096 + 4 ∧
    GET (mm_init (mem_init base bytes)).1.mem ((mm_init (mem_init base bytes)).1.mem_brk - 4)
      = PACK 0 1 ∧
    (mm_init (mem_init base bytes)).1.heap_listp = base + 8 ∧
    (mm_init (mem_init base bytes)).1.mem_heap = base := by
  obtain ⟨m', e, hw, hpad⟩ := mm_init_fresh base bytes hb
  rw [e]
  obtain ⟨_, _, _, hh, hf, _⟩ := hw.chain
  refine ⟨rfl, hpad, hw.prologue_hdr, hw.prologue_ftr, hw, ?_, ?_, by show base + 16 + 4096 = _; omega,
    hw.epilogue, rfl, rfl⟩
  · rw [← hh]; congr 1
  · rw [← hf]; congr 1

/-- C10, as amended: after `mem_init(); mm_init();` the heap in use consists of
a 4-byte padding, an 8-byte prologue, one free block whose header size is 4096
bytes and a 4-byte epilogue, and its size (break minus base) is 4112 bytes. -/
theorem mm_init_sizes (base : Nat) (bytes : Nat → Nat) (hb : base + MAX_HEAP < MINUS_ONE) :
    (mm_init (mem_init base bytes)).2 = 0 ∧
    WellFormed (mm_init (mem_init base bytes)).1 [(4096, 0)] ∧
    GET_SIZE (mm_init (mem_init base bytes)).1.mem (base + 4 + 8) = 4096 ∧
    GET_ALLOC (mm_init (mem_init base bytes)).1.mem (base + 4 + 8) = 0 ∧
    (mm_init (mem_init base bytes)).1.mem_heap = base ∧
    (mm_init (mem_init base bytes)).1.mem_brk = base + 4 + 8 + 4096 + 4 ∧
    (mm_init (mem_init base bytes)).1.mem_brk - (mm_init (mem_init base bytes)).1.mem_heap
      = 4112 := by
  obtain ⟨m', e, hw, _⟩ := mm_init_fresh base bytes hb
  rw [e]
  obtain ⟨_, _, _, hh, _, _⟩ := hw.chain
  have hh' : GET m' (base + 4 + 8) = PACK 4096 0 := by rw [← hh]; congr 1
  refine ⟨rfl, hw, GET_SIZE_tag _ _ 4096 0 hh' (by decide) (by decide),
    GET_ALLOC_tag _ _ 4096 0 hh' (by decide) (by decide), rfl, ?_, ?_⟩
  · show base + 16 + 4096 = _
    omega
  · show base + 16 + 4096 - base = 4112
    omega

/-- C7: `mm_malloc(0)` returns `NULL` in every state and changes nothing: the
heap bytes, the break and the globals are as before. -/
theorem mm_malloc_zero (s : MemState) : mm_malloc s 0 = some (s, NULL) := by
  simp [mm_malloc]

/-! ## The contract of `mm_free` -/

/-- C6: on a well-formed heap without two adjacent free blocks, `mm_free` of an
allocated ordinary block leaves a well-formed heap with the same base and
break; the old block lies inside a block marked free, no two adjacent blocks
are both free, and the total size of the ordinary blocks is unchanged. -/
theorem mm_free_wellFormed (s : MemState) (l1 l2 : List (Nat × Nat)) (sz : Nat)
    (hwf : WellFormed s (l1 ++ (sz, 1) :: l2))
    (hadj : NoAdjacentFree (l1 ++ (sz, 1) :: l2)) :
    ∃ k1 n k2,
      WellFormed (mm_free s (s.mem_heap + 16 + sizes l1)) (k1 ++ (n, 0) :: k2) ∧
      (mm_free s (s.mem_heap + 16 + sizes l1)).mem_heap = s.mem_heap ∧
      (mm_free s (s.mem_heap + 16 + sizes l1)).mem_brk = s.mem_brk ∧
      sizes k1 ≤ sizes l1 ∧ sizes l1 + sz ≤ sizes k1 + n ∧
      NoAdjacentFree (k1 ++ (n, 0) :: k2) ∧
      sizes (k1 ++ (n, 0) :: k2) = sizes (l1 ++ (sz, 1) :: l2) := by
  obtain ⟨m', e, hw, _⟩ := mm_free_coalesce hwf
  refine ⟨keptBefore l1, joinedSize l1 sz l2, keptAfter l2, ?_, ?_, ?_,
    sizes_keptBefore_le l1, joinedSize_covers l1 sz l2, noAdjacentFree_coalesce l1 sz l2 hadj, ?_⟩
  · rw [e]; exact hw
  · rw [e]
  · rw [e]
  · have := sizes_coalesce l1 sz l2
    unfold coalesce at this
    rw [this]
    simp only [sizes_append, sizes]
    omega

/-! ## Evaluation on concrete heaps -/

/-- The heap right after initialisation is well formed, with one free block. -/
theorem heap0_wellFormed : WellFormed heap0 [(4096, 0)] :=
  ⟨by decide, by decide, by decide, by decide, by decide, by decide⟩

/-- The heap `heap1` is well formed, with an allocated and a free block. -/
theorem heap1_wellFormed : WellFormed heap1 [(16, 1), (4080, 0)] :=
  ⟨by decide, by decide, by decide, by decide, by decide, by decide⟩

/-- An instance of `mm_free_wellFormed`: freeing the 16-byte block at the start
of `heap1`, whose next block is free. -/
theorem mm_free_wellFormed_witness :
    WellFormed heap1 ([] ++ (16, 1) :: [(4080, 0)]) ∧
    NoAdjacentFree ([] ++ (16, 1) :: [(4080, 0)]) ∧
    ∃ k1 n k2,
      WellFormed (mm_free heap1 (heap1.mem_heap + 16 + sizes [])) (k1 ++ (n, 0) :: k2) ∧
      (mm_free heap1 (heap1.mem_heap + 16 + sizes [])).mem_heap = heap1.mem_heap ∧
      (mm_free heap1 (heap1.mem_heap + 16 + sizes [])).mem_brk = heap1.mem_brk ∧
      sizes k1 ≤ sizes [] ∧ sizes [] + 16 ≤ sizes k1 + n ∧
      NoAdjacentFree (k1 ++ (n, 0) :: k2) ∧
      sizes (k1 ++ (n, 0) :: k2) = sizes ([] ++ (16, 1) :: [(4080, 0)]) :=
  have hadj : NoAdjacentFree ([] ++ (16, 1) :: [(4080, 0)]) := by simp [NoAdjacentFree]
  ⟨heap1_wellFormed, hadj, mm_free_wellFormed heap1 [] [(4080, 0)] 16 heap1_wellFormed hadj⟩

/-- An instance of `mm_malloc_aligned`: `mm_malloc(2)` right after
initialisation returns address 4112, at offset 16 from the base 4096. -/
theorem mm_malloc_aligned_witness :
    Reach 4096 (fun _ => 0) heap0 [] ∧
    mm_malloc heap0 2 = some (place { heap0 with alloc_ptr := 4112 } 4112 2, 4112) ∧
    (4112 : Nat) ≠ NULL ∧
    (((4112 : Nat) : Int) - ((4096 : Nat) : Int)) % 8 = 0 ∧ (4096 % 8 = 0 → 4112 % 8 = 0) :=
  have hr : Reach 4096 (fun _ => 0) heap0 [] := Reach.init (by decide)
  have hm : mm_malloc heap0 2 = some (place { heap0 with alloc_ptr := 4112 } 4112 2, 4112) := by
    rfl
  ⟨hr, hm, by decide, mm_malloc_aligned 4096 (fun _ => 0) heap0 [] 2
    (place { heap0 with alloc_ptr := 4112 } 4112 2, 4112) hr hm (by decide)⟩

/-- An instance of `mm_malloc_out_of_memory`: a request of `MAX_HEAP` bytes
right after initialisation. -/
theorem mm_malloc_out_of_memory_witness :
    WellFormed heap0 [(4096, 0)] ∧ 0 < 20971520 ∧
    (∀ b ∈ [((4096 : Nat), (0 : Nat))], b.2 = 0 → b.1 < adjust 20971520) ∧
    mem_sbrk heap0 (toInt (MAX (adjust 20971520) CHUNCKSIZE)) = (heap0, MINUS_ONE) ∧
    ∃ s', mm_malloc heap0 20971520 = some (s', NULL) ∧ s'.mem = heap0.mem ∧
      s'.mem_brk = heap0.mem_brk ∧ s'.mem_heap = heap0.mem_heap ∧
      s'.heap_listp = heap0.heap_listp :=
  have hfit : ∀ b ∈ [((4096 : Nat), (0 : Nat))], b.2 = 0 → b.1 < adjust 20971520 := by decide
  have hfull : mem_sbrk heap0 (toInt (MAX (adjust 20971520) CHUNCKSIZE)) = (heap0, MINUS_ONE) := by
    rfl
  ⟨heap0_wellFormed, by decide, hfit, hfull,
    mm_malloc_out_of_memory heap0 [(4096, 0)] 20971520 heap0_wellFormed (by decide) hfit hfull⟩

/-- An instance of `mm_init_layout`: a zero-filled region at address 4096. -/
theorem mm_init_layout_witness :
    4096 + MAX_HEAP < MINUS_ONE ∧
    (mm_init (mem_init 4096 (fun _ => 0))).2 = 0 ∧
    GET (mm_init (mem_init 4096 (fun _ => 0))).1.mem 4096 = 0 ∧
    WellFormed (mm_init (mem_init 4096 (fun _ => 0))).1 [(CHUNCKSIZE, 0)] ∧
    (mm_init (mem_init 4096 (fun _ => 0))).1.heap_listp = 4096 + 8 :=
  have h := mm_init_layout 4096 (fun _ => 0) (by decide)
  ⟨by decide, h.1, h.2.1, h.2.2.2.2.1, h.2.2.2.2.2.2.2.2.2.1⟩

/-- An instance of `mm_init_sizes`: a zero-filled region at address 4096. -/
theorem mm_init_sizes_witness :
    4096 + MAX_HEAP < MINUS_ONE ∧
    GET_SIZE (mm_init (mem_init 4096 (fun _ => 0))).1.mem (4096 + 4 + 8) = 4096 ∧
    (mm_init (mem_init 4096 (fun _ => 0))).1.mem_brk
      - (mm_init (mem_init 4096 (fun _ => 0))).1.mem_heap = 4112 :=
  have h := mm_init_sizes 4096 (fun _ => 0) (by decide)
  ⟨by decide, h.2.2.1, h.2.2.2.2.2.2⟩

/-- C10 fails as stated: after `mem_init(); mm_init();` the header size of the
free block is not 4088 and the heap size is not 4104. -/
theorem init_block_not_4088 :
    (mm_init (mem_init 4096 (fun _ => 0))).2 = 0 ∧
    GET_SIZE heap0.mem (heap0.mem_heap + 12) ≠ 4088 ∧
    heap0.mem_brk - heap0.mem_heap ≠ 4104 := by
  decide

/-- When no more than `2^31 - 1` bytes are asked for and the capacity does not
hold them, `mem_sbrk` refuses. -/
theorem mem_sbrk_refuses (s : MemState) (E : Nat) (h : E < 2147483648)
    (hcap : s.mem_heap + MAX_HEAP < s.mem_brk + E) : mem_sbrk s (toInt E) = (s, MINUS_ONE) := by
  unfold mem_sbrk
  rw [toInt_small E h]
  have hc : ((E : Nat) : Int) < 0 ∨ s.mem_brk + E > s.mem_heap + MAX_HEAP := Or.inr hcap
  simp only [Int.toNat_ofNat, hc, if_true]

/-! ## The first-fit path of `mm_malloc` passes `size` to `place`

`mm_malloc` calls `place(alloc_ptr, size)` after a successful `find_fit`, where
the path through `extend_heap` calls `place(alloc_ptr, asize)`.  The theorems
below evaluate the code right after initialisation. -/

/-- C1 on the code: after `mem_init(); mm_init(); mm_malloc(2)` the pointer 4112
(offset 16) is live, and a second `mm_malloc(2)` returns that same pointer. -/
theorem mm_malloc_returns_live_pointer :
    ∃ s live r, Reach 4096 (fun _ => 0) s live ∧ mm_malloc s 2 = some r ∧ r.2 ≠ NULL ∧
      r.2 ∈ live :=
  ⟨(place { heap0 with alloc_ptr := 4112 } 4112 2), [4112],
    (place { place { heap0 with alloc_ptr := 4112 } 4112 2 with alloc_ptr := 4112 } 4112 2, 4112),
    Reach.malloc heap0 [] 2 (place { heap0 with alloc_ptr := 4112 } 4112 2, 4112)
      (Reach.init (by decide)) (by decide) (by rfl),
    by rfl, by decide, by decide⟩

/-- C2 on the code: right after initialisation `mm_malloc(2)` returns a block
whose header is marked free, and `mm_malloc(9)` returns a block whose header
size is 8, so that its payload has 0 bytes. -/
theorem mm_malloc_insufficient :
    (∃ r, mm_malloc heap0 2 = some r ∧ r.2 ≠ NULL ∧ GET_ALLOC r.1.mem (HDRP r.2) = 0) ∧
    (∃ r, mm_malloc heap0 9 = some r ∧ r.2 ≠ NULL ∧ GET_ALLOC r.1.mem (HDRP r.2) = 1 ∧
      GET_SIZE r.1.mem (HDRP r.2) = 8 ∧ GET_SIZE r.1.mem (HDRP r.2) - 8 < 9) :=
  ⟨⟨(place { heap0 with alloc_ptr := 4112 } 4112 2, 4112), by rfl, by decide, by decide⟩,
    ⟨(place { heap0 with alloc_ptr := 4112 } 4112 9, 4112), by rfl, by decide, by decide,
      by decide, by decide⟩⟩

/-- C4 on the code: the state after `mem_init(); mm_init(); mm_malloc(2)` is
reachable and not well formed: its prologue footer holds 3, not `PACK(8,1)`. -/
theorem mm_malloc_breaks_wellFormed :
    ∃ s live, Reach 4096 (fun _ => 0) s live ∧ GET s.mem (s.mem_heap + 8) = 3 ∧
      ∀ l, ¬ WellFormed s l :=
  ⟨(place { heap0 with alloc_ptr := 4112 } 4112 2), [4112],
    Reach.malloc heap0 [] 2 (place { heap0 with alloc_ptr := 4112 } 4112 2, 4112)
      (Reach.init (by decide)) (by decide) (by rfl),
    by decide, fun _ h => absurd h.prologue_ftr (by decide)⟩

/-- C5 on the code: on the well-formed heap right after initialisation
`mm_malloc(2)` returns the block found by `find_fit(16)`, but the header of
that block then holds 4094 (size 4088, free), where `place(bp, 16)` leaves
`PACK(16,1)`.  With a free block of 32 bytes, and with one of 24 bytes,
`mm_malloc(8)` leaves the header 9 (size 8, allocated) where `place(bp, 16)`
leaves `PACK(16,1)` and `PACK(24,1)`. -/
theorem mm_malloc_not_place_asize :
    (WellFormed heap0 [(4096, 0)] ∧ adjust 2 = 16 ∧
      ∃ r, mm_malloc heap0 2 = some r ∧ find_fit heap0 (adjust 2) = some r.2 ∧
        GET r.1.mem (HDRP r.2) = 4094 ∧
        GET (place heap0 r.2 (adjust 2)).mem (HDRP r.2) = PACK 16 1 ∧
        GET_SIZE r.1.mem (HDRP r.2) = 4088 ∧ GET_ALLOC r.1.mem (HDRP r.2) = 0) ∧
    (WellFormed (heapWithTail 32) [(4064, 1), (32, 0)] ∧ adjust 8 = 16 ∧
      ∃ r, mm_malloc (heapWithTail 32) 8 = some r ∧
        find_fit (heapWithTail 32) (adjust 8) = some r.2 ∧
        GET r.1.mem (HDRP r.2) = 9 ∧
        GET (place (heapWithTail 32) r.2 (adjust 8)).mem (HDRP r.2) = PACK 16 1) ∧
    (WellFormed (heapWithTail 24) [(4072, 1), (24, 0)] ∧
      ∃ r, mm_malloc (heapWithTail 24) 8 = some r ∧
        find_fit (heapWithTail 24) (adjust 8) = some r.2 ∧
        GET r.1.mem (HDRP r.2) = 9 ∧
        GET (place (heapWithTail 24) r.2 (adjust 8)).mem (HDRP r.2) = PACK 24 1) :=
  ⟨⟨heap0_wellFormed, by decide,
      (place { heap0 with alloc_ptr := 4112 } 4112 2, 4112), by rfl, by decide, by decide,
      by decide, by decide, by decide⟩,
    ⟨⟨by decide, by decide, by decide, by decide, by decide, by decide⟩, by decide,
      (place { heapWithTail 32 with alloc_ptr := 8176 } 8176 8, 8176), by rfl, by decide,
      by decide, by decide⟩,
    ⟨⟨by decide, by decide, by decide, by decide, by decide, by decide⟩,
      (place { heapWithTail 24 with alloc_ptr := 8184 } 8184 8, 8184), by rfl, by decide,
      by decide, by decide⟩⟩

/-! ## `place` on a well-formed heap -/

theorem GET_SIZE_PUT_tag (m : Nat → Nat) (p S a : Nat) (h8 : S % 8 = 0) (ha : a ≤ 1)
    (hlt : S + a < UINT) : GET_SIZE (PUT m p (PACK S a)) p = S := by
  apply GET_SIZE_tag _ _ S a _ h8 ha
  rw [GET_PUT_same, tag_eq S a h8 ha]
  exact Nat.mod_eq_of_lt hlt

/-- The byte count that `place` compares with the minimum block size. -/
theorem place_rest (csize asize : Nat) (hle : asize ≤ csize) (hlt : csize < SIZE_T) :
    (csize + SIZE_T - asize) % SIZE_T = csize - asize := by
  simp only [SIZE_T] at hlt ⊢
  omega

/-- The free block of `csize` bytes behind `l1` is split by `place`: the four
words written, and the block list afterwards. -/
theorem place_split {s : MemState} {l1 l2 : List (Nat × Nat)} {csize : Nat}
    (h : WellFormed s (l1 ++ (csize, 0) :: l2)) (asize : Nat) (h8 : asize % 8 = 0)
    (h16 : 16 ≤ asize) (hle : asize + 16 ≤ csize) :
    place s (s.mem_heap + 16 + sizes l1) asize = { s with mem := PUT (PUT (PUT (PUT s.mem (s.mem_heap + 16 + sizes l1 - 4) (PACK asize 1)) (s.mem_heap + 16 + sizes l1 + asize - 8) (PACK asize 1)) (s.mem_heap + 16 + sizes l1 + asize - 4) (PACK (csize - asize) 0)) (s.mem_heap + 16 + sizes l1 + csize - 8) (PACK (csize - asize) 0) } ∧
    WellFormed (place s (s.mem_heap + 16 + sizes l1) asize)
      (l1 ++ (asize, 1) :: (csize - asize, 0) :: l2) := by
  have hc := h.chain
  rw [Chain_append] at hc
  obtain ⟨_, c16, c8, _, hh, _, _⟩ := hc
  simp only at c16 c8 hh
  have hlt := h.sizes_lt
  simp only [sizes_append, sizes] at hlt
  have e0 : GET_SIZE s.mem (s.mem_heap + 16 + sizes l1 - 4) = csize :=
    GET_SIZE_tag _ _ csize 0 hh c8 (by omega)
  have er := place_rest csize asize (by omega) (by simp only [SIZE_T]; omega)
  have e1 : GET_SIZE (PUT s.mem (s.mem_heap + 16 + sizes l1 - 4) (PACK asize 1))
      (s.mem_heap + 16 + sizes l1 - 4) = asize :=
    GET_SIZE_PUT_tag _ _ _ _ h8 (by omega) (by simp only [UINT]; omega)
  have e2 : ∀ v, GET_SIZE (PUT (PUT s.mem (s.mem_heap + 16 + sizes l1 - 4) (PACK asize 1))
      (s.mem_heap + 16 + sizes l1 + asize - 8) v) (s.mem_heap + 16 + sizes l1 - 4) = asize := by
    intro v
    rw [GET_SIZE_PUT_other _ _ _ _ (by omega), e1]
  have e3 : ∀ m, GET_SIZE (PUT m (s.mem_heap + 16 + sizes l1 + asize - 4) (PACK (csize - asize) 0))
      (s.mem_heap + 16 + sizes l1 + asize - 4) = csize - asize := by
    intro m
    exact GET_SIZE_PUT_tag _ _ _ _ (by omega) (by omega) (by simp only [UINT]; omega)
  have e4 : s.mem_heap + 16 + sizes l1 + asize + (csize - asize) - 8
      = s.mem_heap + 16 + sizes l1 + csize - 8 := by omega
  have hge : 16 ≤ csize - asize := by omega
  have heq : place s (s.mem_heap + 16 + sizes l1) asize = { s with mem := PUT (PUT (PUT (PUT s.mem (s.mem_heap + 16 + sizes l1 - 4) (PACK asize 1)) (s.mem_heap + 16 + sizes l1 + asize - 8) (PACK asize 1)) (s.mem_heap + 16 + sizes l1 + asize - 4) (PACK (csize - asize) 0)) (s.mem_heap + 16 + sizes l1 + csize - 8) (PACK (csize - asize) 0) } := by
    unfold place
    simp only [HDRP, FTRP, NEXT_BLKP, WSIZE, DSIZE, e0, er, e1, e2, e3, e4]
    simp only [Nat.reduceMul, ge_iff_le, hge, if_true]
  refine ⟨heq, ?_⟩
  rw [heq]
  have h' : WellFormed s (l1 ++ ([(csize, 0)] ++ l2)) := by simpa using h
  have key := WellFormed.splice (PUT (PUT (PUT (PUT s.mem (s.mem_heap + 16 + sizes l1 - 4) (PACK asize 1)) (s.mem_heap + 16 + sizes l1 + asize - 8) (PACK asize 1)) (s.mem_heap + 16 + sizes l1 + asize - 4) (PACK (csize - asize) 0)) (s.mem_heap + 16 + sizes l1 + csize - 8) (PACK (csize - asize) 0))
    [(asize, 1), (csize - asize, 0)] h' ?_ ?_
  · simpa using key
  · intro x hx
    simp only [sizes] at hx
    rw [PUT_PUT_byte _ _ _ _ _ _ (by omega) (by omega),
      PUT_PUT_byte _ _ _ _ _ _ (by omega) (by omega)]
  · have t1 : PACK asize 1 % UINT = PACK asize 1 := by
      rw [tag_eq asize 1 h8 (by omega)]
      exact Nat.mod_eq_of_lt (by simp only [UINT]; omega)
    have t2 : PACK (csize - asize) 0 % UINT = PACK (csize - asize) 0 := by
      rw [PACK_zero]
      exact Nat.mod_eq_of_lt (by simp only [UINT]; omega)
    refine ⟨h16, h8, Nat.le_refl 1, ?_, ?_, hge, by omega, Nat.zero_le 1, ?_, ?_, ?_⟩
    · show GET _ (s.mem_heap + 16 + sizes l1 - 4) = PACK asize 1
      rw [GET_PUT_other _ _ _ _ (by omega), GET_PUT_other _ _ _ _ (by omega),
        GET_PUT_other _ _ _ _ (by omega), GET_PUT_same, t1]
    · show GET _ (s.mem_heap + 16 + sizes l1 + asize - 8) = PACK asize 1
      rw [GET_PUT_other _ _ _ _ (by omega), GET_PUT_other _ _ _ _ (by omega), GET_PUT_same, t1]
    · show GET _ (s.mem_heap + 16 + sizes l1 + asize - 4) = PACK (csize - asize) 0
      rw [GET_PUT_other _ _ _ _ (by omega), GET_PUT_same, t2]
    · show GET _ (s.mem_heap + 16 + sizes l1 + asize + (csize - asize) - 8) = PACK (csize - asize) 0
      rw [e4, GET_PUT_same, t2]
    · show s.mem_heap + 16 + sizes l1 + asize + (csize - asize)
        = s.mem_heap + 16 + sizes l1 + sizes [(csize, 0)]
      simp only [sizes]
      omega

/-- The free block of `csize` bytes behind `l1` is taken whole by `place`: the
two words written, and the block list afterwards. -/
theorem place_whole {s : MemState} {l1 l2 : List (Nat × Nat)} {csize : Nat}
    (h : WellFormed s (l1 ++ (csize, 0) :: l2)) (asize : Nat)
    (hle : asize ≤ csize) (hlt16 : csize < asize + 16) :
    place s (s.mem_heap + 16 + sizes l1) asize = { s with mem := PUT (PUT s.mem (s.mem_heap + 16 + sizes l1 - 4) (PACK csize 1)) (s.mem_heap + 16 + sizes l1 + csize - 8) (PACK csize 1) } ∧
    WellFormed (place s (s.mem_heap + 16 + sizes l1) asize) (l1 ++ (csize, 1) :: l2) := by
  have hc := h.chain
  rw [Chain_append] at hc
  obtain ⟨_, c16, c8, _, hh, _, _⟩ := hc
  simp only at c16 c8 hh
  have hlt := h.sizes_lt
  simp only [sizes_append, sizes] at hlt
  have e0 : GET_SIZE s.mem (s.mem_heap + 16 + sizes l1 - 4) = csize :=
    GET_SIZE_tag _ _ csize 0 hh c8 (by omega)
  have er := place_rest csize asize hle (by simp only [SIZE_T]; omega)
  have e1 : GET_SIZE (PUT s.mem (s.mem_heap + 16 + sizes l1 - 4) (PACK csize 1))
      (s.mem_heap + 16 + sizes l1 - 4) = csize :=
    GET_SIZE_PUT_tag _ _ _ _ c8 (by omega) (by simp only [UINT]; omega)
  have hge : ¬ 16 ≤ csize - asize := by omega
  have heq : place s (s.mem_heap + 16 + sizes l1) asize = { s with mem := PUT (PUT s.mem (s.mem_heap + 16 + sizes l1 - 4) (PACK csize 1)) (s.mem_heap + 16 + sizes l1 + csize - 8) (PACK csize 1) } := by
    unfold place
    simp only [HDRP, FTRP, WSIZE, DSIZE, e0, er, e1]
    simp only [Nat.reduceMul, ge_iff_le, hge, if_false]
  refine ⟨heq, ?_⟩
  rw [heq]
  have h' : WellFormed s (l1 ++ ([(csize, 0)] ++ l2)) := by simpa using h
  have key := WellFormed.splice (PUT (PUT s.mem (s.mem_heap + 16 + sizes l1 - 4) (PACK csize 1)) (s.mem_heap + 16 + sizes l1 + csize - 8) (PACK csize 1))
    [(csize, 1)] h' ?_ ?_
  · simpa using key
  · intro x hx
    simp only [sizes] at hx
    rw [PUT_PUT_byte _ _ _ _ _ _ (by omega) (by omega)]
  · have e3 : s.mem_heap + 16 + sizes l1 + sizes [(csize, 0)] = s.mem_heap + 16 + sizes l1 + csize := by
      simp only [sizes]; omega
    rw [e3]
    exact Chain_hdr_ftr s.mem (s.mem_heap + 16 + sizes l1) csize (PACK csize 1) c16 c8 1 (by omega)
      rfl (by simp only [UINT]; omega) (by omega)

/-- C17: on a well-formed heap, for a free block `bp` of `csize` bytes and an
`asize` that is a multiple of 8 with `16 ≤ asize ≤ csize`: when `csize - asize`
is at least 16, `place(bp, asize)` writes `PACK(asize,1)` into header and
footer of `bp` and `PACK(csize-asize,0)` into header and footer of the block at
`bp + asize`; otherwise it writes `PACK(csize,1)` into header and footer of
`bp`.  In both cases the heap stays well formed (so no block is smaller than 16
bytes) and the total of the block sizes is unchanged. -/
theorem place_spec (s : MemState) (l1 l2 : List (Nat × Nat)) (csize asize : Nat)
    (h : WellFormed s (l1 ++ (csize, 0) :: l2)) (h8 : asize % 8 = 0) (h16 : 16 ≤ asize)
    (hle : asize ≤ csize) :
    (16 ≤ csize - asize →
      place s (s.mem_heap + 16 + sizes l1) asize = { s with mem := PUT (PUT (PUT (PUT s.mem (s.mem_heap + 16 + sizes l1 - 4) (PACK asize 1)) (s.mem_heap + 16 + sizes l1 + asize - 8) (PACK asize 1)) (s.mem_heap + 16 + sizes l1 + asize - 4) (PACK (csize - asize) 0)) (s.mem_heap + 16 + sizes l1 + asize + (csize - asize) - 8) (PACK (csize - asize) 0) } ∧
      WellFormed (place s (s.mem_heap + 16 + sizes l1) asize)
        (l1 ++ (asize, 1) :: (csize - asize, 0) :: l2) ∧
      sizes (l1 ++ (asize, 1) :: (csize - asize, 0) :: l2) = sizes (l1 ++ (csize, 0) :: l2)) ∧
    (csize - asize < 16 →
      place s (s.mem_heap + 16 + sizes l1) asize = { s with mem := PUT (PUT s.mem (s.mem_heap + 16 + sizes l1 - 4) (PACK csize 1)) (s.mem_heap + 16 + sizes l1 + csize - 8) (PACK csize 1) } ∧
      WellFormed (place s (s.mem_heap + 16 + sizes l1) asize) (l1 ++ (csize, 1) :: l2) ∧
      sizes (l1 ++ (csize, 1) :: l2) = sizes (l1 ++ (csize, 0) :: l2)) := by
  refine ⟨fun hge => ?_, fun hlt => ?_⟩
  · obtain ⟨e, hw⟩ := place_split h asize h8 h16 (by omega)
    have e4 : s.mem_heap + 16 + sizes l1 + asize + (csize - asize) - 8
        = s.mem_heap + 16 + sizes l1 + csize - 8 := by omega
    refine ⟨by rw [e4]; exact e, hw, ?_⟩
    simp only [sizes_append, sizes]
    omega
  · obtain ⟨e, hw⟩ := place_whole h asize hle (by omega)
    refine ⟨e, hw, ?_⟩
    simp only [sizes_append, sizes]

/-! ## `find_fit` as a first-fit search -/

theorem find_fit_loop_chain {m : Nat → Nat} {l : List (Nat × Nat)} {a e : Nat} (asize : Nat)
    (hc : Chain m a l e) (hepi : GET m (e - 4) = PACK 0 1) (fuel : Nat) (hfuel : l.length < fuel) :
    find_fit_loop m asize fuel a = some (firstFit asize a l) := by
  induction l generalizing a fuel with
  | nil =>
    simp only [Chain] at hc
    subst hc
    obtain ⟨f, rfl⟩ : ∃ f, fuel = f + 1 := ⟨fuel - 1, by simp at hfuel; omega⟩
    have e1 : GET_SIZE m (a - 4) = 0 := GET_SIZE_tag _ _ 0 1 hepi (by decide) (by decide)
    simp [find_fit_loop, HDRP, e1, firstFit]
  | cons b l ih =>
    obtain ⟨h16, h8, ha, hh, _, hc'⟩ := hc
    obtain ⟨f, rfl⟩ : ∃ f, fuel = f + 1 := ⟨fuel - 1, by simp at hfuel; omega⟩
    have e1 : GET_SIZE m (a - 4) = b.1 := GET_SIZE_tag _ _ b.1 b.2 hh h8 ha
    have e2 : GET_ALLOC m (a - 4) = b.2 := GET_ALLOC_tag _ _ b.1 b.2 hh h8 ha
    have hne : b.1 ≠ 0 := by omega
    rw [find_fit_loop_succ]
    simp only [HDRP, NEXT_BLKP, WSIZE, e1, e2, hne, ne_eq, not_false_eq_true, if_true, firstFit,
      ge_iff_le]
    split
    · rfl
    · apply ih hc'
      simp only [List.length_cons] at hfuel
      omega

/-- On a well-formed heap `find_fit` ends and returns what the first-fit search
over the block list gives. -/
theorem find_fit_eq {s : MemState} {l : List (Nat × Nat)} (asize : Nat) (h : WellFormed s l) :
    find_fit s asize = some (firstFit asize (s.mem_heap + 16) l) ∧
    find_fit_loop s.mem asize find_fit_passes (s.mem_heap + 16)
      = some (firstFit asize (s.mem_heap + 16) l) := by
  have hlen := Chain.length_le h.chain
  have hlt := h.sizes_lt
  have e0 : s.mem_heap + 8 - 4 = s.mem_heap + 4 := by omega
  have e1 : GET_SIZE s.mem (s.mem_heap + 8 - 4) = 8 := by
    rw [e0]
    exact GET_SIZE_tag _ _ 8 1 h.prologue_hdr (by decide) (by decide)
  have e2 : GET_ALLOC s.mem (s.mem_heap + 8 - 4) = 1 := by
    rw [e0]
    exact GET_ALLOC_tag _ _ 8 1 h.prologue_hdr (by decide) (by decide)
  refine ⟨?_, find_fit_loop_chain asize h.chain h.epilogue _ (by simp only [find_fit_passes, MAX_HEAP, DSIZE]; omega)⟩
  unfold find_fit
  rw [h.listp]
  show find_fit_loop s.mem asize (2621439 + 1) (s.mem_heap + 8) = _
  rw [find_fit_loop_succ]
  simp only [HDRP, NEXT_BLKP, WSIZE, e1, e2]
  simp only [ne_eq, OfNat.ofNat_ne_zero, not_false_eq_true, if_true, one_ne_zero, false_and, if_false]
  exact find_fit_loop_chain asize h.chain h.epilogue _ (by omega)

theorem firstFit_none (asize a : Nat) (l : List (Nat × Nat))
    (h : ∀ b ∈ l, b.2 = 0 → b.1 < asize) : firstFit asize a l = NULL := by
  induction l generalizing a with
  | nil => rfl
  | cons b l ih =>
    have hb := h b (List.mem_cons_self _ _)
    have hno : ¬ (b.2 = 0 ∧ asize ≤ b.1) := by
      intro ⟨h0, h1⟩
      have := hb h0
      omega
    simp only [firstFit, hno, if_false]
    exact ih _ (fun c hc => h c (List.mem_cons_of_mem _ hc))

theorem firstFit_found (asize a : Nat) (l1 l2 : List (Nat × Nat)) (sz : Nat)
    (h1 : ∀ b ∈ l1, b.2 = 0 → b.1 < asize) (hsz : asize ≤ sz) :
    firstFit asize a (l1 ++ (sz, 0) :: l2) = a + sizes l1 := by
  induction l1 generalizing a with
  | nil => simp [firstFit, hsz, sizes]
  | cons b l ih =>
    have hb := h1 b (List.mem_cons_self _ _)
    have hno : ¬ (b.2 = 0 ∧ asize ≤ b.1) := by
      intro ⟨h0, h1⟩
      have := hb h0
      omega
    have := ih (a + b.1) (fun c hc => h1 c (List.mem_cons_of_mem _ hc))
    show firstFit asize a (b :: (l ++ (sz, 0) :: l2)) = _
    simp only [firstFit, hno, if_false, sizes, this]
    omega

/-- The first-fit search gives `NULL` when no block fits, and otherwise the
payload pointer of a fitting free block in front of which no block fits. -/
theorem firstFit_cases (asize a : Nat) (l : List (Nat × Nat)) :
    (firstFit asize a l = NULL ∧ ∀ b ∈ l, b.2 = 0 → b.1 < asize) ∨
    ∃ l1 sz l2, l = l1 ++ (sz, 0) :: l2 ∧ asize ≤ sz ∧ (∀ b ∈ l1, b.2 = 0 → b.1 < asize) ∧
      firstFit asize a l = a + sizes l1 := by
  induction l generalizing a with
  | nil => exact Or.inl ⟨rfl, fun b hb => by simp at hb⟩
  | cons b l ih =>
    by_cases hb : b.2 = 0 ∧ asize ≤ b.1
    · right
      refine ⟨[], b.1, l, ?_, hb.2, fun c hc => by simp at hc, ?_⟩
      · obtain ⟨b1, b2⟩ := b
        simp only at hb
        simp [hb.1]
      · simp [firstFit, hb, sizes]
    · have hb' : b.2 = 0 → b.1 < asize := fun h0 => by
        by_contra hge
        exact hb ⟨h0, by omega⟩
      rcases ih (a + b.1) with ⟨e, hn⟩ | ⟨l1, sz, l2, e, hsz, h1, ef⟩
      · left
        refine ⟨by simp only [firstFit, hb, if_false]; exact e, ?_⟩
        intro c hc
        rcases List.mem_cons.mp hc with rfl | hc
        · exact hb'
        · exact hn c hc
      · right
        refine ⟨b :: l1, sz, l2, by rw [e]; rfl, hsz, ?_, ?_⟩
        · intro c hc
          rcases List.mem_cons.mp hc with rfl | hc
          · exact hb'
          · exact h1 c hc
        · simp only [firstFit, hb, if_false, ef, sizes]
          omega

/-- C16: on a well-formed heap `find_fit(asize)` ends (the embedded function
only reads the state) and returns the lowest-address ordinary block that is
free and has a header size of at least `asize`; it returns `NULL` exactly when
no free block has that size; and the walk started at the first ordinary block
instead of the prologue gives the same result. -/
theorem find_fit_first_fit (s : MemState) (l : List (Nat × Nat)) (asize : Nat)
    (h : WellFormed s l) :
    ∃ p, find_fit s asize = some p ∧
      (p = NULL ↔ ∀ b ∈ l, b.2 = 0 → b.1 < asize) ∧
      (p ≠ NULL → ∃ l1 sz l2, l = l1 ++ (sz, 0) :: l2 ∧ asize ≤ sz ∧
        (∀ b ∈ l1, b.2 = 0 → b.1 < asize) ∧ p = s.mem_heap + 16 + sizes l1) ∧
      find_fit_loop s.mem asize find_fit_passes (s.mem_heap + 16) = some p := by
  obtain ⟨e1, e2⟩ := find_fit_eq asize h
  refine ⟨_, e1, ?_, ?_, e2⟩
  · constructor
    · intro hp
      rcases firstFit_cases asize (s.mem_heap + 16) l with ⟨_, hn⟩ | ⟨l1, sz, l2, _, _, _, ef⟩
      · exact hn
      · rw [ef] at hp
        simp only [NULL] at hp
        omega
    · exact firstFit_none asize _ l
  · intro hp
    rcases firstFit_cases asize (s.mem_heap + 16) l with ⟨e, _⟩ | ⟨l1, sz, l2, el, hsz, h1, ef⟩
    · exact absurd e hp
    · exact ⟨l1, sz, l2, el, hsz, h1, ef⟩

/-! ## The words that `merge` writes -/

theorem prevTag_size_le (l1 : List (Nat × Nat)) (h : (prevTag l1).2 = 0) :
    (prevTag l1).1 ≤ sizes l1 := by
  have hl1 := prevTag_free_shape l1 h
  conv => rhs; rw [hl1]
  rw [sizes_concat]
  omega

theorem nextTag_size_le (l2 : List (Nat × Nat)) (h : (nextTag l2).2 = 0) :
    (nextTag l2).1 ≤ sizes l2 := by
  have hl2 := nextTag_free_shape l2 h
  conv => rhs; rw [hl2]
  simp only [sizes]
  omega

/-- The result of `merge` on a well-formed heap whose block behind `l1` is
free, case by case, with the words written. -/
theorem merge_eq {s : MemState} {l1 l2 : List (Nat × Nat)} {sz : Nat}
    (h : WellFormed s (l1 ++ (sz, 0) :: l2)) :
    ((prevTag l1).2 ≠ 0 → (nextTag l2).2 ≠ 0 →
      merge s (s.mem_heap + 16 + sizes l1) = (s, s.mem_heap + 16 + sizes l1)) ∧
    ((prevTag l1).2 ≠ 0 → (nextTag l2).2 = 0 →
      merge s (s.mem_heap + 16 + sizes l1) = ({ s with mem := PUT (PUT s.mem (s.mem_heap + 16 + sizes l1 - 4) (sz + (nextTag l2).1)) (s.mem_heap + 16 + sizes l1 + sz + (nextTag l2).1 - 8) (sz + (nextTag l2).1) }, s.mem_heap + 16 + sizes l1)) ∧
    ((prevTag l1).2 = 0 → (nextTag l2).2 ≠ 0 →
      merge s (s.mem_heap + 16 + sizes l1) = ({ s with mem := PUT (PUT s.mem (s.mem_heap + 16 + sizes l1 + sz - 8) (sz + (prevTag l1).1)) (s.mem_heap + 16 + sizes l1 - (prevTag l1).1 - 4) (sz + (prevTag l1).1) }, s.mem_heap + 16 + sizes l1 - (prevTag l1).1)) ∧
    ((prevTag l1).2 = 0 → (nextTag l2).2 = 0 →
      merge s (s.mem_heap + 16 + sizes l1) = ({ s with mem := PUT (PUT s.mem (s.mem_heap + 16 + sizes l1 - (prevTag l1).1 - 4) (sz + ((prevTag l1).1 + (nextTag l2).1))) (s.mem_heap + 16 + sizes l1 + sz + (nextTag l2).1 - 8) (sz + ((prevTag l1).1 + (nextTag l2).1)) }, s.mem_heap + 16 + sizes l1 - (prevTag l1).1)) := by
  have ha := h.around
  have hlt := h.sizes_lt
  simp only [sizes_append, sizes] at hlt
  have hp1 := ha.pa1
  have hn1 := ha.na1
  refine ⟨fun hp hn => merge_wf_case1 h hp hn, fun hp hn => ?_, fun hp hn => ?_, fun hp hn => ?_⟩
  · have hp' : (prevTag l1).2 = 1 := by omega
    have hb := nextTag_size_le l2 hn
    rw [hp', hn] at ha
    exact merge_case2 s _ sz _ _ ha (by simp only [UINT]; omega)
  · have hn' : (nextTag l2).2 = 1 := by omega
    rw [hp, hn'] at ha
    exact merge_case3 s _ sz _ _ ha
  · have hb := nextTag_size_le l2 hn
    have hb' := prevTag_size_le l1 hp
    rw [hp, hn] at ha
    exact merge_case4 s _ sz _ _ ha (by simp only [UINT]; omega)

/-- The alloc bits that `merge` reads for the block behind `l1`. -/
theorem merge_reads {s : MemState} {l1 l2 : List (Nat × Nat)} {sz : Nat}
    (h : WellFormed s (l1 ++ (sz, 0) :: l2)) :
    GET_ALLOC s.mem (FTRP s.mem (PREV_BLKP s.mem (s.mem_heap + 16 + sizes l1))) = (prevTag l1).2 ∧
    GET_ALLOC s.mem (HDRP (NEXT_BLKP s.mem (s.mem_heap + 16 + sizes l1))) = (nextTag l2).2 :=
  ⟨h.around.prev_alloc, h.around.next_alloc⟩

theorem merge_case_eq {s : MemState} {l1 l2 : List (Nat × Nat)} {sz : Nat}
    (h : WellFormed s (l1 ++ (sz, 0) :: l2)) :
    merge_case s (s.mem_heap + 16 + sizes l1) =
      if (prevTag l1).2 ≠ 0 ∧ (nextTag l2).2 ≠ 0 then 1
      else if (prevTag l1).2 ≠ 0 ∧ (nextTag l2).2 = 0 then 2
      else if (prevTag l1).2 = 0 ∧ (nextTag l2).2 ≠ 0 then 3
      else 4 := by
  obtain ⟨e1, e2⟩ := merge_reads h
  unfold merge_case
  simp only [e1, e2]

/-- C15: the boundary-tag table of `merge` for a free ordinary block `bp` of a
heap that is well formed except that `bp` may have free neighbours.  With `P`
the alloc bit read from the footer of the previous block and `N` the one read
from the header of the next block: `P = 1, N = 1` returns `bp` and changes
nothing; `P = 1, N = 0` returns `bp` with header(bp) and footer(next) set to
`PACK(size(bp)+size(next),0)`; `P = 0, N = 1` returns `prev` with footer(bp)
and header(prev) set to `PACK(size(bp)+size(prev),0)`; `P = 0, N = 0` returns
`prev` with header(prev) and footer(next) set to the packed sum of the three
sizes.  For the first block the lookup reads the prologue, for the last one the
epilogue, both with alloc bit 1, and the sentinel words are never changed. -/
theorem merge_table (s : MemState) (l1 l2 : List (Nat × Nat)) (sz : Nat)
    (h : WellFormed s (l1 ++ (sz, 0) :: l2)) :
    GET_ALLOC s.mem (FTRP s.mem (PREV_BLKP s.mem (s.mem_heap + 16 + sizes l1))) = (prevTag l1).2 ∧
    GET_ALLOC s.mem (HDRP (NEXT_BLKP s.mem (s.mem_heap + 16 + sizes l1))) = (nextTag l2).2 ∧
    (l1 = [] → (prevTag l1).2 = 1) ∧ (l2 = [] → (nextTag l2).2 = 1) ∧
    ((prevTag l1).2 = 1 → (nextTag l2).2 = 1 →
      merge s (s.mem_heap + 16 + sizes l1) = (s, s.mem_heap + 16 + sizes l1)) ∧
    ((prevTag l1).2 = 1 → (nextTag l2).2 = 0 →
      merge s (s.mem_heap + 16 + sizes l1) = ({ s with mem := PUT (PUT s.mem (s.mem_heap + 16 + sizes l1 - 4) (PACK (sz + (nextTag l2).1) 0)) (s.mem_heap + 16 + sizes l1 + sz + (nextTag l2).1 - 8) (PACK (sz + (nextTag l2).1) 0) }, s.mem_heap + 16 + sizes l1)) ∧
    ((prevTag l1).2 = 0 → (nextTag l2).2 = 1 →
      merge s (s.mem_heap + 16 + sizes l1) = ({ s with mem := PUT (PUT s.mem (s.mem_heap + 16 + sizes l1 + sz - 8) (PACK (sz + (prevTag l1).1) 0)) (s.mem_heap + 16 + sizes l1 - (prevTag l1).1 - 4) (PACK (sz + (prevTag l1).1) 0) }, s.mem_heap + 16 + sizes l1 - (prevTag l1).1)) ∧
    ((prevTag l1).2 = 0 → (nextTag l2).2 = 0 →
      merge s (s.mem_heap + 16 + sizes l1) = ({ s with mem := PUT (PUT s.mem (s.mem_heap + 16 + sizes l1 - (prevTag l1).1 - 4) (PACK (sz + ((prevTag l1).1 + (nextTag l2).1)) 0)) (s.mem_heap + 16 + sizes l1 + sz + (nextTag l2).1 - 8) (PACK (sz + ((prevTag l1).1 + (nextTag l2).1)) 0) }, s.mem_heap + 16 + sizes l1 - (prevTag l1).1)) ∧
    GET (merge s (s.mem_heap + 16 + sizes l1)).1.mem (s.mem_heap + 4) = GET s.mem (s.mem_heap + 4) ∧
    GET (merge s (s.mem_heap + 16 + sizes l1)).1.mem (s.mem_heap + 8) = GET s.mem (s.mem_heap + 8) ∧
    GET (merge s (s.mem_heap + 16 + sizes l1)).1.mem (s.mem_brk - 4) = GET s.mem (s.mem_brk - 4) ∧
    (merge s (s.mem_heap + 16 + sizes l1)).1.mem_brk = s.mem_brk := by
  obtain ⟨r1, r2⟩ := merge_reads h
  obtain ⟨c1, c2, c3, c4⟩ := merge_eq h
  obtain ⟨m', e, hw, _⟩ := merge_coalesce h
  simp only [PACK_zero]
  refine ⟨r1, r2, fun e1 => by rw [e1]; rfl, fun e2 => by rw [e2]; rfl,
    fun hp hn => c1 (by omega) (by omega), fun hp hn => c2 (by omega) hn,
    fun hp hn => c3 hp (by omega), fun hp hn => c4 hp hn, ?_, ?_, ?_, ?_⟩
  · rw [e, h.prologue_hdr]; exact hw.prologue_hdr
  · rw [e, h.prologue_ftr]; exact hw.prologue_ftr
  · rw [e, h.epilogue]; exact hw.epilogue
  · rw [e]

/-! ## The words that `mm_free` writes -/

theorem mm_free_eq_merge (s : MemState) (bp : Nat) :
    mm_free s bp = (merge (mm_free_mark s bp) bp).1 := rfl

/-- The state in which `mm_free` calls `merge`, for an allocated block of a
well-formed heap. -/
theorem mm_free_mark_wf {s : MemState} {l1 l2 : List (Nat × Nat)} {sz : Nat}
    (h : WellFormed s (l1 ++ (sz, 1) :: l2)) :
    mm_free_mark s (s.mem_heap + 16 + sizes l1) = { s with mem := PUT (PUT s.mem (s.mem_heap + 16 + sizes l1 - 4) sz) (s.mem_heap + 16 + sizes l1 + sz - 8) sz } ∧
    WellFormed (mm_free_mark s (s.mem_heap + 16 + sizes l1)) (l1 ++ (sz, 0) :: l2) := by
  have hc := h.chain
  rw [Chain_append] at hc
  obtain ⟨_, h16, h8, _, hh, _, _⟩ := hc
  simp only at h16 h8 hh
  have hlt := h.sizes_lt
  simp only [sizes_append, sizes] at hlt
  have e1 : GET_SIZE s.mem (s.mem_heap + 16 + sizes l1 - 4) = sz :=
    GET_SIZE_tag _ _ sz 1 hh h8 (by omega)
  have e2 : GET_SIZE (PUT s.mem (s.mem_heap + 16 + sizes l1 - 4) sz)
      (s.mem_heap + 16 + sizes l1 - 4) = sz :=
    GET_SIZE_PUT_same _ _ _ h8 (by simp only [UINT]; omega)
  have heq : mm_free_mark s (s.mem_heap + 16 + sizes l1) = { s with mem := PUT (PUT s.mem (s.mem_heap + 16 + sizes l1 - 4) sz) (s.mem_heap + 16 + sizes l1 + sz - 8) sz } := by
    unfold mm_free_mark
    simp only [HDRP, FTRP, WSIZE, DSIZE, e1, e2, PACK_zero]
  refine ⟨heq, ?_⟩
  rw [heq]
  have h' : WellFormed s (l1 ++ ([(sz, 1)] ++ l2)) := by simpa using h
  have key := WellFormed.splice (PUT (PUT s.mem (s.mem_heap + 16 + sizes l1 - 4) sz) (s.mem_heap + 16 + sizes l1 + sz - 8) sz)
    [(sz, 0)] h' ?_ ?_
  · simpa using key
  · intro x hx
    simp only [sizes] at hx
    apply PUT_PUT_byte <;> omega
  · have e3 : s.mem_heap + 16 + sizes l1 + sizes [(sz, 1)] = s.mem_heap + 16 + sizes l1 + sz := by
      simp only [sizes]; omega
    rw [e3]
    exact Chain_hdr_ftr s.mem (s.mem_heap + 16 + sizes l1) sz sz h16 h8 0 (by omega)
      (PACK_zero _).symm (by simp only [UINT]; omega) (by omega)

/-- A byte outside the header and footer of `bp`, outside the header of a free
previous block and outside the footer of a free next block is not changed by
`mm_free(bp)`. -/
theorem mm_free_unchanged {s : MemState} {l1 l2 : List (Nat × Nat)} {sz : Nat}
    (h : WellFormed s (l1 ++ (sz, 1) :: l2)) (x : Nat)
    (h1 : x < s.mem_heap + 16 + sizes l1 - 4 ∨ s.mem_heap + 16 + sizes l1 ≤ x)
    (h2 : x < s.mem_heap + 16 + sizes l1 + sz - 8 ∨ s.mem_heap + 16 + sizes l1 + sz - 4 ≤ x)
    (h3 : (prevTag l1).2 = 0 → x < s.mem_heap + 16 + sizes l1 - (prevTag l1).1 - 4 ∨
      s.mem_heap + 16 + sizes l1 - (prevTag l1).1 ≤ x)
    (h4 : (nextTag l2).2 = 0 → x < s.mem_heap + 16 + sizes l1 + sz + (nextTag l2).1 - 8 ∨
      s.mem_heap + 16 + sizes l1 + sz + (nextTag l2).1 - 4 ≤ x) :
    (mm_free s (s.mem_heap + 16 + sizes l1)).mem x = s.mem x := by
  obtain ⟨em, hw⟩ := mm_free_mark_wf h
  rw [em] at hw
  obtain ⟨c1, c2, c3, c4⟩ := merge_eq hw
  have ha := hw.around
  have hps := ha.psz_pos
  have hple := ha.p_le
  simp only at c1 c2 c3 c4 hple
  rw [mm_free_eq_merge, em]
  by_cases hp : (prevTag l1).2 = 0 <;> by_cases hn : (nextTag l2).2 = 0
  · rw [c4 hp hn]
    clear c1 c2 c3 c4 hw ha em h
    have := h3 hp
    have := h4 hn
    show PUT (PUT (PUT (PUT s.mem _ _) _ _) _ _) _ _ x = s.mem x
    rw [PUT_PUT_byte _ _ _ _ _ _ (by omega) (by omega),
      PUT_PUT_byte _ _ _ _ _ _ (by omega) (by omega)]
  · rw [c3 hp hn]
    clear c1 c2 c3 c4 hw ha em h
    have := h3 hp
    show PUT (PUT (PUT (PUT s.mem _ _) _ _) _ _) _ _ x = s.mem x
    rw [PUT_PUT_byte _ _ _ _ _ _ (by omega) (by omega),
      PUT_PUT_byte _ _ _ _ _ _ (by omega) (by omega)]
  · rw [c2 hp hn]
    clear c1 c2 c3 c4 hw ha em h
    have := h4 hn
    show PUT (PUT (PUT (PUT s.mem _ _) _ _) _ _) _ _ x = s.mem x
    rw [PUT_PUT_byte _ _ _ _ _ _ (by omega) (by omega),
      PUT_PUT_byte _ _ _ _ _ _ (by omega) (by omega)]
  · rw [c1 hp hn]
    clear c1 c2 c3 c4 hw ha em h
    show PUT (PUT s.mem _ _) _ _ x = s.mem x
    rw [PUT_PUT_byte _ _ _ _ _ _ (by omega) (by omega)]

/-! ## Where another block of the list lies -/

theorem prevTag_append_cons (k t : List (Nat × Nat)) (b : Nat × Nat) :
    prevTag (k ++ b :: t) = if t = [] then b else prevTag t := by
  cases t with
  | nil => simp [prevTag]
  | cons c t' =>
    cases hl : (c :: t').getLast? with
    | none => simp at hl
    | some y => simp [prevTag, hl]

theorem nextTag_append_cons (t k : List (Nat × Nat)) (b : Nat × Nat) :
    nextTag (t ++ b :: k) = if t = [] then b else nextTag t := by
  cases t with
  | nil => simp [nextTag]
  | cons c t' => simp [nextTag]

/-- A block of the list at another place than the block behind `l1` lies in
`l1` or in `l2`. -/
theorem other_block (l1 l2 k1 k2 : List (Nat × Nat)) (b c : Nat × Nat)
    (h : l1 ++ b :: l2 = k1 ++ c :: k2) (hne : sizes k1 ≠ sizes l1) :
    (∃ t, l1 = k1 ++ c :: t) ∨ (∃ t, l2 = t ++ c :: k2 ∧ k1 = l1 ++ b :: t) := by
  rcases List.append_eq_append_iff.mp h with ⟨a', e1, e2⟩ | ⟨c', e1, e2⟩
  · cases a' with
    | nil =>
      simp only [List.append_nil] at e1
      exact absurd (by rw [e1]) hne
    | cons d t =>
      simp only [List.cons_append, List.cons.injEq] at e2
      right
      exact ⟨t, e2.2, by rw [e1, e2.1]⟩
  · cases c' with
    | nil =>
      simp only [List.append_nil] at e1
      exact absurd (by rw [e1]) hne
    | cons d t =>
      simp only [List.cons_append, List.cons.injEq] at e2
      left
      exact ⟨t, by rw [e1, e2.1]⟩

/-- C20: `mm_free` of an allocated ordinary block of a well-formed heap keeps
the break, `heap_listp` and the base, every byte of the padding word and of the
prologue, every byte from the epilogue on, and every payload byte of every
other allocated block; a byte that changes lies in the header or footer of
`bp`, in the header of the previous block when that one is free, or in the
footer of the next block when that one is free. -/
theorem mm_free_writes_only_tags (s : MemState) (l1 l2 : List (Nat × Nat)) (sz : Nat)
    (h : WellFormed s (l1 ++ (sz, 1) :: l2)) :
    (mm_free s (s.mem_heap + 16 + sizes l1)).mem_brk = s.mem_brk ∧
    (mm_free s (s.mem_heap + 16 + sizes l1)).heap_listp = s.heap_listp ∧
    (mm_free s (s.mem_heap + 16 + sizes l1)).mem_heap = s.mem_heap ∧
    (∀ x, x < s.mem_heap + 12 → (mm_free s (s.mem_heap + 16 + sizes l1)).mem x = s.mem x) ∧
    (∀ x, s.mem_brk - 4 ≤ x → (mm_free s (s.mem_heap + 16 + sizes l1)).mem x = s.mem x) ∧
    (∀ k1 c k2, l1 ++ (sz, 1) :: l2 = k1 ++ (c, 1) :: k2 →
      s.mem_heap + 16 + sizes k1 ≠ s.mem_heap + 16 + sizes l1 →
      ∀ x, s.mem_heap + 16 + sizes k1 ≤ x → x < s.mem_heap + 16 + sizes k1 + c - 8 →
        (mm_free s (s.mem_heap + 16 + sizes l1)).mem x = s.mem x) ∧
    (∀ x, (mm_free s (s.mem_heap + 16 + sizes l1)).mem x ≠ s.mem x →
      (s.mem_heap + 16 + sizes l1 - 4 ≤ x ∧ x < s.mem_heap + 16 + sizes l1) ∨
      (s.mem_heap + 16 + sizes l1 + sz - 8 ≤ x ∧ x < s.mem_heap + 16 + sizes l1 + sz - 4) ∨
      ((prevTag l1).2 = 0 ∧ s.mem_heap + 16 + sizes l1 - (prevTag l1).1 - 4 ≤ x ∧
        x < s.mem_heap + 16 + sizes l1 - (prevTag l1).1) ∨
      ((nextTag l2).2 = 0 ∧ s.mem_heap + 16 + sizes l1 + sz + (nextTag l2).1 - 8 ≤ x ∧
        x < s.mem_heap + 16 + sizes l1 + sz + (nextTag l2).1 - 4)) := by
  obtain ⟨f1, f2, f3⟩ := mm_free_frame s (s.mem_heap + 16 + sizes l1)
  have hend := h.sizes_eq
  simp only [sizes_append, sizes] at hend
  have hc := h.chain
  rw [Chain_append] at hc
  obtain ⟨_, h16, _, _, _, _, _⟩ := hc
  simp only at h16
  have hpl : (prevTag l1).2 = 0 → (prevTag l1).1 ≤ sizes l1 := prevTag_size_le l1
  have hnl : (nextTag l2).2 = 0 → (nextTag l2).1 ≤ sizes l2 := nextTag_size_le l2
  have hun := mm_free_unchanged h
  clear h
  refine ⟨f2, f3, f1, ?_, ?_, ?_, ?_⟩
  · intro x hx
    apply hun x (by omega) (by omega)
    · intro hp
      have := hpl hp
      omega
    · intro hn
      omega
  · intro x hx
    apply hun x (by omega) (by omega)
    · intro hp
      omega
    · intro hn
      have := hnl hn
      omega
  · intro k1 c k2 e hne x hx1 hx2
    rcases other_block l1 l2 k1 k2 (sz, 1) (c, 1) e (by omega) with ⟨t, et⟩ | ⟨t, et, ek⟩
    · have es : sizes l1 = sizes k1 + c + sizes t := by
        rw [et, sizes_append]
        simp only [sizes]
        omega
      apply hun x (by omega) (by omega)
      · intro hp
        have hpt : prevTag l1 = if t = [] then (c, 1) else prevTag t := by
          rw [et]
          exact prevTag_append_cons k1 t (c, 1)
        by_cases ht : t = []
        · rw [hpt, if_pos ht] at hp
          exact absurd hp Nat.one_ne_zero
        · rw [if_neg ht] at hpt
          rw [hpt] at hp ⊢
          have := prevTag_size_le t hp
          omega
      · intro hn
        omega
    · have es : sizes k1 = sizes l1 + sz + sizes t := by
        rw [ek, sizes_append]
        simp only [sizes]
        omega
      apply hun x (by omega) (by omega)
      · intro hp
        omega
      · intro hn
        have hnt : nextTag l2 = if t = [] then (c, 1) else nextTag t := by
          rw [et]
          exact nextTag_append_cons t k2 (c, 1)
        by_cases ht : t = []
        · rw [hnt, if_pos ht] at hn
          exact absurd hn Nat.one_ne_zero
        · rw [if_neg ht] at hnt
          rw [hnt] at hn ⊢
          have := nextTag_size_le t hn
          omega
  · intro x hx
    by_contra hcon
    apply hx
    apply hun x (by omega) (by omega)
    · intro hp
      by_contra hc2
      exact hcon (Or.inr (Or.inr (Or.inl ⟨hp, by omega, by omega⟩)))
    · intro hn
      by_contra hc2
      exact hcon (Or.inr (Or.inr (Or.inr ⟨hn, by omega, by omega⟩)))

/-! ## Three neighbouring blocks freed one after the other -/

/-- The last branch of `merge` is taken exactly when both alloc bits read 0. -/
theorem merge_case_four (s : MemState) (bp : Nat) :
    merge_case s bp = 4 ↔
      GET_ALLOC s.mem (FTRP s.mem (PREV_BLKP s.mem bp)) = 0 ∧
      GET_ALLOC s.mem (HDRP (NEXT_BLKP s.mem bp)) = 0 := by
  unfold merge_case
  simp only
  by_cases a : GET_ALLOC s.mem (FTRP s.mem (PREV_BLKP s.mem bp)) = 0 <;>
    by_cases b : GET_ALLOC s.mem (HDRP (NEXT_BLKP s.mem bp)) = 0 <;> simp [a, b]

theorem coalesce_alone (l1 l2 : List (Nat × Nat)) (sz : Nat) (hp : (prevTag l1).2 ≠ 0)
    (hn : (nextTag l2).2 ≠ 0) : coalesce l1 sz l2 = l1 ++ (sz, 0) :: l2 := by
  simp [coalesce, keptBefore, joinedSize, keptAfter, hp, hn]

theorem coalesce_both (k k2 : List (Nat × Nat)) (psz sz nsz : Nat) :
    coalesce (k ++ [(psz, 0)]) sz ((nsz, 0) :: k2) = k ++ (psz + sz + nsz, 0) :: k2 := by
  simp [coalesce, keptBefore, joinedSize, keptAfter, prevTag_concat, nextTag_cons]

/-- C13: in a well-formed heap with three neighbouring allocated blocks A, B, C
of sizes `a`, `b`, `c` between allocated neighbours (a block, the prologue or
the epilogue), the calls `mm_free(A); mm_free(C); mm_free(B)` leave one free
block of size `a + b + c` at the address of A, with header and footer
`PACK(a+b+c, 0)`, and the last call takes case 4 of `merge`. -/
theorem free_three_coalesces (s : MemState) (l1 l2 : List (Nat × Nat)) (a b c : Nat)
    (h : WellFormed s (l1 ++ (a, 1) :: (b, 1) :: (c, 1) :: l2))
    (hp : (prevTag l1).2 = 1) (hn : (nextTag l2).2 = 1) :
    WellFormed (mm_free (mm_free (mm_free s (s.mem_heap + 16 + sizes l1))
        (s.mem_heap + 16 + sizes l1 + a + b)) (s.mem_heap + 16 + sizes l1 + a))
      (l1 ++ (a + b + c, 0) :: l2) ∧
    GET (mm_free (mm_free (mm_free s (s.mem_heap + 16 + sizes l1))
        (s.mem_heap + 16 + sizes l1 + a + b)) (s.mem_heap + 16 + sizes l1 + a)).mem
      (s.mem_heap + 16 + sizes l1 - 4) = PACK (a + b + c) 0 ∧
    GET (mm_free (mm_free (mm_free s (s.mem_heap + 16 + sizes l1))
        (s.mem_heap + 16 + sizes l1 + a + b)) (s.mem_heap + 16 + sizes l1 + a)).mem
      (s.mem_heap + 16 + sizes l1 + (a + b + c) - 8) = PACK (a + b + c) 0 ∧
    merge_case (mm_free_mark (mm_free (mm_free s (s.mem_heap + 16 + sizes l1))
        (s.mem_heap + 16 + sizes l1 + a + b)) (s.mem_heap + 16 + sizes l1 + a))
      (s.mem_heap + 16 + sizes l1 + a) = 4 := by
  have hp' : (prevTag l1).2 ≠ 0 := by omega
  have hn' : (nextTag l2).2 ≠ 0 := by omega
  obtain ⟨m1, e1, w1, _⟩ := mm_free_coalesce h
  rw [coalesce_alone l1 _ a hp' (by simp [nextTag_cons])] at w1
  rw [e1]
  have w1' : WellFormed { s with mem := m1 } ((l1 ++ [(a, 0), (b, 1)]) ++ (c, 1) :: l2) := by
    simpa using w1
  obtain ⟨m2, e2, w2, _⟩ := mm_free_coalesce w1'
  rw [coalesce_alone _ l2 c (by simp [prevTag_append_cons, prevTag]) hn'] at w2
  have eC : s.mem_heap + 16 + sizes (l1 ++ [(a, 0), (b, 1)]) = s.mem_heap + 16 + sizes l1 + a + b := by
    simp only [sizes_append, sizes]
    omega
  simp only [eC] at e2
  rw [e2]
  have w2' : WellFormed { s with mem := m2 } ((l1 ++ [(a, 0)]) ++ (b, 1) :: (c, 0) :: l2) := by
    simpa using w2
  obtain ⟨m3, e3, w3, _⟩ := mm_free_coalesce w2'
  rw [coalesce_both] at w3
  obtain ⟨_, wm⟩ := mm_free_mark_wf w2'
  have hcase := merge_case_eq wm
  have eB : s.mem_heap + 16 + sizes (l1 ++ [(a, 0)]) = s.mem_heap + 16 + sizes l1 + a := by
    simp only [sizes_append, sizes]
    omega
  have emh : ∀ t bp, (mm_free_mark t bp).mem_heap = t.mem_heap := fun _ _ => rfl
  simp only [emh, eB] at e3 hcase
  rw [e3]
  have hc := w3.chain
  rw [Chain_append] at hc
  obtain ⟨_, _, _, _, hh, hf, _⟩ := hc
  refine ⟨w3, hh, hf, ?_⟩
  rw [hcase]
  simp [prevTag_concat, nextTag_cons]

/-! ## The adjusted size -/

theorem adjust_eq (size : Nat) (h : 8 < size) (hov : size + 15 < SIZE_T) :
    adjust size = 8 * ((size + 15) / 8) := by
  simp only [SIZE_T] at hov
  unfold adjust
  simp only [DSIZE, SIZE_T]
  rw [if_neg (by omega)]
  have e : (size + 8 + (8 - 1)) % 18446744073709551616 = size + 15 := by omega
  rw [e]
  omega

theorem adjust_small (size : Nat) (h : size ≤ 8) : adjust size = 16 := by
  unfold adjust
  simp only [DSIZE]
  rw [if_pos h]

theorem adjust_ge (size : Nat) (hov : size + 15 < SIZE_T) :
    16 ≤ adjust size ∧ size + 8 ≤ adjust size := by
  by_cases h : size ≤ 8
  · have e := adjust_small size h
    omega
  · have e := adjust_eq size (by omega) hov
    omega

/-- C12: for `1 ≤ size ≤ 8` the adjusted size computed by `mm_malloc` is 16;
for `size > 8`, when `size + 15` does not overflow a `size_t`, it is the
smallest multiple of 8 that is at least `size + 8`; so the adjusted size is a
multiple of 8, at least 16 and at least `size + 8`. -/
theorem adjust_spec (size : Nat) (hov : size + 15 < SIZE_T) :
    (1 ≤ size → size ≤ 8 → adjust size = 16) ∧
    (8 < size → adjust size % 8 = 0 ∧ size + 8 ≤ adjust size ∧
      ∀ k, k % 8 = 0 → size + 8 ≤ k → adjust size ≤ k) ∧
    adjust size % 8 = 0 ∧ 16 ≤ adjust size ∧ size + 8 ≤ adjust size := by
  refine ⟨fun _ => adjust_small size, fun h => ?_, adjust_mod size, (adjust_ge size hov).1,
    (adjust_ge size hov).2⟩
  have e := adjust_eq size h hov
  refine ⟨adjust_mod size, (adjust_ge size hov).2, fun k hk hle => ?_⟩
  omega

/-- The adjusted size of a request of 13 bytes is 24. -/
theorem adjust_spec_witness :
    13 + 15 < SIZE_T ∧
    ((1 ≤ 13 → 13 ≤ 8 → adjust 13 = 16) ∧
    (8 < 13 → adjust 13 % 8 = 0 ∧ 13 + 8 ≤ adjust 13 ∧
      ∀ k, k % 8 = 0 → 13 + 8 ≤ k → adjust 13 ≤ k) ∧
    adjust 13 % 8 = 0 ∧ 16 ≤ adjust 13 ∧ 13 + 8 ≤ adjust 13) :=
  ⟨by decide, adjust_spec 13 (by decide)⟩

/-! ## The order of two calls of `mm_free` -/

theorem getLast_cons_concat (z : Nat × Nat) (t : List (Nat × Nat)) (y : Nat × Nat) :
    (z :: (t ++ [y])).getLast? = some y := by
  have e : z :: (t ++ [y]) = (z :: t) ++ [y] := rfl
  rw [e, List.getLast?_concat]

theorem dropLast_cons_concat (z : Nat × Nat) (t : List (Nat × Nat)) (y : Nat × Nat) :
    (z :: (t ++ [y])).dropLast = z :: t := by
  have e : z :: (t ++ [y]) = (z :: t) ++ [y] := rfl
  rw [e, List.dropLast_concat]

theorem coalesce_comm (l1 l2 l3 : List (Nat × Nat)) (a b : Nat) :
    ∃ P Q, coalesce l1 a (l2 ++ (b, 1) :: l3) = P ++ (b, 1) :: l3 ∧
      coalesce (l1 ++ (a, 1) :: l2) b l3 = l1 ++ (a, 1) :: Q ∧
      coalesce P b l3 = coalesce l1 a Q := by
  rcases l2 with _ | ⟨x, t⟩
  · refine ⟨keptBefore l1 ++ [(joinedSize l1 a [(b, 1)], 0)],
      (joinedSize [(a, 1)] b l3, 0) :: keptAfter l3, ?_, ?_, ?_⟩
    · simp [coalesce, keptAfter, nextTag, joinedSize]
    · simp [coalesce, keptBefore, prevTag, joinedSize]
    · simp [coalesce, keptBefore, keptAfter, prevTag, nextTag, joinedSize]
      omega
  · refine ⟨keptBefore l1 ++ (joinedSize l1 a (x :: t), 0) :: keptAfter (x :: t),
      keptBefore (x :: t) ++ (joinedSize (x :: t) b l3, 0) :: keptAfter l3, ?_, ?_, ?_⟩
    · by_cases hx : x.2 = 0 <;> simp [coalesce, keptAfter, nextTag, joinedSize, hx]
    · rcases List.eq_nil_or_concat t with rfl | ⟨t', y, rfl⟩
      · by_cases hx : x.2 = 0 <;> simp [coalesce, keptBefore, prevTag, joinedSize, hx]
      · by_cases hy : y.2 = 0 <;>
          simp [coalesce, keptBefore, prevTag, joinedSize, hy, getLast_cons_concat,
            dropLast_cons_concat]
    · rcases List.eq_nil_or_concat t with rfl | ⟨t', y, rfl⟩
      · by_cases hx : x.2 = 0
        · simp [coalesce, keptBefore, keptAfter, prevTag, nextTag, joinedSize, hx]
          omega
        · simp [coalesce, keptBefore, keptAfter, prevTag, nextTag, joinedSize, hx]
      · by_cases hx : x.2 = 0 <;> by_cases hy : y.2 = 0 <;>
          simp [coalesce, keptBefore, keptAfter, prevTag, nextTag, joinedSize, hx, hy,
            getLast_cons_concat, dropLast_cons_concat]

/-- C19: for two different allocated ordinary blocks of a well-formed heap, of
sizes `a` and `b` with the first at the lower address, the heap after
`mm_free(a); mm_free(b)` and the heap after `mm_free(b); mm_free(a)` are well
formed with the same block list, so the walk from the prologue meets the same
offsets, sizes and allocation bits, and they have the same break, base and
`heap_listp`. -/
theorem mm_free_order (s : MemState) (l1 l2 l3 : List (Nat × Nat)) (a b : Nat)
    (h : WellFormed s (l1 ++ (a, 1) :: (l2 ++ (b, 1) :: l3))) :
    ∃ L, WellFormed (mm_free (mm_free s (s.mem_heap + 16 + sizes l1))
          (s.mem_heap + 16 + sizes l1 + a + sizes l2)) L ∧
      WellFormed (mm_free (mm_free s (s.mem_heap + 16 + sizes l1 + a + sizes l2))
          (s.mem_heap + 16 + sizes l1)) L ∧
      (mm_free (mm_free s (s.mem_heap + 16 + sizes l1))
          (s.mem_heap + 16 + sizes l1 + a + sizes l2)).mem_brk
        = (mm_free (mm_free s (s.mem_heap + 16 + sizes l1 + a + sizes l2))
          (s.mem_heap + 16 + sizes l1)).mem_brk ∧
      (mm_free (mm_free s (s.mem_heap + 16 + sizes l1))
          (s.mem_heap + 16 + sizes l1 + a + sizes l2)).mem_heap
        = (mm_free (mm_free s (s.mem_heap + 16 + sizes l1 + a + sizes l2))
          (s.mem_heap + 16 + sizes l1)).mem_heap ∧
      (mm_free (mm_free s (s.mem_heap + 16 + sizes l1))
          (s.mem_heap + 16 + sizes l1 + a + sizes l2)).heap_listp
        = (mm_free (mm_free s (s.mem_heap + 16 + sizes l1 + a + sizes l2))
          (s.mem_heap + 16 + sizes l1)).heap_listp ∧
      sizes L = sizes (l1 ++ (a, 1) :: (l2 ++ (b, 1) :: l3)) := by
  obtain ⟨P, Q, e1, e2, e3⟩ := coalesce_comm l1 l2 l3 a b
  have hP : sizes P = sizes l1 + a + sizes l2 := by
    have := sizes_coalesce l1 a (l2 ++ (b, 1) :: l3)
    rw [e1] at this
    simp only [sizes_append, sizes] at this
    omega
  obtain ⟨m1, f1, w1, _⟩ := mm_free_coalesce h
  rw [e1] at w1
  obtain ⟨m2, f2, w2, _⟩ := mm_free_coalesce w1
  have eB : s.mem_heap + 16 + sizes P = s.mem_heap + 16 + sizes l1 + a + sizes l2 := by omega
  simp only [eB] at f2
  have h' : WellFormed s ((l1 ++ (a, 1) :: l2) ++ (b, 1) :: l3) := by
    rw [List.append_assoc]
    exact h
  obtain ⟨n1, g1, v1, _⟩ := mm_free_coalesce h'
  rw [e2] at v1
  have eB' : s.mem_heap + 16 + sizes (l1 ++ (a, 1) :: l2)
      = s.mem_heap + 16 + sizes l1 + a + sizes l2 := by
    simp only [sizes_append, sizes]
    omega
  rw [eB'] at g1
  obtain ⟨n2, g2, v2, _⟩ := mm_free_coalesce v1
  simp only at g2
  rw [← e3] at v2
  rw [f1, f2, g1, g2]
  refine ⟨coalesce P b l3, w2, v2, rfl, rfl, rfl, ?_⟩
  rw [sizes_coalesce, hP]
  simp only [sizes_append, sizes]
  omega

/-! ## `mm_malloc` through `extend_heap` -/

theorem MAX_ge (a : Nat) : a ≤ MAX a CHUNCKSIZE ∧ 4096 ≤ MAX a CHUNCKSIZE := by
  unfold MAX
  simp only [CHUNCKSIZE]
  split <;> omega

theorem noAdjacentFree_keptBefore (l : List (Nat × Nat)) (h : NoAdjacentFree l) (b : Nat × Nat)
    (hb : b.2 ≠ 0) (k2 : List (Nat × Nat)) (hk : NoAdjacentFree k2) :
    NoAdjacentFree (keptBefore l ++ b :: k2) := by
  have h1 : NoAdjacentFree (l ++ (16, 1) :: []) := by
    rw [noAdjacentFree_mid]
    refine ⟨h, List.chain'_nil, fun _ _ => Or.inr Nat.one_ne_zero, fun y hy => by simp at hy⟩
  have h2 := noAdjacentFree_coalesce l 16 [] h1
  unfold coalesce at h2
  rw [noAdjacentFree_mid] at h2
  rw [noAdjacentFree_mid]
  exact ⟨h2.1, hk, fun _ _ => Or.inr hb, fun _ _ => Or.inl hb⟩

/-- The call of `mm_malloc` that extends the heap, up to the call of `place`:
the state that `place` receives is well formed, with the new free block joined
to the last block when that one was free. -/
theorem mm_malloc_extend_eq {s : MemState} {l : List (Nat × Nat)} {size : Nat}
    (hwf : WellFormed s l) (hpos : 0 < size)
    (hfit : ∀ b ∈ l, b.2 = 0 → b.1 < adjust size)
    (hcap : s.mem_brk + MAX (adjust size) CHUNCKSIZE ≤ s.mem_heap + MAX_HEAP)
    (hb : s.mem_heap + MAX_HEAP < MINUS_ONE) :
    ∃ m', mm_malloc s size = some (place { s with mem := m', mem_brk := s.mem_brk + MAX (adjust size) CHUNCKSIZE, alloc_ptr := s.mem_heap + 16 + sizes (keptBefore l) } (s.mem_heap + 16 + sizes (keptBefore l)) (adjust size), s.mem_heap + 16 + sizes (keptBefore l)) ∧
      WellFormed { s with mem := m', mem_brk := s.mem_brk + MAX (adjust size) CHUNCKSIZE, alloc_ptr := s.mem_heap + 16 + sizes (keptBefore l) } (keptBefore l ++ (joinedSize l (MAX (adjust size) CHUNCKSIZE) [], 0) :: []) := by
  have h8 := MAX_mod _ (adjust_mod size)
  obtain ⟨hge1, hge2⟩ := MAX_ge (adjust size)
  have hwf1 : WellFormed { s with alloc_ptr := NULL } l :=
    ⟨hwf.listp, hwf.brk_le, hwf.prologue_hdr, hwf.prologue_ftr, hwf.epilogue, hwf.chain⟩
  obtain ⟨m', e, hw, _⟩ := extend_heap_wellFormed hwf1 (MAX (adjust size) CHUNCKSIZE) h8
    (by omega) hcap hb
  refine ⟨m', ?_, ?_⟩
  · have h0 : size ≠ 0 := by omega
    have hne : s.mem_heap + 16 + sizes (keptBefore l) ≠ NULL := by
      simp only [NULL]
      omega
    unfold mm_malloc
    simp only [h0, if_false, find_fit_none hwf hfit, ne_eq, not_true_eq_false, e, hne]
  · exact ⟨hw.listp, hw.brk_le, hw.prologue_hdr, hw.prologue_ftr, hw.epilogue, hw.chain⟩

/-- C11, amended: on a well-formed heap without two adjacent free blocks, for
`size > 0` with `size + 15` below `2^64`, when no free block has `asize` bytes
and the memory system can grow by `E = max(asize, 4096)` bytes (the region ends
below the address `(void *) -1`), `mm_malloc(size)` advances the break by `E`,
leaves the epilogue `PACK(0,1)` in the last word before the new break, and
returns the non-null pointer that follows the blocks kept in front: the new
space is joined with the last block when that one was free.  The returned block
is allocated with equal header and footer; its size is `asize`, followed by a
free block with the rest, when the rest has at least 16 bytes, and the whole
joined block otherwise.  The heap is well formed, without two adjacent free
blocks. -/
theorem mm_malloc_extends (s : MemState) (l : List (Nat × Nat)) (size : Nat)
    (hwf : WellFormed s l) (hnf : NoAdjacentFree l) (hpos : 0 < size)
    (hov : size + 15 < SIZE_T)
    (hfit : ∀ b ∈ l, b.2 = 0 → b.1 < adjust size)
    (hcap : s.mem_brk + MAX (adjust size) CHUNCKSIZE ≤ s.mem_heap + MAX_HEAP)
    (hb : s.mem_heap + MAX_HEAP < MINUS_ONE) :
    ∃ s' n k2, mm_malloc s size = some (s', s.mem_heap + 16 + sizes (keptBefore l)) ∧
      s.mem_heap + 16 + sizes (keptBefore l) ≠ NULL ∧
      s'.mem_brk = s.mem_brk + MAX (adjust size) CHUNCKSIZE ∧
      s'.mem_heap = s.mem_heap ∧
      GET s'.mem (s'.mem_brk - 4) = PACK 0 1 ∧
      GET s'.mem (s.mem_heap + 16 + sizes (keptBefore l) - 4) = PACK n 1 ∧
      GET s'.mem (s.mem_heap + 16 + sizes (keptBefore l) + n - 8) = PACK n 1 ∧
      adjust size ≤ n ∧
      (adjust size + 16 ≤ joinedSize l (MAX (adjust size) CHUNCKSIZE) [] →
        n = adjust size ∧
        k2 = [(joinedSize l (MAX (adjust size) CHUNCKSIZE) [] - adjust size, 0)]) ∧
      (joinedSize l (MAX (adjust size) CHUNCKSIZE) [] < adjust size + 16 →
        n = joinedSize l (MAX (adjust size) CHUNCKSIZE) [] ∧ k2 = []) ∧
      WellFormed s' (keptBefore l ++ (n, 1) :: k2) ∧
      NoAdjacentFree (keptBefore l ++ (n, 1) :: k2) := by
  obtain ⟨m', e, hw⟩ := mm_malloc_extend_eq hwf hpos hfit hcap hb
  obtain ⟨hge1, hge2⟩ := MAX_ge (adjust size)
  have hJ : MAX (adjust size) CHUNCKSIZE ≤ joinedSize l (MAX (adjust size) CHUNCKSIZE) [] := by
    unfold joinedSize
    omega
  have hne : s.mem_heap + 16 + sizes (keptBefore l) ≠ NULL := by
    simp only [NULL]
    omega
  have key : ∀ (t : MemState) (n : Nat) (k2 : List (Nat × Nat)),
      WellFormed t (keptBefore l ++ (n, 1) :: k2) →
      GET t.mem (t.mem_brk - 4) = PACK 0 1 ∧
      GET t.mem (t.mem_heap + 16 + sizes (keptBefore l) - 4) = PACK n 1 ∧
      GET t.mem (t.mem_heap + 16 + sizes (keptBefore l) + n - 8) = PACK n 1 := by
    intro t n k2 w
    have hc := w.chain
    rw [Chain_append] at hc
    obtain ⟨_, _, _, _, hh, hf, _⟩ := hc
    exact ⟨w.epilogue, hh, hf⟩
  by_cases hs : adjust size + 16 ≤ joinedSize l (MAX (adjust size) CHUNCKSIZE) []
  · obtain ⟨ep, wp⟩ := place_split hw (adjust size) (adjust_mod size) (adjust_ge size hov).1 hs
    obtain ⟨k1, k2, k3⟩ := key _ _ _ wp
    rw [ep] at wp k1 k2 k3
    rw [ep] at e
    refine ⟨_, adjust size, [(joinedSize l (MAX (adjust size) CHUNCKSIZE) [] - adjust size, 0)],
      e, hne, rfl, rfl, k1, k2, k3, Nat.le_refl _, fun _ => ⟨rfl, rfl⟩, fun h => by omega, wp, ?_⟩
    exact noAdjacentFree_keptBefore l hnf _ Nat.one_ne_zero _ (List.chain'_singleton _)
  · obtain ⟨ep, wp⟩ := place_whole hw (adjust size) (by omega) (by omega)
    obtain ⟨k1, k2, k3⟩ := key _ _ _ wp
    rw [ep] at wp k1 k2 k3
    rw [ep] at e
    refine ⟨_, joinedSize l (MAX (adjust size) CHUNCKSIZE) [], [],
      e, hne, rfl, rfl, k1, k2, k3, by omega, fun h => absurd h hs, fun _ => ⟨rfl, rfl⟩, wp, ?_⟩
    exact noAdjacentFree_keptBefore l hnf _ Nat.one_ne_zero _ List.chain'_nil
/-- An instance of `mm_malloc_extends`: on the heap right after initialisation
`mm_malloc(4090)` needs 4104 bytes, the free block of 4096 bytes does not fit,
and the heap grows by 4104 bytes that are joined with that block. -/
theorem mm_malloc_extends_witness :
    WellFormed heap0 [(4096, 0)] ∧ NoAdjacentFree [(4096, 0)] ∧ 0 < 4090 ∧
    4090 + 15 < SIZE_T ∧
    (∀ b ∈ [((4096 : Nat), (0 : Nat))], b.2 = 0 → b.1 < adjust 4090) ∧
    heap0.mem_brk + MAX (adjust 4090) CHUNCKSIZE ≤ heap0.mem_heap + MAX_HEAP ∧
    heap0.mem_heap + MAX_HEAP < MINUS_ONE ∧
    ∃ s' n k2, mm_malloc heap0 4090
        = some (s', heap0.mem_heap + 16 + sizes (keptBefore [(4096, 0)])) ∧
      heap0.mem_heap + 16 + sizes (keptBefore [(4096, 0)]) ≠ NULL ∧
      s'.mem_brk = heap0.mem_brk + MAX (adjust 4090) CHUNCKSIZE ∧
      s'.mem_heap = heap0.mem_heap ∧
      GET s'.mem (s'.mem_brk - 4) = PACK 0 1 ∧
      GET s'.mem (heap0.mem_heap + 16 + sizes (keptBefore [(4096, 0)]) - 4) = PACK n 1 ∧
      GET s'.mem (heap0.mem_heap + 16 + sizes (keptBefore [(4096, 0)]) + n - 8) = PACK n 1 ∧
      adjust 4090 ≤ n ∧
      (adjust 4090 + 16 ≤ joinedSize [(4096, 0)] (MAX (adjust 4090) CHUNCKSIZE) [] →
        n = adjust 4090 ∧
        k2 = [(joinedSize [(4096, 0)] (MAX (adjust 4090) CHUNCKSIZE) [] - adjust 4090, 0)]) ∧
      (joinedSize [(4096, 0)] (MAX (adjust 4090) CHUNCKSIZE) [] < adjust 4090 + 16 →
        n = joinedSize [(4096, 0)] (MAX (adjust 4090) CHUNCKSIZE) [] ∧ k2 = []) ∧
      WellFormed s' (keptBefore [(4096, 0)] ++ (n, 1) :: k2) ∧
      NoAdjacentFree (keptBefore [(4096, 0)] ++ (n, 1) :: k2) :=
  have hnf : NoAdjacentFree [((4096 : Nat), (0 : Nat))] := List.chain'_singleton _
  have hfit : ∀ b ∈ [((4096 : Nat), (0 : Nat))], b.2 = 0 → b.1 < adjust 4090 := by decide
  ⟨heap0_wellFormed, hnf, by decide, by decide, hfit, by decide, by decide,
    mm_malloc_extends heap0 [(4096, 0)] 4090 heap0_wellFormed hnf (by decide) (by decide) hfit
      (by decide) (by decide)⟩

/-- The heap `heapWithTail 0`, in which the only block is allocated, is well
formed. -/
theorem heapWithTail_zero_wellFormed : WellFormed (heapWithTail 0) [(4096, 1)] :=
  ⟨by decide, by decide, by decide, by decide, by decide, by decide⟩

/-- C11 on the code, for sizes at which `size + 15` wraps: on the well-formed
heap whose only block is allocated, where the memory system can grow by 4096
bytes, `mm_malloc(2^64 - 1)` computes `asize = 8` and returns a block whose
header size is 8, and `mm_malloc(2^64 - 9)` computes `asize = 0` and returns a
block whose header is marked free; in both cases the heap is not well formed
afterwards. -/
theorem mm_malloc_extend_wraps :
    WellFormed (heapWithTail 0) [(4096, 1)] ∧ NoAdjacentFree [(4096, 1)] ∧
    (0 < 18446744073709551615 ∧ adjust 18446744073709551615 = 8 ∧
      (∀ b ∈ [((4096 : Nat), (1 : Nat))], b.2 = 0 → b.1 < adjust 18446744073709551615) ∧
      (heapWithTail 0).mem_brk + MAX (adjust 18446744073709551615) CHUNCKSIZE
        ≤ (heapWithTail 0).mem_heap + MAX_HEAP ∧
      ∃ r, mm_malloc (heapWithTail 0) 18446744073709551615 = some r ∧ r.2 ≠ NULL ∧
        GET_SIZE r.1.mem (HDRP r.2) = 8 ∧ ∀ l, ¬ WellFormed r.1 l) ∧
    (0 < 18446744073709551607 ∧ adjust 18446744073709551607 = 0 ∧
      (∀ b ∈ [((4096 : Nat), (1 : Nat))], b.2 = 0 → b.1 < adjust 18446744073709551607) ∧
      (heapWithTail 0).mem_brk + MAX (adjust 18446744073709551607) CHUNCKSIZE
        ≤ (heapWithTail 0).mem_heap + MAX_HEAP ∧
      ∃ r, mm_malloc (heapWithTail 0) 18446744073709551607 = some r ∧ r.2 ≠ NULL ∧
        GET_ALLOC r.1.mem (HDRP r.2) = 0 ∧ ∀ l, ¬ WellFormed r.1 l) := by
  refine ⟨heapWithTail_zero_wellFormed, List.chain'_singleton _,
    ⟨by decide, by decide, by decide, by decide,
      (place { (extend_heap { heapWithTail 0 with alloc_ptr := NULL } 1024).1 with alloc_ptr := 8208 } 8208 8, 8208),
      by rfl, by decide, by decide, ?_⟩,
    ⟨by decide, by decide, by decide, by decide,
      (place { (extend_heap { heapWithTail 0 with alloc_ptr := NULL } 1024).1 with alloc_ptr := 8208 } 8208 0, 8208),
      by rfl, by decide, by decide, ?_⟩⟩
  · intro l h
    have hc : Chain (place { (extend_heap { heapWithTail 0 with alloc_ptr := NULL } 1024).1 with alloc_ptr := 8208 } 8208 8).mem 4112 l 12304 := h.chain
    rcases l with _ | ⟨b, l⟩
    · exact absurd hc (by decide)
    · obtain ⟨_, b8, ba, bh, _, hr⟩ := hc
      have e1 := GET_SIZE_tag _ _ b.1 b.2 bh b8 ba
      have e2 : b.1 = 4096 := e1.symm.trans (by decide)
      rw [e2] at hr
      rcases l with _ | ⟨c, l⟩
      · exact absurd hr (by decide)
      · obtain ⟨c16, c8, ca, ch, _, _⟩ := hr
        have e3 := GET_SIZE_tag _ _ c.1 c.2 ch c8 ca
        have e4 : c.1 = 8 := e3.symm.trans (by decide)
        omega
  · intro l h
    have hc : Chain (place { (extend_heap { heapWithTail 0 with alloc_ptr := NULL } 1024).1 with alloc_ptr := 8208 } 8208 0).mem 4112 l 12304 := h.chain
    rcases l with _ | ⟨b, l⟩
    · exact absurd hc (by decide)
    · obtain ⟨_, b8, ba, bh, bf, _⟩ := hc
      have e1 := GET_SIZE_tag _ _ b.1 b.2 bh b8 ba
      have e2 : b.1 = 4096 := e1.symm.trans (by decide)
      have e3 := GET_ALLOC_tag _ _ b.1 b.2 bh b8 ba
      have e4 : b.2 = 1 := e3.symm.trans (by decide)
      rw [e2, e4] at bf
      exact absurd bf (by decide)

/-! ## Failure of `mm_init` -/

theorem merge_base (s : MemState) (bp b : Nat) :
    merge { s with mem_heap := b } bp = ({ (merge s bp).1 with mem_heap := b }, (merge s bp).2) := by
  unfold merge
  simp only
  split_ifs <;> rfl

theorem mm_init_refused (s : MemState) (h : s.mem_heap + MAX_HEAP < s.mem_brk + 16) :
    mm_init s = ({ s with heap_listp := MINUS_ONE }, -1) := by
  have hs := mem_sbrk_refuses s 16 (by decide) h
  unfold mm_init
  simp only [WSIZE, Nat.reduceMul, hs, if_true]

theorem mm_init_half (s : MemState) (hb : s.mem_heap + MAX_HEAP < MINUS_ONE)
    (h1 : s.mem_brk + 16 ≤ s.mem_heap + MAX_HEAP)
    (h2 : s.mem_heap + MAX_HEAP < s.mem_brk + 16 + 4096) :
    mm_init s = ({ s with mem := PUT (PUT (PUT (PUT s.mem s.mem_brk 0) (s.mem_brk + 4) (PACK 8 1)) (s.mem_brk + 8) (PACK 8 1)) (s.mem_brk + 12) (PACK 0 1), mem_brk := s.mem_brk + 16, heap_listp := s.mem_brk + 8 }, -1) := by
  have hne : s.mem_brk ≠ MINUS_ONE := by simp only [MAX_HEAP, MINUS_ONE] at h1 hb ⊢; omega
  have hs := mem_sbrk_grow s 16 (by decide) h1
  have hr := mem_sbrk_refuses { s with mem := PUT (PUT (PUT (PUT s.mem s.mem_brk 0) (s.mem_brk + 4) (PACK 8 1)) (s.mem_brk + 8) (PACK 8 1)) (s.mem_brk + 12) (PACK 0 1), mem_brk := s.mem_brk + 16, heap_listp := s.mem_brk + 8 } 4096 (by decide) h2
  have he := extend_heap_refused _ 4096 (by decide) (by decide) hr
  simp only [WSIZE, Nat.reduceDiv] at he
  unfold mm_init
  simp only [WSIZE, DSIZE, CHUNCKSIZE, Nat.reduceMul, Nat.reduceDiv, hs, hne, if_false, he, if_true]

/-- The call of `extend_heap` when the memory system grants `E` bytes: the three
words written before `merge` is called. -/
theorem extend_heap_eq (t : MemState) (E : Nat) (h8 : E % 8 = 0) (h16 : 16 ≤ E)
    (hE : E ≤ 20971520) (hcap : t.mem_brk + E ≤ t.mem_heap + MAX_HEAP)
    (hne : t.mem_brk ≠ MINUS_ONE) (h4 : 4 ≤ t.mem_brk) :
    extend_heap t (E / WSIZE) = merge { t with mem := PUT (PUT (PUT t.mem (t.mem_brk - 4) E) (t.mem_brk + E - 8) E) (t.mem_brk + E - 4) (PACK 0 1), mem_brk := t.mem_brk + E } t.mem_brk := by
  have e1 : GET_SIZE (PUT t.mem (t.mem_brk - 4) E) (t.mem_brk - 4) = E :=
    GET_SIZE_PUT_same _ _ _ h8 (by simp only [UINT]; omega)
  have e2 : GET_SIZE (PUT (PUT t.mem (t.mem_brk - 4) E) (t.mem_brk + E - 8) E) (t.mem_brk - 4) = E := by
    rw [GET_SIZE_PUT_other _ _ _ _ (by omega), e1]
  unfold extend_heap
  simp only [extend_size_eq E h8 (by simp only [SIZE_T]; omega),
    mem_sbrk_grow t E (by omega) hcap, hne, if_false, HDRP, FTRP, NEXT_BLKP, WSIZE, DSIZE,
    PACK_zero, e1, e2]

/-- When the memory system grants both the 16 and the 4096 bytes, `mm_init`
returns 0. -/
theorem mm_init_granted (s : MemState) (hb : s.mem_heap + MAX_HEAP < MINUS_ONE)
    (h1 : s.mem_brk + 16 + 4096 ≤ s.mem_heap + MAX_HEAP) : (mm_init s).2 = 0 := by
  have hne : s.mem_brk ≠ MINUS_ONE := by simp only [MAX_HEAP, MINUS_ONE] at h1 hb ⊢; omega
  have hne2 : s.mem_brk + 16 ≠ MINUS_ONE := by simp only [MAX_HEAP, MINUS_ONE] at h1 hb ⊢; omega
  have hs := mem_sbrk_grow s 16 (by decide) (by omega)
  have he := extend_heap_eq { s with mem := PUT (PUT (PUT (PUT s.mem s.mem_brk 0) (s.mem_brk + 4) (PACK 8 1)) (s.mem_brk + 8) (PACK 8 1)) (s.mem_brk + 12) (PACK 0 1), mem_brk := s.mem_brk + 16, heap_listp := s.mem_brk + 8 } 4096 (by decide) (by decide) (by decide) h1 hne2 (by show 4 ≤ s.mem_brk + 16; omega)
  have hP : PACK 8 1 % UINT = PACK 8 1 := by decide
  have hw : WellFormed { mem := PUT (PUT (PUT (PUT (PUT (PUT (PUT s.mem s.mem_brk 0) (s.mem_brk + 4) (PACK 8 1)) (s.mem_brk + 8) (PACK 8 1)) (s.mem_brk + 12) (PACK 0 1)) (s.mem_brk + 16 - 4) 4096) (s.mem_brk + 16 + 4096 - 8) 4096) (s.mem_brk + 16 + 4096 - 4) (PACK 0 1), mem_heap := s.mem_brk, mem_brk := s.mem_brk + 16 + 4096, heap_listp := s.mem_brk + 8, alloc_ptr := s.alloc_ptr } ([] ++ (4096, 0) :: []) := by
    refine ⟨rfl, ?_, ?_, ?_, ?_, ?_⟩
    · show s.mem_brk + 16 + 4096 ≤ s.mem_brk + 20971520
      omega
    · show GET _ (s.mem_brk + 4) = PACK 8 1
      rw [GET_PUT_other _ _ _ _ (by omega), GET_PUT_other _ _ _ _ (by omega),
        GET_PUT_other _ _ _ _ (by omega), GET_PUT_other _ _ _ _ (by omega),
        GET_PUT_other _ _ _ _ (by omega), GET_PUT_same, hP]
    · show GET _ (s.mem_brk + 8) = PACK 8 1
      rw [GET_PUT_other _ _ _ _ (by omega), GET_PUT_other _ _ _ _ (by omega),
        GET_PUT_other _ _ _ _ (by omega), GET_PUT_other _ _ _ _ (by omega), GET_PUT_same, hP]
    · show GET _ (s.mem_brk + 16 + 4096 - 4) = PACK 0 1
      rw [GET_PUT_same]
      rfl
    · show Chain _ (s.mem_brk + 16) [(4096, 0)] (s.mem_brk + 16 + 4096)
      apply Chain_single (by decide) (by decide) (by decide)
      · rw [GET_PUT_other _ _ _ _ (by omega), GET_PUT_other _ _ _ _ (by omega), GET_PUT_same]
        rfl
      · rw [GET_PUT_other _ _ _ _ (by omega), GET_PUT_same]
        rfl
  have hm := merge_wf_case1 hw (by decide) (by decide)
  have hmb := merge_base { mem := PUT (PUT (PUT (PUT (PUT (PUT (PUT s.mem s.mem_brk 0) (s.mem_brk + 4) (PACK 8 1)) (s.mem_brk + 8) (PACK 8 1)) (s.mem_brk + 12) (PACK 0 1)) (s.mem_brk + 16 - 4) 4096) (s.mem_brk + 16 + 4096 - 8) 4096) (s.mem_brk + 16 + 4096 - 4) (PACK 0 1), mem_heap := s.mem_brk, mem_brk := s.mem_brk + 16 + 4096, heap_listp := s.mem_brk + 8, alloc_ptr := s.alloc_ptr } (s.mem_brk + 16) s.mem_heap
  simp only [sizes, Nat.add_zero] at hm
  rw [hm] at hmb
  simp only at hmb he
  rw [hmb] at he
  simp only [WSIZE, Nat.reduceDiv] at he
  have hnn : s.mem_brk + 16 ≠ NULL := by simp only [NULL]; omega
  unfold mm_init
  simp only [WSIZE, DSIZE, CHUNCKSIZE, Nat.reduceMul, Nat.reduceDiv, hs, hne, if_false, he, hnn]
/-- C14 on the code: in a memory system whose break is 16 bytes below the
capacity, `mem_sbrk` grants the 16 bytes of padding, prologue and epilogue and
refuses the extension by 4096 bytes; `mm_init` returns -1, but the break has
moved by 16 bytes and the byte at offset 4 from the old break holds 9, not 0. -/
theorem mm_init_not_atomic :
    storeNearFull.mem_brk ≤ storeNearFull.mem_heap + MAX_HEAP ∧
    (mem_sbrk storeNearFull (toInt 16)).2 ≠ MINUS_ONE ∧
    (mem_sbrk (mem_sbrk storeNearFull (toInt 16)).1 (toInt 4096)).2 = MINUS_ONE ∧
    (mm_init storeNearFull).2 = -1 ∧
    (mm_init storeNearFull).1.mem_brk = storeNearFull.mem_brk + 16 ∧
    (mm_init storeNearFull).1.mem_brk ≠ storeNearFull.mem_brk ∧
    storeNearFull.mem (storeNearFull.mem_brk + 4) = 0 ∧
    (mm_init storeNearFull).1.mem (storeNearFull.mem_brk + 4) = 9 := by
  refine ⟨by decide, by decide, by decide, by decide, by decide, by decide, by decide, by decide⟩

/-- C14, amended: `mm_init` returns -1 exactly when the memory system cannot
grow by 16 + 4096 bytes (the region ends below the address `(void *) -1`).  When
`mem_sbrk` refuses the first 16 bytes, the break and every byte are as before
the call, and `heap_listp` is `(void *) -1`.  When `mem_sbrk` grants the 16
bytes and refuses the extension by 4096 bytes, the break is 16 bytes higher
than before, the padding word 0, the prologue header and footer `PACK(8,1)` and
the epilogue `PACK(0,1)` are written at the old break, and every other byte is
as before the call. -/
theorem mm_init_failure (s : MemState) (hb : s.mem_heap + MAX_HEAP < MINUS_ONE) :
    ((mm_init s).2 = -1 ↔ s.mem_heap + MAX_HEAP < s.mem_brk + 16 + 4096) ∧
    (s.mem_heap + MAX_HEAP < s.mem_brk + 16 →
      (mm_init s).1.mem = s.mem ∧ (mm_init s).1.mem_brk = s.mem_brk ∧
      (mm_init s).1.heap_listp = MINUS_ONE) ∧
    (s.mem_brk + 16 ≤ s.mem_heap + MAX_HEAP → s.mem_heap + MAX_HEAP < s.mem_brk + 16 + 4096 →
      (mm_init s).1.mem_brk = s.mem_brk + 16 ∧
      (mm_init s).1.heap_listp = s.mem_brk + 8 ∧
      GET (mm_init s).1.mem s.mem_brk = 0 ∧
      GET (mm_init s).1.mem (s.mem_brk + 4) = PACK 8 1 ∧
      GET (mm_init s).1.mem (s.mem_brk + 8) = PACK 8 1 ∧
      GET (mm_init s).1.mem (s.mem_brk + 12) = PACK 0 1 ∧
      ∀ x, x < s.mem_brk ∨ s.mem_brk + 16 ≤ x → (mm_init s).1.mem x = s.mem x) := by
  refine ⟨⟨fun h => ?_, fun h => ?_⟩, fun h => ?_, fun h1 h2 => ?_⟩
  · by_contra hc
    have := mm_init_granted s hb (by omega)
    rw [this] at h
    exact absurd h (by decide)
  · by_cases h1 : s.mem_heap + MAX_HEAP < s.mem_brk + 16
    · rw [mm_init_refused s h1]
    · rw [mm_init_half s hb (by omega) h]
  · rw [mm_init_refused s h]
    exact ⟨rfl, rfl, rfl⟩
  · rw [mm_init_half s hb h1 h2]
    refine ⟨rfl, rfl, ?_, ?_, ?_, ?_, ?_⟩
    · show GET (PUT (PUT (PUT (PUT s.mem s.mem_brk 0) _ _) _ _) _ _) s.mem_brk = 0
      rw [GET_PUT_other _ _ _ _ (by omega), GET_PUT_other _ _ _ _ (by omega),
        GET_PUT_other _ _ _ _ (by omega), GET_PUT_same]
      rfl
    · show GET (PUT (PUT (PUT (PUT s.mem s.mem_brk 0) _ _) _ _) _ _) (s.mem_brk + 4) = _
      rw [GET_PUT_other _ _ _ _ (by omega), GET_PUT_other _ _ _ _ (by omega), GET_PUT_same]
      rfl
    · show GET (PUT (PUT (PUT (PUT s.mem s.mem_brk 0) _ _) _ _) _ _) (s.mem_brk + 8) = _
      rw [GET_PUT_other _ _ _ _ (by omega), GET_PUT_same]
      rfl
    · show GET (PUT (PUT (PUT (PUT s.mem s.mem_brk 0) _ _) _ _) _ _) (s.mem_brk + 12) = _
      rw [GET_PUT_same]
      rfl
    · intro x hx
      show PUT (PUT (PUT (PUT s.mem s.mem_brk 0) _ _) _ _) _ _ x = s.mem x
      rw [PUT_PUT_byte _ _ _ _ _ _ (by omega) (by omega),
        PUT_PUT_byte _ _ _ _ _ _ (by omega) (by omega)]

/-- An instance of `mm_init_failure`: the memory system whose break is 16 bytes
below the capacity, where the 16 bytes are granted and the extension is
refused. -/
theorem mm_init_failure_witness :
    storeNearFull.mem_heap + MAX_HEAP < MINUS_ONE ∧
    storeNearFull.mem_brk + 16 ≤ storeNearFull.mem_heap + MAX_HEAP ∧
    storeNearFull.mem_heap + MAX_HEAP < storeNearFull.mem_brk + 16 + 4096 ∧
    (((mm_init storeNearFull).2 = -1 ↔
      storeNearFull.mem_heap + MAX_HEAP < storeNearFull.mem_brk + 16 + 4096) ∧
    (storeNearFull.mem_heap + MAX_HEAP < storeNearFull.mem_brk + 16 →
      (mm_init storeNearFull).1.mem = storeNearFull.mem ∧
      (mm_init storeNearFull).1.mem_brk = storeNearFull.mem_brk ∧
      (mm_init storeNearFull).1.heap_listp = MINUS_ONE) ∧
    (storeNearFull.mem_brk + 16 ≤ storeNearFull.mem_heap + MAX_HEAP →
      storeNearFull.mem_heap + MAX_HEAP < storeNearFull.mem_brk + 16 + 4096 →
      (mm_init storeNearFull).1.mem_brk = storeNearFull.mem_brk + 16 ∧
      (mm_init storeNearFull).1.heap_listp = storeNearFull.mem_brk + 8 ∧
      GET (mm_init storeNearFull).1.mem storeNearFull.mem_brk = 0 ∧
      GET (mm_init storeNearFull).1.mem (storeNearFull.mem_brk + 4) = PACK 8 1 ∧
      GET (mm_init storeNearFull).1.mem (storeNearFull.mem_brk + 8) = PACK 8 1 ∧
      GET (mm_init storeNearFull).1.mem (storeNearFull.mem_brk + 12) = PACK 0 1 ∧
      ∀ x, x < storeNearFull.mem_brk ∨ storeNearFull.mem_brk + 16 ≤ x →
        (mm_init storeNearFull).1.mem x = storeNearFull.mem x)) :=
  ⟨by decide, by decide, by decide, mm_init_failure storeNearFull (by decide)⟩

/-! ## Requests larger than the capacity -/

theorem mem_sizes_le (l : List (Nat × Nat)) (b : Nat × Nat) (h : b ∈ l) : b.1 ≤ sizes l := by
  induction l with
  | nil => simp at h
  | cons c t ih =>
    simp only [sizes]
    rcases List.mem_cons.1 h with e | e
    · rw [e]
      omega
    · have := ih e
      omega

theorem mem_sbrk_negative (s : MemState) (E : Nat) (h1 : 2147483648 ≤ E) (h2 : E < UINT) :
    mem_sbrk s (toInt E) = (s, MINUS_ONE) := by
  simp only [UINT] at h2
  have e : E % 4294967296 = E := Nat.mod_eq_of_lt h2
  have ht : toInt E < 0 := by
    unfold toInt
    simp only [UINT]
    rw [e, if_neg (by omega)]
    omega
  unfold mem_sbrk
  rw [if_pos (Or.inl ht)]

/-- C18, amended: on a well-formed heap, for every `size` above `MAX_HEAP` with
`size + 15` below `2^32` (so that the adjusted size fits an `unsigned int`),
`mm_malloc(size)` returns `NULL`, and every heap byte, the break, the base and
`heap_listp` are as before. -/
theorem mm_malloc_oversize (s : MemState) (l : List (Nat × Nat)) (size : Nat)
    (hwf : WellFormed s l) (hgt : MAX_HEAP < size) (hlt : size + 15 < UINT) :
    ∃ s', mm_malloc s size = some (s', NULL) ∧ s'.mem = s.mem ∧ s'.mem_brk = s.mem_brk ∧
      s'.mem_heap = s.mem_heap ∧ s'.heap_listp = s.heap_listp := by
  simp only [MAX_HEAP] at hgt
  simp only [UINT] at hlt
  have hA := adjust_eq size (by omega) (by simp only [SIZE_T]; omega)
  have h8 := MAX_mod _ (adjust_mod size)
  have hM : MAX (adjust size) CHUNCKSIZE = adjust size := by
    unfold MAX
    simp only [CHUNCKSIZE]
    rw [if_pos (by omega)]
  have hsz := hwf.sizes_lt
  have hend := hwf.sizes_eq
  have hfit : ∀ b ∈ l, b.2 = 0 → b.1 < adjust size := by
    intro b hb _
    have := mem_sizes_le l b hb
    omega
  have hfull : mem_sbrk s (toInt (MAX (adjust size) CHUNCKSIZE)) = (s, MINUS_ONE) := by
    rw [hM]
    by_cases hh : adjust size < 2147483648
    · exact mem_sbrk_refuses s _ hh (by simp only [MAX_HEAP]; omega)
    · exact mem_sbrk_negative s _ (by omega) (by simp only [UINT]; omega)
  have hs : mem_sbrk { s with alloc_ptr := NULL } (toInt (MAX (adjust size) CHUNCKSIZE))
      = ({ s with alloc_ptr := NULL }, MINUS_ONE) := by
    rw [mem_sbrk_alloc_ptr, hfull]
  have he := extend_heap_refused { s with alloc_ptr := NULL } _ h8
    (by rw [hM]; exact adjust_lt size) hs
  refine ⟨{ s with alloc_ptr := NULL }, ?_, rfl, rfl, rfl, rfl⟩
  have h0 : size ≠ 0 := by omega
  unfold mm_malloc
  simp only [h0, if_false, find_fit_none hwf hfit, ne_eq, not_true_eq_false, he, if_true]

/-- An instance of `mm_malloc_oversize`: a request of `MAX_HEAP + 1` bytes on
the heap right after initialisation. -/
theorem mm_malloc_oversize_witness :
    WellFormed heap0 [(4096, 0)] ∧ MAX_HEAP < 20971521 ∧ 20971521 + 15 < UINT ∧
    ∃ s', mm_malloc heap0 20971521 = some (s', NULL) ∧ s'.mem = heap0.mem ∧
      s'.mem_brk = heap0.mem_brk ∧ s'.mem_heap = heap0.mem_heap ∧
      s'.heap_listp = heap0.heap_listp :=
  ⟨heap0_wellFormed, by decide, by decide,
    mm_malloc_oversize heap0 [(4096, 0)] 20971521 heap0_wellFormed (by decide) (by decide)⟩

/-- C18 on the code: on the well-formed heap right after initialisation,
`mm_malloc(2^32 + 8)` computes `asize = 2^32 + 16`, which `extend_heap` passes
to `mem_sbrk` as the `int` 16; the break moves by 16 bytes and the call returns
a non-null pointer to a block whose header size is 16.  On the well-formed heap
whose only block is allocated, `mm_malloc(2^64 - 1)` computes `asize = 8`, the
heap grows by 4096 bytes and the call returns a non-null pointer as well. -/
theorem mm_malloc_oversize_accepted :
    (WellFormed heap0 [(4096, 0)] ∧ MAX_HEAP < 4294967304 ∧
      adjust 4294967304 = 4294967312 ∧
      toInt (MAX (adjust 4294967304) CHUNCKSIZE) = 16 ∧
      ∃ r, mm_malloc heap0 4294967304 = some r ∧ r.2 ≠ NULL ∧
        r.1.mem_brk = heap0.mem_brk + 16 ∧ GET_SIZE r.1.mem (HDRP r.2) = 16 ∧
        GET_ALLOC r.1.mem (HDRP r.2) = 1) ∧
    (WellFormed (heapWithTail 0) [(4096, 1)] ∧ MAX_HEAP < 18446744073709551615 ∧
      adjust 18446744073709551615 = 8 ∧
      toInt (MAX (adjust 18446744073709551615) CHUNCKSIZE) = 4096 ∧
      ∃ r, mm_malloc (heapWithTail 0) 18446744073709551615 = some r ∧ r.2 ≠ NULL ∧
        r.1.mem_brk = (heapWithTail 0).mem_brk + 4096 ∧
        GET_SIZE r.1.mem (HDRP r.2) = 8 ∧ GET_ALLOC r.1.mem (HDRP r.2) = 1) :=
  ⟨⟨heap0_wellFormed, by decide, by decide, by decide,
      (place { (extend_heap { heap0 with alloc_ptr := NULL } 1073741828).1 with alloc_ptr := 4112 } 4112 4294967312, 4112),
      by rfl, by decide, by decide, by decide, by decide⟩,
    ⟨heapWithTail_zero_wellFormed, by decide, by decide, by decide,
      (place { (extend_heap { heapWithTail 0 with alloc_ptr := NULL } 1024).1 with alloc_ptr := 8208 } 8208 8, 8208),
      by rfl, by decide, by decide, by decide, by decide⟩⟩

/-! ## Instances on sample heaps -/

/-- An instance of `free_three_coalesces`: the first three of the four allocated
blocks of `heap4`, between the prologue and the fourth block. -/
theorem free_three_coalesces_witness :
    WellFormed heap4 ([] ++ (16, 1) :: (16, 1) :: (16, 1) :: [(16, 1), (4032, 0)]) ∧
    (prevTag []).2 = 1 ∧ (nextTag [(16, 1), (4032, 0)]).2 = 1 ∧
    (WellFormed (mm_free (mm_free (mm_free heap4 (heap4.mem_heap + 16 + sizes ([] : List (Nat × Nat))))
        (heap4.mem_heap + 16 + sizes ([] : List (Nat × Nat)) + 16 + 16)) (heap4.mem_heap + 16 + sizes ([] : List (Nat × Nat)) + 16))
      (([] : List (Nat × Nat)) ++ (16 + 16 + 16, 0) :: [(16, 1), (4032, 0)]) ∧
    GET (mm_free (mm_free (mm_free heap4 (heap4.mem_heap + 16 + sizes ([] : List (Nat × Nat))))
        (heap4.mem_heap + 16 + sizes ([] : List (Nat × Nat)) + 16 + 16)) (heap4.mem_heap + 16 + sizes ([] : List (Nat × Nat)) + 16)).mem
      (heap4.mem_heap + 16 + sizes ([] : List (Nat × Nat)) - 4) = PACK (16 + 16 + 16) 0 ∧
    GET (mm_free (mm_free (mm_free heap4 (heap4.mem_heap + 16 + sizes ([] : List (Nat × Nat))))
        (heap4.mem_heap + 16 + sizes ([] : List (Nat × Nat)) + 16 + 16)) (heap4.mem_heap + 16 + sizes ([] : List (Nat × Nat)) + 16)).mem
      (heap4.mem_heap + 16 + sizes ([] : List (Nat × Nat)) + (16 + 16 + 16) - 8) = PACK (16 + 16 + 16) 0 ∧
    merge_case (mm_free_mark (mm_free (mm_free heap4 (heap4.mem_heap + 16 + sizes ([] : List (Nat × Nat))))
        (heap4.mem_heap + 16 + sizes ([] : List (Nat × Nat)) + 16 + 16)) (heap4.mem_heap + 16 + sizes ([] : List (Nat × Nat)) + 16))
      (heap4.mem_heap + 16 + sizes ([] : List (Nat × Nat)) + 16) = 4) :=
  have hw : WellFormed heap4 ([] ++ (16, 1) :: (16, 1) :: (16, 1) :: [(16, 1), (4032, 0)]) :=
    ⟨by decide, by decide, by decide, by decide, by decide, by decide⟩
  ⟨hw, rfl, rfl, free_three_coalesces heap4 [] [(16, 1), (4032, 0)] 16 16 16 hw rfl rfl⟩

/-- An instance of `merge_table`: the second block of `heap2` in the state in
which `mm_free` calls `merge`, between an allocated block and a free block. -/
theorem merge_table_witness :
    WellFormed (mm_free_mark heap2 4128) ([(16, 1)] ++ (16, 0) :: [(4064, 0)]) ∧
    (GET_ALLOC (mm_free_mark heap2 4128).mem (FTRP (mm_free_mark heap2 4128).mem (PREV_BLKP (mm_free_mark heap2 4128).mem ((mm_free_mark heap2 4128).mem_heap + 16 + sizes [(16, 1)]))) = (prevTag [(16, 1)]).2 ∧
    GET_ALLOC (mm_free_mark heap2 4128).mem (HDRP (NEXT_BLKP (mm_free_mark heap2 4128).mem ((mm_free_mark heap2 4128).mem_heap + 16 + sizes [(16, 1)]))) = (nextTag [(4064, 0)]).2 ∧
    ([(16, 1)] = [] → (prevTag [(16, 1)]).2 = 1) ∧ ([(4064, 0)] = [] → (nextTag [(4064, 0)]).2 = 1) ∧
    ((prevTag [(16, 1)]).2 = 1 → (nextTag [(4064, 0)]).2 = 1 →
      merge (mm_free_mark heap2 4128) ((mm_free_mark heap2 4128).mem_heap + 16 + sizes [(16, 1)]) = ((mm_free_mark heap2 4128), (mm_free_mark heap2 4128).mem_heap + 16 + sizes [(16, 1)])) ∧
    ((prevTag [(16, 1)]).2 = 1 → (nextTag [(4064, 0)]).2 = 0 →
      merge (mm_free_mark heap2 4128) ((mm_free_mark heap2 4128).mem_heap + 16 + sizes [(16, 1)]) = ({ (mm_free_mark heap2 4128) with mem := PUT (PUT (mm_free_mark heap2 4128).mem ((mm_free_mark heap2 4128).mem_heap + 16 + sizes [(16, 1)] - 4) (PACK (16 + (nextTag [(4064, 0)]).1) 0)) ((mm_free_mark heap2 4128).mem_heap + 16 + sizes [(16, 1)] + 16 + (nextTag [(4064, 0)]).1 - 8) (PACK (16 + (nextTag [(4064, 0)]).1) 0) }, (mm_free_mark heap2 4128).mem_heap + 16 + sizes [(16, 1)])) ∧
    ((prevTag [(16, 1)]).2 = 0 → (nextTag [(4064, 0)]).2 = 1 →
      merge (mm_free_mark heap2 4128) ((mm_free_mark heap2 4128).mem_heap + 16 + sizes [(16, 1)]) = ({ (mm_free_mark heap2 4128) with mem := PUT (PUT (mm_free_mark heap2 4128).mem ((mm_free_mark heap2 4128).mem_heap + 16 + sizes [(16, 1)] + 16 - 8) (PACK (16 + (prevTag [(16, 1)]).1) 0)) ((mm_free_mark heap2 4128).mem_heap + 16 + sizes [(16, 1)] - (prevTag [(16, 1)]).1 - 4) (PACK (16 + (prevTag [(16, 1)]).1) 0) }, (mm_free_mark heap2 4128).mem_heap + 16 + sizes [(16, 1)] - (prevTag [(16, 1)]).1)) ∧
    ((prevTag [(16, 1)]).2 = 0 → (nextTag [(4064, 0)]).2 = 0 →
      merge (mm_free_mark heap2 4128) ((mm_free_mark heap2 4128).mem_heap + 16 + sizes [(16, 1)]) = ({ (mm_free_mark heap2 4128) with mem := PUT (PUT (mm_free_mark heap2 4128).mem ((mm_free_mark heap2 4128).mem_heap + 16 + sizes [(16, 1)] - (prevTag [(16, 1)]).1 - 4) (PACK (16 + ((prevTag [(16, 1)]).1 + (nextTag [(4064, 0)]).1)) 0)) ((mm_free_mark heap2 4128).mem_heap + 16 + sizes [(16, 1)] + 16 + (nextTag [(4064, 0)]).1 - 8) (PACK (16 + ((prevTag [(16, 1)]).1 + (nextTag [(4064, 0)]).1)) 0) }, (mm_free_mark heap2 4128).mem_heap + 16 + sizes [(16, 1)] - (prevTag [(16, 1)]).1)) ∧
    GET (merge (mm_free_mark heap2 4128) ((mm_free_mark heap2 4128).mem_heap + 16 + sizes [(16, 1)])).1.mem ((mm_free_mark heap2 4128).mem_heap + 4) = GET (mm_free_mark heap2 4128).mem ((mm_free_mark heap2 4128).mem_heap + 4) ∧
    GET (merge (mm_free_mark heap2 4128) ((mm_free_mark heap2 4128).mem_heap + 16 + sizes [(16, 1)])).1.mem ((mm_free_mark heap2 4128).mem_heap + 8) = GET (mm_free_mark heap2 4128).mem ((mm_free_mark heap2 4128).mem_heap + 8) ∧
    GET (merge (mm_free_mark heap2 4128) ((mm_free_mark heap2 4128).mem_heap + 16 + sizes [(16, 1)])).1.mem ((mm_free_mark heap2 4128).mem_brk - 4) = GET (mm_free_mark heap2 4128).mem ((mm_free_mark heap2 4128).mem_brk - 4) ∧
    (merge (mm_free_mark heap2 4128) ((mm_free_mark heap2 4128).mem_heap + 16 + sizes [(16, 1)])).1.mem_brk = (mm_free_mark heap2 4128).mem_brk) :=
  have hw : WellFormed (mm_free_mark heap2 4128) ([(16, 1)] ++ (16, 0) :: [(4064, 0)]) :=
    ⟨by decide, by decide, by decide, by decide, by decide, by decide⟩
  ⟨hw, merge_table (mm_free_mark heap2 4128) [(16, 1)] [(4064, 0)] 16 hw⟩

/-- An instance of `find_fit_first_fit`: a search for 100 bytes in `heap1`. -/
theorem find_fit_first_fit_witness :
    WellFormed heap1 [(16, 1), (4080, 0)] ∧
    (∃ p, find_fit heap1 100 = some p ∧
      (p = NULL ↔ ∀ b ∈ [(16, 1), (4080, 0)], b.2 = 0 → b.1 < 100) ∧
      (p ≠ NULL → ∃ l1 sz l2, [(16, 1), (4080, 0)] = l1 ++ (sz, 0) :: l2 ∧ 100 ≤ sz ∧
        (∀ b ∈ l1, b.2 = 0 → b.1 < 100) ∧ p = heap1.mem_heap + 16 + sizes l1) ∧
      find_fit_loop heap1.mem 100 find_fit_passes (heap1.mem_heap + 16) = some p) :=
  ⟨heap1_wellFormed, find_fit_first_fit heap1 [(16, 1), (4080, 0)] 100 heap1_wellFormed⟩

/-- An instance of `place_spec`: 16 bytes placed in the free block of 4096 bytes
of the heap right after initialisation. -/
theorem place_spec_witness :
    WellFormed heap0 ([] ++ (4096, 0) :: []) ∧ 16 % 8 = 0 ∧ 16 ≤ 16 ∧ 16 ≤ 4096 ∧
    ((16 ≤ 4096 - 16 →
      place heap0 (heap0.mem_heap + 16 + sizes ([] : List (Nat × Nat))) 16 = { heap0 with mem := PUT (PUT (PUT (PUT heap0.mem (heap0.mem_heap + 16 + sizes ([] : List (Nat × Nat)) - 4) (PACK 16 1)) (heap0.mem_heap + 16 + sizes ([] : List (Nat × Nat)) + 16 - 8) (PACK 16 1)) (heap0.mem_heap + 16 + sizes ([] : List (Nat × Nat)) + 16 - 4) (PACK (4096 - 16) 0)) (heap0.mem_heap + 16 + sizes ([] : List (Nat × Nat)) + 16 + (4096 - 16) - 8) (PACK (4096 - 16) 0) } ∧
      WellFormed (place heap0 (heap0.mem_heap + 16 + sizes ([] : List (Nat × Nat))) 16)
        (([] : List (Nat × Nat)) ++ (16, 1) :: (4096 - 16, 0) :: ([] : List (Nat × Nat))) ∧
      sizes (([] : List (Nat × Nat)) ++ (16, 1) :: (4096 - 16, 0) :: ([] : List (Nat × Nat))) = sizes (([] : List (Nat × Nat)) ++ (4096, 0) :: ([] : List (Nat × Nat)))) ∧
    (4096 - 16 < 16 →
      place heap0 (heap0.mem_heap + 16 + sizes ([] : List (Nat × Nat))) 16 = { heap0 with mem := PUT (PUT heap0.mem (heap0.mem_heap + 16 + sizes ([] : List (Nat × Nat)) - 4) (PACK 4096 1)) (heap0.mem_heap + 16 + sizes ([] : List (Nat × Nat)) + 4096 - 8) (PACK 4096 1) } ∧
      WellFormed (place heap0 (heap0.mem_heap + 16 + sizes ([] : List (Nat × Nat))) 16) (([] : List (Nat × Nat)) ++ (4096, 1) :: ([] : List (Nat × Nat))) ∧
      sizes (([] : List (Nat × Nat)) ++ (4096, 1) :: ([] : List (Nat × Nat))) = sizes (([] : List (Nat × Nat)) ++ (4096, 0) :: ([] : List (Nat × Nat))))) :=
  ⟨heap0_wellFormed, by decide, by decide, by decide,
    place_spec heap0 [] [] 4096 16 heap0_wellFormed (by decide) (by decide) (by decide)⟩

/-- An instance of `mm_free_order`: the two allocated blocks of `heap2`. -/
theorem mm_free_order_witness :
    WellFormed heap2 ([] ++ (16, 1) :: ([] ++ (16, 1) :: [(4064, 0)])) ∧
    (∃ L, WellFormed (mm_free (mm_free heap2 (heap2.mem_heap + 16 + sizes ([] : List (Nat × Nat))))
          (heap2.mem_heap + 16 + sizes ([] : List (Nat × Nat)) + 16 + sizes ([] : List (Nat × Nat)))) L ∧
      WellFormed (mm_free (mm_free heap2 (heap2.mem_heap + 16 + sizes ([] : List (Nat × Nat)) + 16 + sizes ([] : List (Nat × Nat))))
          (heap2.mem_heap + 16 + sizes ([] : List (Nat × Nat)))) L ∧
      (mm_free (mm_free heap2 (heap2.mem_heap + 16 + sizes ([] : List (Nat × Nat))))
          (heap2.mem_heap + 16 + sizes ([] : List (Nat × Nat)) + 16 + sizes ([] : List (Nat × Nat)))).mem_brk
        = (mm_free (mm_free heap2 (heap2.mem_heap + 16 + sizes ([] : List (Nat × Nat)) + 16 + sizes ([] : List (Nat × Nat))))
          (heap2.mem_heap + 16 + sizes ([] : List (Nat × Nat)))).mem_brk ∧
      (mm_free (mm_free heap2 (heap2.mem_heap + 16 + sizes ([] : List (Nat × Nat))))
          (heap2.mem_heap + 16 + sizes ([] : List (Nat × Nat)) + 16 + sizes ([] : List (Nat × Nat)))).mem_heap
        = (mm_free (mm_free heap2 (heap2.mem_heap + 16 + sizes ([] : List (Nat × Nat)) + 16 + sizes ([] : List (Nat × Nat))))
          (heap2.mem_heap + 16 + sizes ([] : List (Nat × Nat)))).mem_heap ∧
      (mm_free (mm_free heap2 (heap2.mem_heap + 16 + sizes ([] : List (Nat × Nat))))
          (heap2.mem_heap + 16 + sizes ([] : List (Nat × Nat)) + 16 + sizes ([] : List (Nat × Nat)))).heap_listp
        = (mm_free (mm_free heap2 (heap2.mem_heap + 16 + sizes ([] : List (Nat × Nat)) + 16 + sizes ([] : List (Nat × Nat))))
          (heap2.mem_heap + 16 + sizes ([] : List (Nat × Nat)))).heap_listp ∧
      sizes L = sizes (([] : List (Nat × Nat)) ++ (16, 1) :: (([] : List (Nat × Nat)) ++ (16, 1) :: [(4064, 0)]))) :=
  have hw : WellFormed heap2 ([] ++ (16, 1) :: ([] ++ (16, 1) :: [(4064, 0)])) :=
    ⟨by decide, by decide, by decide, by decide, by decide, by decide⟩
  ⟨hw, mm_free_order heap2 [] [] [(4064, 0)] 16 16 hw⟩

/-- An instance of `mm_free_writes_only_tags`: the second block of `heap2`,
after an allocated block and before a free block. -/
theorem mm_free_writes_only_tags_witness :
    WellFormed heap2 ([(16, 1)] ++ (16, 1) :: [(4064, 0)]) ∧
    ((mm_free heap2 (heap2.mem_heap + 16 + sizes [(16, 1)])).mem_brk = heap2.mem_brk ∧
    (mm_free heap2 (heap2.mem_heap + 16 + sizes [(16, 1)])).heap_listp = heap2.heap_listp ∧
    (mm_free heap2 (heap2.mem_heap + 16 + sizes [(16, 1)])).mem_heap = heap2.mem_heap ∧
    (∀ x, x < heap2.mem_heap + 12 → (mm_free heap2 (heap2.mem_heap + 16 + sizes [(16, 1)])).mem x = heap2.mem x) ∧
    (∀ x, heap2.mem_brk - 4 ≤ x → (mm_free heap2 (heap2.mem_heap + 16 + sizes [(16, 1)])).mem x = heap2.mem x) ∧
    (∀ k1 c k2, [(16, 1)] ++ (16, 1) :: [(4064, 0)] = k1 ++ (c, 1) :: k2 →
      heap2.mem_heap + 16 + sizes k1 ≠ heap2.mem_heap + 16 + sizes [(16, 1)] →
      ∀ x, heap2.mem_heap + 16 + sizes k1 ≤ x → x < heap2.mem_heap + 16 + sizes k1 + c - 8 →
        (mm_free heap2 (heap2.mem_heap + 16 + sizes [(16, 1)])).mem x = heap2.mem x) ∧
    (∀ x, (mm_free heap2 (heap2.mem_heap + 16 + sizes [(16, 1)])).mem x ≠ heap2.mem x →
      (heap2.mem_heap + 16 + sizes [(16, 1)] - 4 ≤ x ∧ x < heap2.mem_heap + 16 + sizes [(16, 1)]) ∨
      (heap2.mem_heap + 16 + sizes [(16, 1)] + 16 - 8 ≤ x ∧ x < heap2.mem_heap + 16 + sizes [(16, 1)] + 16 - 4) ∨
      ((prevTag [(16, 1)]).2 = 0 ∧ heap2.mem_heap + 16 + sizes [(16, 1)] - (prevTag [(16, 1)]).1 - 4 ≤ x ∧
        x < heap2.mem_heap + 16 + sizes [(16, 1)] - (prevTag [(16, 1)]).1) ∨
      ((nextTag [(4064, 0)]).2 = 0 ∧ heap2.mem_heap + 16 + sizes [(16, 1)] + 16 + (nextTag [(4064, 0)]).1 - 8 ≤ x ∧
        x < heap2.mem_heap + 16 + sizes [(16, 1)] + 16 + (nextTag [(4064, 0)]).1 - 4))) :=
  have hw : WellFormed heap2 ([(16, 1)] ++ (16, 1) :: [(4064, 0)]) :=
    ⟨by decide, by decide, by decide, by decide, by decide, by decide⟩
  ⟨hw, mm_free_writes_only_tags heap2 [(16, 1)] [(4064, 0)] 16 hw⟩

/-! ## `mm_malloc` when the memory system cannot grow -/

theorem extend_size_lt (size : Nat) (hlt : size + 15 < UINT) :
    MAX (adjust size) CHUNCKSIZE < UINT := by
  simp only [UINT] at hlt ⊢
  have ha : adjust size < 4294967296 := by
    by_cases h : size ≤ 8
    · rw [adjust_small size h]
      decide
    · have e := adjust_eq size (by omega) (by simp only [SIZE_T]; omega)
      omega
  unfold MAX
  simp only [CHUNCKSIZE]
  split <;> omega

/-- C8, amended: on a well-formed heap, for `size > 0` with `size + 15` below
`2^32` (so that `max(asize, 4096)` fits an `unsigned int`), when no free block
has `asize` bytes and the memory system cannot grow by `E = max(asize, 4096)`
bytes (the break plus `E` lies beyond the capacity), `mm_malloc(size)` returns
`NULL`, and every heap byte, the break, the base and `heap_listp` are as
before. -/
theorem mm_malloc_store_full (s : MemState) (l : List (Nat × Nat)) (size : Nat)
    (hwf : WellFormed s l) (hpos : 0 < size) (hlt : size + 15 < UINT)
    (hfit : ∀ b ∈ l, b.2 = 0 → b.1 < adjust size)
    (hcap : s.mem_heap + MAX_HEAP < s.mem_brk + MAX (adjust size) CHUNCKSIZE) :
    ∃ s', mm_malloc s size = some (s', NULL) ∧ s'.mem = s.mem ∧ s'.mem_brk = s.mem_brk ∧
      s'.mem_heap = s.mem_heap ∧ s'.heap_listp = s.heap_listp := by
  have hE := extend_size_lt size hlt
  have h8 := MAX_mod _ (adjust_mod size)
  have hfull : mem_sbrk s (toInt (MAX (adjust size) CHUNCKSIZE)) = (s, MINUS_ONE) := by
    by_cases hh : MAX (adjust size) CHUNCKSIZE < 2147483648
    · exact mem_sbrk_refuses s _ hh hcap
    · exact mem_sbrk_negative s _ (by omega) hE
  have hs : mem_sbrk { s with alloc_ptr := NULL } (toInt (MAX (adjust size) CHUNCKSIZE))
      = ({ s with alloc_ptr := NULL }, MINUS_ONE) := by
    rw [mem_sbrk_alloc_ptr, hfull]
  have he := extend_heap_refused { s with alloc_ptr := NULL } _ h8
    (by simp only [UINT] at hE; simp only [SIZE_T]; omega) hs
  refine ⟨{ s with alloc_ptr := NULL }, ?_, rfl, rfl, rfl, rfl⟩
  have h0 : size ≠ 0 := by omega
  unfold mm_malloc
  simp only [h0, if_false, find_fit_none hwf hfit, ne_eq, not_true_eq_false, he, if_true]

/-- An instance of `mm_malloc_store_full`: a request of 2^31 bytes right after
initialisation, where the `int` made from the extension is negative. -/
theorem mm_malloc_store_full_witness :
    WellFormed heap0 [(4096, 0)] ∧ 0 < 2147483648 ∧ 2147483648 + 15 < UINT ∧
    (∀ b ∈ [((4096 : Nat), (0 : Nat))], b.2 = 0 → b.1 < adjust 2147483648) ∧
    heap0.mem_heap + MAX_HEAP < heap0.mem_brk + MAX (adjust 2147483648) CHUNCKSIZE ∧
    ∃ s', mm_malloc heap0 2147483648 = some (s', NULL) ∧ s'.mem = heap0.mem ∧
      s'.mem_brk = heap0.mem_brk ∧ s'.mem_heap = heap0.mem_heap ∧
      s'.heap_listp = heap0.heap_listp :=
  have hfit : ∀ b ∈ [((4096 : Nat), (0 : Nat))], b.2 = 0 → b.1 < adjust 2147483648 := by decide
  ⟨heap0_wellFormed, by decide, by decide, hfit, by decide,
    mm_malloc_store_full heap0 [(4096, 0)] 2147483648 heap0_wellFormed (by decide) (by decide)
      hfit (by decide)⟩

/-- C8 on the code: on the well-formed heap right after initialisation, for
`size = 2^32 + 8`, no free block has `asize = 2^32 + 16` bytes and the memory
system cannot grow by that many bytes; `extend_heap` passes the `int` 16 to
`mem_sbrk`, which grants it, and `mm_malloc` returns a non-null pointer, with
the break 16 bytes higher and the byte at address 4108 changed from 0 to 17. -/
theorem mm_malloc_store_full_accepted :
    WellFormed heap0 [(4096, 0)] ∧ 0 < 4294967304 ∧
    (∀ b ∈ [((4096 : Nat), (0 : Nat))], b.2 = 0 → b.1 < adjust 4294967304) ∧
    MAX (adjust 4294967304) CHUNCKSIZE = 4294967312 ∧
    heap0.mem_heap + MAX_HEAP < heap0.mem_brk + MAX (adjust 4294967304) CHUNCKSIZE ∧
    mem_sbrk heap0 (toInt (MAX (adjust 4294967304) CHUNCKSIZE))
      ≠ (heap0, MINUS_ONE) ∧
    ∃ r, mm_malloc heap0 4294967304 = some r ∧ r.2 = 4112 ∧ r.2 ≠ NULL ∧
      r.1.mem_brk = heap0.mem_brk + 16 ∧ r.1.mem_brk ≠ heap0.mem_brk ∧
      heap0.mem 4108 = 0 ∧ r.1.mem 4108 = 17 :=
  ⟨heap0_wellFormed, by decide, by decide, by decide, by decide,
    fun h => absurd (congrArg Prod.snd h) (by decide),
    (place { (extend_heap { heap0 with alloc_ptr := NULL } 1073741828).1 with alloc_ptr := 4112 } 4112 4294967312, 4112),
    by rfl, rfl, by decide, by decide, by decide, by decide, by decide⟩

end MemAllocator
